import Mathlib

/-! # FlashFeed: market data server

A shallow embedding of the server side of FlashFeed (`MarketDataServer.cpp`,
`MarketDataServer.hpp`, `DataParser.hpp`, `DataParser.cpp`, `Configuration.cpp`) and of
the read loop of its client (`MarketDataWorker.cpp`), with the properties of the cache,
the subscription registry, the command loop, the refresh pass, the two parsers, the
configuration loader and the wire format.

Conventions of the embedding

* `std::string` is a sequence of bytes (`CppString`); string literals of the source
  are ASCII and are written with `lit`.
* `double` is its IEEE-754 binary64 bit pattern (`Double`); the only thing the
  server does with a bar's numbers is copy them and hand them to the JSON library.
* `std::unordered_map<K, V>` is an association list in iteration order (`UMap`).
  The C++ standard leaves the position of a newly inserted key unspecified; the
  embedding appends it. No theorem below depends on that position.
* `std::set<std::weak_ptr<tcp::socket>, std::owner_less<...>>` is a list of handles
  in ascending owner order. A `Handle` is the identity of the control block that a
  `shared_ptr<tcp::socket>` and the `weak_ptr`s made from it share.
* A mutex-protected method is one atomic state transition.
* What the program takes from outside is a parameter: the number conversions of the
  C, C++ and JSON libraries (`to_chars`, `strtod`, `stod`, `num_get`, `ofInt`,
  `truncate`), what arrives on a socket, what a refresh pass fetches (`Environment`,
  `World`), and the files it reads (`FileSystem`).
-/

namespace FlashFeed

/-! ## Strings and numbers -/

/-- A `std::string`: a sequence of bytes. -/
abbrev CppString := List UInt8

/-- An ASCII string literal of the source as bytes. -/
def lit (s : String) : CppString := s.data.map (fun c => UInt8.ofNat c.toNat)

/-- `std::to_string` of an unsigned integer: its decimal digits. -/
def to_string (n : Nat) : CppString := (Nat.toDigits 10 n).map (fun c => UInt8.ofNat c.toNat)

/-- `a < b` on `std::string`: lexicographic comparison of the bytes as unsigned
values, a proper prefix being smaller. -/
def strLt : CppString → CppString → Bool
  | _, [] => false
  | [], _ :: _ => true
  | a :: as, b :: bs =>
    if a.toNat < b.toNat then true
    else if b.toNat < a.toNat then false
    else strLt as bs

/-- A `double`, as its IEEE-754 binary64 bit pattern. -/
abbrev Double := UInt64

/-- `std::isfinite`: the eleven exponent bits are not all ones. -/
def isfinite (x : Double) : Bool := decide (x.toNat / 2 ^ 52 % 2048 ≠ 2047)

/-! ## `std::unordered_map` -/

namespace UMap

variable {K V : Type} [DecidableEq K]

/-- `m.find(k)`: the mapped value of the entry with key `k`, `none` for `m.end()`. -/
def find : List (K × V) → K → Option V
  | [], _ => none
  | (k', v) :: rest, k => if k' = k then some v else find rest k

/-- `m[k] = v`: overwrite the mapped value of `k`, inserting the key when absent. -/
def assign : List (K × V) → K → V → List (K × V)
  | [], k, v => [(k, v)]
  | (k', v') :: rest, k, v =>
    if k' = k then (k', v) :: rest else (k', v') :: assign rest k v

/-- `m.erase(it)` for the iterator `it` that `m.find(k)` returned. -/
def erase : List (K × V) → K → List (K × V)
  | [], _ => []
  | (k', v') :: rest, k => if k' = k then rest else (k', v') :: erase rest k

/-- `f(m[k])`: an in-place modification `f` of the mapped value that `operator[]`
returns for `k`; an absent key is inserted first with the value-initialised `dflt`. -/
def update (dflt : V) (f : V → V) : List (K × V) → K → List (K × V)
  | [], k => [(k, f dflt)]
  | (k', v) :: rest, k =>
    if k' = k then (k', f v) :: rest else (k', v) :: update dflt f rest k

end UMap

/-! ## `std::set<std::weak_ptr<tcp::socket>, std::owner_less<...>>` -/

/-- The identity of a socket's control block: what `std::owner_less` compares. Two
`weak_ptr`s are equivalent in the set exactly when they have the same `Handle`. -/
abbrev Handle := Nat

namespace WeakSet

/-- `s.insert(w)`: walk the elements in owner order; `w` goes before the first greater
element, and nothing happens when an equivalent element is met. -/
def insert (h : Handle) : List Handle → List Handle
  | [] => [h]
  | x :: xs =>
    if h < x then h :: x :: xs
    else if x < h then x :: insert h xs
    else x :: xs

/-- `s.erase(w)`: remove the element equivalent to `w`, when there is one. -/
def erase (h : Handle) : List Handle → List Handle
  | [] => []
  | x :: xs => if x = h then xs else x :: erase h xs

end WeakSet

/-! ## Bars (`DataParser.hpp`) -/

/-- One OHLCV bar: `struct MarketDataEntry`. -/
structure MarketDataEntry where
  m_timestamp : CppString
  m_open : Double
  m_high : Double
  m_low : Double
  m_close : Double
  m_volume : Double
  deriving DecidableEq, Repr

namespace MarketDataServer

/-! ## `DataCache` -/

/-- The latest-snapshot store: `m_cache`, keyed by symbol. -/
structure DataCache where
  m_cache : List (CppString × List MarketDataEntry)
  deriving DecidableEq, Repr

namespace DataCache

/-- A default-constructed cache (`std::make_shared<DataCache>()`): no entry. -/
def empty : DataCache := ⟨[]⟩

/-- `DataCache::updateData`: `m_cache[symbol] = data`. -/
def updateData (self : DataCache) (symbol : CppString) (data : List MarketDataEntry) :
    DataCache :=
  ⟨UMap.assign self.m_cache symbol data⟩

/-- `DataCache::getData`, a `const` method: the vector stored under `symbol`, or an
empty vector when `find` returns `end()`. -/
def getData (self : DataCache) (symbol : CppString) : List MarketDataEntry :=
  match UMap.find self.m_cache symbol with
  | some data => data
  | none => []

/-- The cache after a sequence of `updateData(symbol, data)` calls, oldest first. -/
def applyUpdates (self : DataCache) (calls : List (CppString × List MarketDataEntry)) :
    DataCache :=
  calls.foldl (fun c u => c.updateData u.1 u.2) self

end DataCache

/-! ## `SubscriptionManager` -/

/-- The subscriber registry: `m_subscriptions`, per symbol the set of weakly held
sockets. -/
structure SubscriptionManager where
  m_subscriptions : List (CppString × List Handle)
  deriving DecidableEq, Repr

namespace SubscriptionManager

/-- The states the C++ type can hold: an `unordered_map` has no two entries with one
key, and a `std::set` lists its elements in strictly ascending order. -/
def WF (self : SubscriptionManager) : Prop :=
  (self.m_subscriptions.map Prod.fst).Nodup ∧
    ∀ e ∈ self.m_subscriptions, e.2.Pairwise (· < ·)

instance (self : SubscriptionManager) : Decidable self.WF := by
  unfold WF
  infer_instance

/-- A default-constructed registry: no symbol. -/
def empty : SubscriptionManager := ⟨[]⟩

/-- `SubscriptionManager::addSubscription`:
`m_subscriptions[symbol].insert(std::weak_ptr<tcp::socket>(socket_ptr))`. -/
def addSubscription (self : SubscriptionManager) (symbol : CppString) (socket_ptr : Handle) :
    SubscriptionManager :=
  ⟨UMap.update [] (WeakSet.insert socket_ptr) self.m_subscriptions symbol⟩

/-- `SubscriptionManager::removeSubscription`: when `find(symbol)` has an entry, erase
the socket from its set, then erase the entry if the set has become empty. -/
def removeSubscription (self : SubscriptionManager) (symbol : CppString)
    (socket_ptr : Handle) : SubscriptionManager :=
  match UMap.find self.m_subscriptions symbol with
  | none => self
  | some subs =>
    let subs' := WeakSet.erase socket_ptr subs
    if subs'.isEmpty then ⟨UMap.erase self.m_subscriptions symbol⟩
    else ⟨UMap.assign self.m_subscriptions symbol subs'⟩

/-- The loop of `removeAllSubscriptions` from iterator position `it` to `end()`: the
argument is the part of the map from `it` on. The socket is erased from the set at
`it`; an empty set has its entry erased (`it = m_subscriptions.erase(it)`, which
resumes at the next entry), any other is kept (`++it`). -/
def removeAllLoop (weak_sock : Handle) :
    List (CppString × List Handle) → List (CppString × List Handle)
  | [] => []
  | (symbol, subs) :: rest =>
    let subs' := WeakSet.erase weak_sock subs
    if subs'.isEmpty then removeAllLoop weak_sock rest
    else (symbol, subs') :: removeAllLoop weak_sock rest

/-- `SubscriptionManager::removeAllSubscriptions`: the loop from `begin()`. -/
def removeAllSubscriptions (self : SubscriptionManager) (socket_ptr : Handle) :
    SubscriptionManager :=
  ⟨removeAllLoop socket_ptr self.m_subscriptions⟩

/-- `SubscriptionManager::getSubscribers`: for the entry that `find(symbol)` returns,
push back every stored `weak_ptr` whose `lock()` succeeds, in set order. `alive` says
for which handles `lock()` succeeds at the time of the call. The method is not
`const`; the second component is the registry it leaves behind. -/
def getSubscribers (alive : Handle → Bool) (self : SubscriptionManager)
    (symbol : CppString) : List Handle × SubscriptionManager :=
  match UMap.find self.m_subscriptions symbol with
  | none => ([], self)
  | some subs =>
    (subs.foldl (fun active w => if alive w then active ++ [w] else active) [], self)

/-- One call of a public method of the registry. -/
inductive Call where
  | addSubscription (symbol : CppString) (socket_ptr : Handle)
  | removeSubscription (symbol : CppString) (socket_ptr : Handle)
  | removeAllSubscriptions (socket_ptr : Handle)
  | getSubscribers (alive : Handle → Bool) (symbol : CppString)

/-- The registry after one call. -/
def step (self : SubscriptionManager) : Call → SubscriptionManager
  | .addSubscription symbol h => self.addSubscription symbol h
  | .removeSubscription symbol h => self.removeSubscription symbol h
  | .removeAllSubscriptions h => self.removeAllSubscriptions h
  | .getSubscribers alive symbol => (self.getSubscribers alive symbol).2

/-- The registry after a sequence of calls, oldest first. -/
def run (self : SubscriptionManager) (calls : List Call) : SubscriptionManager :=
  calls.foldl step self

/-- The handles stored for `symbol`: the set of its entry, nothing without an entry. -/
def stored (self : SubscriptionManager) (symbol : CppString) : List Handle :=
  match UMap.find self.m_subscriptions symbol with
  | none => []
  | some subs => subs

end SubscriptionManager

end MarketDataServer

/-! ## The JSON library (`nlohmann::json`)

The library is a dependency, not part of the repository. What the server uses of it
is embedded from the library's documented behaviour: values, construction of an
object from an initializer list of pairs, and `dump()` with its default arguments
(compact, `ensure_ascii = false`, strict error handler). The shortest-round-trip
decimal text of a finite `double` is a parameter, `to_chars`. -/

namespace nlohmann

/-- A `nlohmann::json` value. An object is a `std::map`, so its members are kept in
ascending key order. -/
inductive Json where
  | null
  | boolean (b : Bool)
  | number_integer (i : Int)
  | number_unsigned (n : Nat)
  | number_float (x : Double)
  | string (s : CppString)
  | array (elems : List Json)
  | object (members : List (CppString × Json))

/-- `std::map::emplace(key, value)`: insert at the key's place in ascending order;
nothing happens when the key is already there. -/
def emplace (key : CppString) (value : Json) :
    List (CppString × Json) → List (CppString × Json)
  | [] => [(key, value)]
  | (k, v) :: rest =>
    if strLt key k then (key, value) :: (k, v) :: rest
    else if strLt k key then (k, v) :: emplace key value rest
    else (k, v) :: rest

/-- `json{ {k1, v1}, {k2, v2}, ... }` with string keys: the object that receives the
pairs by `emplace`, in the order written. -/
def Json.ofPairs (init : List (CppString × Json)) : Json :=
  .object (init.foldl (fun members kv => emplace kv.1 kv.2 members) [])

/-- The state of the UTF-8 decoder the serializer runs over a string: `accept`
between code points, `reject` after an ill-formed byte, otherwise what the next
byte must be (`tailN`: `N` more continuation bytes; `e0`, `ed`, `f0`, `f4`: the
restricted second byte after that lead byte). -/
inductive Utf8State where
  | accept | reject | tail1 | tail2 | tail3 | e0 | ed | f0 | f4
  deriving DecidableEq, Repr

/-- One step of the UTF-8 decoder (well-formed byte sequences of the Unicode
standard: no overlong forms, no surrogates, nothing above U+10FFFF). -/
def decode (state : Utf8State) (byte : UInt8) : Utf8State :=
  let b := byte.toNat
  match state with
  | .accept =>
    if b ≤ 0x7F then .accept
    else if 0xC2 ≤ b ∧ b ≤ 0xDF then .tail1
    else if b = 0xE0 then .e0
    else if b = 0xED then .ed
    else if 0xE1 ≤ b ∧ b ≤ 0xEF then .tail2
    else if b = 0xF0 then .f0
    else if 0xF1 ≤ b ∧ b ≤ 0xF3 then .tail3
    else if b = 0xF4 then .f4
    else .reject
  | .reject => .reject
  | .tail1 => if 0x80 ≤ b ∧ b ≤ 0xBF then .accept else .reject
  | .tail2 => if 0x80 ≤ b ∧ b ≤ 0xBF then .tail1 else .reject
  | .tail3 => if 0x80 ≤ b ∧ b ≤ 0xBF then .tail2 else .reject
  | .e0 => if 0xA0 ≤ b ∧ b ≤ 0xBF then .tail1 else .reject
  | .ed => if 0x80 ≤ b ∧ b ≤ 0x9F then .tail1 else .reject
  | .f0 => if 0x90 ≤ b ∧ b ≤ 0xBF then .tail2 else .reject
  | .f4 => if 0x80 ≤ b ∧ b ≤ 0x8F then .tail2 else .reject

/-- The string is well-formed UTF-8: the decoder ends between code points. -/
def validUtf8 (s : CppString) : Bool := decide (s.foldl decode .accept = .accept)

/-- A lower-case hexadecimal digit. -/
def hexDigit (n : Nat) : UInt8 := UInt8.ofNat (if n < 10 then 48 + n else 87 + n)

/-- What the serializer writes for one byte of a valid string: the two-character
escapes, `\u00xx` for the other control characters, the byte itself otherwise
(bytes of a multi-byte code point included, `ensure_ascii` being false). -/
def escapeByte (byte : UInt8) : CppString :=
  let b := byte.toNat
  if b = 0x08 then lit "\\b"
  else if b = 0x09 then lit "\\t"
  else if b = 0x0A then lit "\\n"
  else if b = 0x0C then lit "\\f"
  else if b = 0x0D then lit "\\r"
  else if b = 0x22 then lit "\\\""
  else if b = 0x5C then lit "\\\\"
  else if b ≤ 0x1F then lit "\\u00" ++ [hexDigit (b / 16), hexDigit (b % 16)]
  else [byte]

/-- The escaped text of every byte of a string. -/
def escapeAll : CppString → CppString
  | [] => []
  | byte :: rest => escapeByte byte ++ escapeAll rest

/-- `serializer::dump_escaped` with the strict error handler: the escaped text, or
`none` for the `type_error` 316 thrown on a string that is not valid UTF-8. -/
def dump_escaped (s : CppString) : Option CppString :=
  if validUtf8 s then some (escapeAll s) else none

/-- `serializer::dump_float`: `null` for a NaN or an infinity, else the decimal text. -/
def dump_float (to_chars : Double → CppString) (x : Double) : CppString :=
  if isfinite x then to_chars x else lit "null"

/-- `serializer::dump_integer` of a signed value. -/
def dump_integer (i : Int) : CppString :=
  if i < 0 then lit "-" ++ to_string i.natAbs else to_string i.natAbs

mutual

/-- `basic_json::dump()`, compact: the serialized text, or `none` when the
serializer throws (`type_error` 316, a string that is not valid UTF-8). -/
def dump (to_chars : Double → CppString) : Json → Option CppString
  | .null => some (lit "null")
  | .boolean b => some (if b then lit "true" else lit "false")
  | .number_integer i => some (dump_integer i)
  | .number_unsigned n => some (to_string n)
  | .number_float x => some (dump_float to_chars x)
  | .string s => (dump_escaped s).map (fun t => lit "\"" ++ t ++ lit "\"")
  | .array elems => (dumpElems to_chars elems).map (fun t => lit "[" ++ t ++ lit "]")
  | .object members => (dumpMembers to_chars members).map (fun t => lit "\x7b" ++ t ++ lit "\x7d")

/-- The elements of an array, in order, a comma between two of them. -/
def dumpElems (to_chars : Double → CppString) : List Json → Option CppString
  | [] => some []
  | [x] => dump to_chars x
  | x :: y :: rest =>
    match dump to_chars x, dumpElems to_chars (y :: rest) with
    | some a, some b => some (a ++ lit "," ++ b)
    | _, _ => none

/-- The members of an object, in key order, each as `"key":value`, a comma between
two of them. -/
def dumpMembers (to_chars : Double → CppString) : List (CppString × Json) → Option CppString
  | [] => some []
  | [(k, x)] =>
    match dump_escaped k, dump to_chars x with
    | some key, some a => some (lit "\"" ++ key ++ lit "\":" ++ a)
    | _, _ => none
  | (k, x) :: m :: rest =>
    match dump_escaped k, dump to_chars x, dumpMembers to_chars (m :: rest) with
    | some key, some a, some b => some (lit "\"" ++ key ++ lit "\":" ++ a ++ lit "," ++ b)
    | _, _, _ => none

end

end nlohmann

/-- `to_json(json&, const MarketDataEntry&)` of `DataParser.hpp`: the object built
from the six pairs in the order the source lists them. -/
def to_json (entry : MarketDataEntry) : nlohmann.Json :=
  nlohmann.Json.ofPairs
    [(lit "timestamp", .string entry.m_timestamp),
     (lit "open", .number_float entry.m_open),
     (lit "high", .number_float entry.m_high),
     (lit "low", .number_float entry.m_low),
     (lit "close", .number_float entry.m_close),
     (lit "volume", .number_float entry.m_volume)]

/-! ## The client socket -/

/-- The server's end of one TCP connection, as far as writing goes: the bytes handed
to the peer so far, and how long the connection lasts (`none`: it stays up; `some n`:
it breaks once `n` more bytes have gone out). -/
structure Socket where
  sent : CppString
  room : Option Nat
  deriving DecidableEq, Repr

/-- `boost::asio::write(*socket, boost::asio::buffer(buf))`: all of `buf` goes out and
the call returns (`true`), or the connection breaks on the way and the call throws
`boost::system::system_error` (`false`). -/
def Socket.write (socket : Socket) (buf : CppString) : Bool × Socket :=
  match socket.room with
  | none => (true, { socket with sent := socket.sent ++ buf })
  | some n =>
    if buf.length ≤ n then (true, ⟨socket.sent ++ buf, some (n - buf.length)⟩)
    else (false, ⟨socket.sent ++ buf.take n, some 0⟩)

/-- `SendMarketData` of `MarketDataServer.cpp`, by its effect on the socket. Every
exception is caught inside the function: a `json::exception` from `dump()` is answered
with the internal-error line (a failure of that write is ignored), a
`boost::system::system_error` from a write ends the function. -/
def SendMarketData (to_chars : Double → CppString) (g_dataCache : MarketDataServer.DataCache)
    (socket : Socket) (symbol : CppString) : Socket :=
  let data := g_dataCache.getData symbol
  if data.isEmpty then
    (socket.write (lit "ERROR: No data available for symbol: " ++ symbol ++ lit "\n")).2
  else
    match nlohmann.dump to_chars (.array (data.map to_json)) with
    | none => (socket.write (lit "ERROR: Internal server error serializing data.\n")).2
    | some dataStr =>
      let header := lit "DATA_SIZE:" ++ to_string dataStr.length ++ lit "\n"
      match socket.write header with
      | (false, socket') => socket'
      | (true, socket') => (socket'.write dataStr).2

/-- The text of one bar's JSON object on the wire: the six members in key order. -/
def barText (to_chars : Double → CppString) (entry : MarketDataEntry) : CppString :=
  lit "\x7b\"close\":" ++ nlohmann.dump_float to_chars entry.m_close ++
  lit ",\"high\":" ++ nlohmann.dump_float to_chars entry.m_high ++
  lit ",\"low\":" ++ nlohmann.dump_float to_chars entry.m_low ++
  lit ",\"open\":" ++ nlohmann.dump_float to_chars entry.m_open ++
  lit ",\"timestamp\":\"" ++ nlohmann.escapeAll entry.m_timestamp ++
  lit "\",\"volume\":" ++ nlohmann.dump_float to_chars entry.m_volume ++ lit "\x7d"

/-- The texts joined by single commas. -/
def joinComma : List CppString → CppString
  | [] => []
  | [t] => t
  | t :: u :: rest => t ++ lit "," ++ joinComma (u :: rest)

/-- The text of a JSON array with one object per bar, in the order of the bars. -/
def arrayText (to_chars : Double → CppString) (data : List MarketDataEntry) : CppString :=
  lit "[" ++ joinComma (data.map (barText to_chars)) ++ lit "]"

/-! ## The command loop (`HandleClient`) -/

/-- `std::isspace` in the "C" locale, which is what `operator>>` on a string stream
skips: space, `\t`, `\n`, `\v`, `\f`, `\r`. -/
def isspace (c : UInt8) : Bool := c.toNat = 32 || (9 ≤ c.toNat && c.toNat ≤ 13)

/-- `::toupper` in the "C" locale: `a`..`z` go to `A`..`Z`, every other byte stays. -/
def toupper (c : UInt8) : UInt8 :=
  if 97 ≤ c.toNat ∧ c.toNat ≤ 122 then UInt8.ofNat (c.toNat - 32) else c

/-- `std::getline(request_stream, command_line)`: the bytes before the first `\n`. -/
def getline (buffer : CppString) : CppString := buffer.takeWhile (fun c => c != 10)

/-- `std::stringstream ss(command_line); ss >> command >> argument;` each extraction
skips white space and takes the bytes up to the next white space; an extraction that
finds nothing leaves its string empty. -/
def parseCommand (command_line : CppString) : CppString × CppString :=
  let s1 := command_line.dropWhile isspace
  let command := s1.takeWhile (fun c => !isspace c)
  let s2 := (s1.dropWhile (fun c => !isspace c)).dropWhile isspace
  let argument := s2.takeWhile (fun c => !isspace c)
  (command, argument)

/-- What a `HandleClient` invocation works on besides the read-only cache: the shared
registry and the write side of its own socket. -/
structure ClientState where
  subManager : MarketDataServer.SubscriptionManager
  socket : Socket
  deriving DecidableEq, Repr

/-- The body of one cycle of `HandleClient` after `getline`: parse the line, upper-case
the verb, and run the matching branch. `socket` is the handle of the connection's
`shared_ptr<tcp::socket>`. The `else` branch only logs. `SendMarketData` throws
nothing, so the `try` around the initial push of `SUBSCRIBE` never catches. -/
def dispatch (to_chars : Double → CppString) (g_dataCache : MarketDataServer.DataCache)
    (socket : Handle) (st : ClientState) (command_line : CppString) : ClientState :=
  let command := (parseCommand command_line).1.map toupper
  let argument := (parseCommand command_line).2
  if command = lit "SUBSCRIBE" ∧ argument ≠ [] then
    ⟨st.subManager.addSubscription argument socket,
      SendMarketData to_chars g_dataCache st.socket argument⟩
  else if command = lit "UNSUBSCRIBE" ∧ argument ≠ [] then
    ⟨st.subManager.removeSubscription argument socket, st.socket⟩
  else if command = lit "GET" ∧ argument ≠ [] then
    ⟨st.subManager, SendMarketData to_chars g_dataCache st.socket argument⟩
  else st

/-- The `while (true)` loop of `HandleClient`. The list is what the socket delivers,
one element per `read_some` that `boost::asio::read_until` issues; it ends where the
handler leaves the loop (`read_until` reports end of file or another error, or an
exception leaves the loop body). `buffer` is the content of the `streambuf` of the
current cycle. `read_until` appends what arrives until the buffer holds a `\n`; the
cycle then takes the first line and dispatches it, and the next cycle starts with a
new, empty `streambuf` (the variable is declared inside the loop). -/
def commandLoop (to_chars : Double → CppString) (g_dataCache : MarketDataServer.DataCache)
    (socket : Handle) : ClientState → CppString → List CppString → ClientState
  | st, _, [] => st
  | st, buffer, chunk :: rest =>
    if (buffer ++ chunk).contains 10 then
      commandLoop to_chars g_dataCache socket
        (dispatch to_chars g_dataCache socket st (getline (buffer ++ chunk))) [] rest
    else
      commandLoop to_chars g_dataCache socket st (buffer ++ chunk) rest

/-- What `HandleClient` leaves behind when it returns. -/
structure HandlerResult where
  subManager : MarketDataServer.SubscriptionManager
  socket : Socket
  is_open : Bool
  deriving DecidableEq, Repr

/-- `HandleClient`: the command loop, then, on every way out of it, the cleanup:
`removeAllSubscriptions(socket)` and, the socket being open, `shutdown` and `close`. -/
def HandleClient (to_chars : Double → CppString) (g_dataCache : MarketDataServer.DataCache)
    (socket : Handle) (st : ClientState) (arrivals : List CppString) : HandlerResult :=
  let st' := commandLoop to_chars g_dataCache socket st [] arrivals
  ⟨st'.subManager.removeAllSubscriptions socket, st'.socket, false⟩

/-! ## The refresh pass (`DataUpdateTask`) -/

namespace MarketDataServer

/-- `struct ServerConfig` of `MarketDataServer.hpp`. -/
structure ServerConfig where
  port : Int
  apiKey : CppString
  symbols : List CppString
  symbolCSVPaths : List (CppString × CppString)
  apiRefreshSeconds : Int
  apiHost : CppString
  apiBasePath : CppString
  apiFunction : CppString
  apiInterval : CppString
  deriving DecidableEq, Repr

end MarketDataServer

/-- What a parser object reports once `parseData()` has run: the value it returned and
what `getData()` then returns. -/
structure ParserOutcome where
  parseData : Bool
  getData : List MarketDataEntry
  deriving DecidableEq, Repr

/-- What a refresh pass finds outside the server: the body `FetchMarketData` returns for
a symbol (empty when the fetch failed; the function catches every exception), the
outcome of the JSON parser on a body, the outcome of the CSV parser on the file at a
path, and the handles whose `weak_ptr` still locks. -/
structure Environment where
  FetchMarketData : CppString → CppString
  createJSONParser : CppString → ParserOutcome
  createCSVParser : CppString → ParserOutcome
  alive : Handle → Bool

/-- The state the refresh pass works on: the global cache, the registry, and the write
side of every client socket, by handle. -/
structure ServerState where
  g_dataCache : MarketDataServer.DataCache
  subManager : MarketDataServer.SubscriptionManager
  sockets : Handle → Socket

/-- The fan-out loop of `DataUpdateTask`: one `SendMarketData(sub_socket_ptr, symbol)`
per element of `subscribers`, in order. `SendMarketData` throws nothing, so the
`catch (...)` around it never runs. -/
def pushAll (to_chars : Double → CppString) (g_dataCache : MarketDataServer.DataCache)
    (symbol : CppString) : List Handle → (Handle → Socket) → (Handle → Socket)
  | [], sockets => sockets
  | sub :: rest, sockets =>
    pushAll to_chars g_dataCache symbol rest
      (fun k => if k = sub then SendMarketData to_chars g_dataCache (sockets sub) symbol
        else sockets k)

/-- The first half of the body of the `for (const auto &symbol : config.symbols)` loop
of `DataUpdateTask`, up to `if (dataUpdated)`: the cache it leaves and the value of
`dataUpdated`. The remote body is parsed when it is not empty; when that did not
update the cache (`!apiDataProcessed`) and a CSV path is configured for the symbol,
the CSV file is parsed. -/
def refreshCache (env : Environment) (config : MarketDataServer.ServerConfig)
    (g_dataCache : MarketDataServer.DataCache) (symbol : CppString) :
    MarketDataServer.DataCache × Bool :=
  let jsonResponse := env.FetchMarketData symbol
  if jsonResponse ≠ [] ∧ (env.createJSONParser jsonResponse).parseData = true then
    (g_dataCache.updateData symbol (env.createJSONParser jsonResponse).getData, true)
  else
    match UMap.find config.symbolCSVPaths symbol with
    | some path =>
      if (env.createCSVParser path).parseData then
        (g_dataCache.updateData symbol (env.createCSVParser path).getData, true)
      else (g_dataCache, false)
    | none => (g_dataCache, false)

/-- The body of the `for (const auto &symbol : config.symbols)` loop of
`DataUpdateTask`: the state after it, and the final value of `dataUpdated`. When the
symbol was updated, the subscribers are resolved and the new snapshot is pushed to
each. -/
def updateSymbol (to_chars : Double → CppString) (env : Environment)
    (config : MarketDataServer.ServerConfig) (st : ServerState) (symbol : CppString) :
    ServerState × Bool :=
  let refreshed := refreshCache env config st.g_dataCache symbol
  if refreshed.2 then
    let subscribers := st.subManager.getSubscribers env.alive symbol
    (⟨refreshed.1, subscribers.2,
      pushAll to_chars refreshed.1 symbol subscribers.1 st.sockets⟩, true)
  else (⟨refreshed.1, st.subManager, st.sockets⟩, false)

/-- One pass of the `while` loop of `DataUpdateTask`: every configured symbol, in list
order. -/
def DataUpdateTask_pass (to_chars : Double → CppString) (env : Environment)
    (config : MarketDataServer.ServerConfig) (st : ServerState) : ServerState :=
  config.symbols.foldl (fun s symbol => (updateSymbol to_chars env config s symbol).1) st

/-! ## Parsing JSON (`nlohmann::json::parse`)

The reading side of the library, embedded from its documented behaviour like the
writing side: the lexer (white space, literals, numbers, strings with escapes and
UTF-8 validation) and the parser (arrays, objects, one value up to the end of the
input). `strtod` is the text-to-`double` conversion of the C library, a parameter.
`none` stands for a thrown `json::exception`. -/

namespace nlohmann

/-- `std::map::operator[](key) = value`: overwrite the member with this key, or insert
it at the key's place in ascending order. -/
def assignMember (key : CppString) (value : Json) :
    List (CppString × Json) → List (CppString × Json)
  | [] => [(key, value)]
  | (k, v) :: rest =>
    if strLt key k then (key, value) :: (k, v) :: rest
    else if strLt k key then (k, v) :: assignMember key value rest
    else (k, value) :: rest

/-- The lexer's white space: space, `\t`, `\n`, `\r`. -/
def isWhitespace (c : UInt8) : Bool := c = 32 || c = 9 || c = 10 || c = 13

/-- `lexer::skip_whitespace`. -/
def skip_whitespace (input : CppString) : CppString := input.dropWhile isWhitespace

/-- A decimal digit. -/
def isDigit (c : UInt8) : Bool := 48 ≤ c.toNat && c.toNat ≤ 57

/-- The value of a hexadecimal digit, either case. -/
def hexValue (c : UInt8) : Option Nat :=
  let n := c.toNat
  if 48 ≤ n ∧ n ≤ 57 then some (n - 48)
  else if 65 ≤ n ∧ n ≤ 70 then some (n - 55)
  else if 97 ≤ n ∧ n ≤ 102 then some (n - 87)
  else none

/-- `lexer::get_codepoint`: the four hexadecimal digits after `\u`. -/
def get_codepoint : CppString → Option (Nat × CppString)
  | a :: b :: c :: d :: rest =>
    match hexValue a, hexValue b, hexValue c, hexValue d with
    | some x, some y, some z, some w => some (x * 4096 + y * 256 + z * 16 + w, rest)
    | _, _, _, _ => none
  | _ => none

/-- The UTF-8 bytes the lexer stores for the code point of a `\u` escape. -/
def encodeUtf8 (cp : Nat) : CppString :=
  if cp < 0x80 then [UInt8.ofNat cp]
  else if cp ≤ 0x7FF then [UInt8.ofNat (0xC0 + cp / 64), UInt8.ofNat (0x80 + cp % 64)]
  else if cp ≤ 0xFFFF then
    [UInt8.ofNat (0xE0 + cp / 4096), UInt8.ofNat (0x80 + cp / 64 % 64),
      UInt8.ofNat (0x80 + cp % 64)]
  else
    [UInt8.ofNat (0xF0 + cp / 262144), UInt8.ofNat (0x80 + cp / 4096 % 64),
      UInt8.ofNat (0x80 + cp / 64 % 64), UInt8.ofNat (0x80 + cp % 64)]

/-- The byte an escape character other than `u` stands for. -/
def simpleEscape (e : UInt8) : Option UInt8 :=
  if e = 34 then some 34
  else if e = 92 then some 92
  else if e = 47 then some 47
  else if e = 98 then some 8
  else if e = 102 then some 12
  else if e = 110 then some 10
  else if e = 114 then some 13
  else if e = 116 then some 9
  else none

/-- The ranges the bytes after a lead byte of a multi-byte code point must lie in, as
the lexer passes them to `next_byte_in_range`; `none` for a byte that cannot lead. -/
def followRanges (c : UInt8) : Option (List (Nat × Nat)) :=
  let n := c.toNat
  if 0xC2 ≤ n ∧ n ≤ 0xDF then some [(0x80, 0xBF)]
  else if n = 0xE0 then some [(0xA0, 0xBF), (0x80, 0xBF)]
  else if n = 0xED then some [(0x80, 0x9F), (0x80, 0xBF)]
  else if 0xE1 ≤ n ∧ n ≤ 0xEF then some [(0x80, 0xBF), (0x80, 0xBF)]
  else if n = 0xF0 then some [(0x90, 0xBF), (0x80, 0xBF), (0x80, 0xBF)]
  else if 0xF1 ≤ n ∧ n ≤ 0xF3 then some [(0x80, 0xBF), (0x80, 0xBF), (0x80, 0xBF)]
  else if n = 0xF4 then some [(0x80, 0x8F), (0x80, 0xBF), (0x80, 0xBF)]
  else none

/-- `lexer::next_byte_in_range`: the next bytes of the input, one per range, each
inside its range. -/
def next_byte_in_range : List (Nat × Nat) → CppString → Option (CppString × CppString)
  | [], input => some ([], input)
  | _ :: _, [] => none
  | (lo, hi) :: ranges, c :: rest =>
    if lo ≤ c.toNat ∧ c.toNat ≤ hi then
      match next_byte_in_range ranges rest with
      | some (bytes, rest') => some (c :: bytes, rest')
      | none => none
    else none

/-- Put bytes in front of the string a scan returned. -/
def prepend (bytes : CppString) : Option (CppString × CppString) → Option (CppString × CppString)
  | some (s, rest) => some (bytes ++ s, rest)
  | none => none

/-- `lexer::scan_string`, from the byte after the opening quote: the string's bytes and
the input after the closing quote. The first argument bounds the number of steps; the
length of the input plus one is enough. -/
def scan_string : Nat → CppString → Option (CppString × CppString)
  | 0, _ => none
  | _ + 1, [] => none
  | fuel + 1, c :: rest =>
    if c = 34 then some ([], rest)
    else if c = 92 then
      match rest with
      | [] => none
      | e :: rest1 =>
        if e = 117 then
          match get_codepoint rest1 with
          | none => none
          | some (cp1, rest2) =>
            if 0xD800 ≤ cp1 ∧ cp1 ≤ 0xDBFF then
              match rest2 with
              | b :: u :: rest3 =>
                if b = 92 ∧ u = 117 then
                  match get_codepoint rest3 with
                  | some (cp2, rest4) =>
                    if 0xDC00 ≤ cp2 ∧ cp2 ≤ 0xDFFF then
                      prepend (encodeUtf8 (cp1 * 1024 + cp2 - 0x35FDC00))
                        (scan_string fuel rest4)
                    else none
                  | none => none
                else none
              | _ => none
            else if 0xDC00 ≤ cp1 ∧ cp1 ≤ 0xDFFF then none
            else prepend (encodeUtf8 cp1) (scan_string fuel rest2)
        else
          match simpleEscape e with
          | some byte => prepend [byte] (scan_string fuel rest1)
          | none => none
    else if c.toNat < 0x20 then none
    else if c.toNat < 0x80 then prepend [c] (scan_string fuel rest)
    else
      match followRanges c with
      | none => none
      | some ranges =>
        match next_byte_in_range ranges rest with
        | some (bytes, rest') => prepend (c :: bytes) (scan_string fuel rest')
        | none => none

/-- The value of a run of decimal digits. -/
def digitsValue (digits : CppString) : Nat :=
  digits.foldl (fun acc c => acc * 10 + (c.toNat - 48)) 0

/-- `lexer::scan_number` and the parser's handling of the token, from the first byte
of the number: an integer without fraction and exponent is an unsigned or signed
integer when it fits in 64 bits; everything else is converted by `strtod`, and a
result that is not finite is a parse error (`out_of_range` 406). -/
def scan_number (strtod : CppString → Double) (input : CppString) :
    Option (Json × CppString) :=
  let negative := input.head? = some 45
  let s0 := if negative then input.drop 1 else input
  let intDigits : CppString :=
    if s0.head? = some 48 then [48] else s0.takeWhile isDigit
  if intDigits = [] then none
  else
    let s1 := s0.drop intDigits.length
    let fraction : Option CppString :=
      if s1.head? = some 46 then some ((s1.drop 1).takeWhile isDigit) else none
    if fraction = some [] then none
    else
      let s2 := match fraction with
        | some digits => s1.drop (1 + digits.length)
        | none => s1
      let hasExp := s2.head? = some 101 || s2.head? = some 69
      let s3 := if hasExp then s2.drop 1 else s2
      let hasSign := hasExp && (s3.head? = some 43 || s3.head? = some 45)
      let s4 := if hasSign then s3.drop 1 else s3
      let expDigits : CppString := if hasExp then s4.takeWhile isDigit else []
      if hasExp && expDigits.isEmpty then none
      else
        let rest := s4.drop expDigits.length
        let token := input.take (input.length - rest.length)
        let asFloat : Option (Json × CppString) :=
          if isfinite (strtod token) then some (.number_float (strtod token), rest) else none
        if fraction.isNone && !hasExp then
          if negative then
            if digitsValue intDigits ≤ 2 ^ 63 then
              some (.number_integer (- (digitsValue intDigits : Int)), rest)
            else asFloat
          else if digitsValue intDigits < 2 ^ 64 then
            some (.number_unsigned (digitsValue intDigits), rest)
          else asFloat
        else asFloat

/-- The input after a literal name, when the input starts with it. -/
def scan_literal (name : CppString) (input : CppString) : Option CppString :=
  if name.isPrefixOf input then some (input.drop name.length) else none

mutual

/-- One JSON value at the start of the input (after white space) and the input
after it. The first argument bounds the nesting and the number of elements; the length
of the input plus one is enough. -/
def parseValue (strtod : CppString → Double) : Nat → CppString → Option (Json × CppString)
  | 0, _ => none
  | fuel + 1, input =>
    match skip_whitespace input with
    | [] => none
    | c :: rest =>
      if c = 91 then
        match skip_whitespace rest with
        | [] => none
        | d :: rest' =>
          if d = 93 then some (.array [], rest')
          else
            match parseElems strtod fuel (d :: rest') with
            | some (elems, after) => some (.array elems, after)
            | none => none
      else if c = 123 then
        match skip_whitespace rest with
        | [] => none
        | d :: rest' =>
          if d = 125 then some (.object [], rest')
          else
            match parseMembers strtod fuel (d :: rest') with
            | some (members, after) =>
              some (.object (members.foldl (fun m kv => assignMember kv.1 kv.2 m) []), after)
            | none => none
      else if c = 34 then
        match scan_string (rest.length + 1) rest with
        | some (s, after) => some (.string s, after)
        | none => none
      else if c = 116 then (scan_literal (lit "true") (c :: rest)).map (fun r => (.boolean true, r))
      else if c = 102 then
        (scan_literal (lit "false") (c :: rest)).map (fun r => (.boolean false, r))
      else if c = 110 then (scan_literal (lit "null") (c :: rest)).map (fun r => (.null, r))
      else if c = 45 ∨ isDigit c = true then scan_number strtod (c :: rest)
      else none

/-- The elements of an array after `[`, up to and including the closing `]`. -/
def parseElems (strtod : CppString → Double) :
    Nat → CppString → Option (List Json × CppString)
  | 0, _ => none
  | fuel + 1, input =>
    match parseValue strtod fuel input with
    | none => none
    | some (v, after) =>
      match skip_whitespace after with
      | [] => none
      | d :: rest =>
        if d = 93 then some ([v], rest)
        else if d = 44 then
          match parseElems strtod fuel rest with
          | some (vs, after') => some (v :: vs, after')
          | none => none
        else none

/-- The members of an object after `\x7b`, in the order written, up to and including
the closing `\x7d`. -/
def parseMembers (strtod : CppString → Double) :
    Nat → CppString → Option (List (CppString × Json) × CppString)
  | 0, _ => none
  | fuel + 1, input =>
    match skip_whitespace input with
    | [] => none
    | q :: rest =>
      if q = 34 then
        match scan_string (rest.length + 1) rest with
        | none => none
        | some (key, after) =>
          match skip_whitespace after with
          | [] => none
          | colon :: rest1 =>
            if colon = 58 then
              match parseValue strtod fuel rest1 with
              | none => none
              | some (v, after1) =>
                match skip_whitespace after1 with
                | [] => none
                | d :: rest2 =>
                  if d = 125 then some ([(key, v)], rest2)
                  else if d = 44 then
                    match parseMembers strtod fuel rest2 with
                    | some (kvs, after2) => some ((key, v) :: kvs, after2)
                    | none => none
                  else none
            else none
      else none

end

/-- `json::parse(text)`: a byte-order mark is skipped, one value is parsed, and only
white space may follow it. -/
def parse (strtod : CppString → Double) (text : CppString) : Option Json :=
  let input :=
    if text.head? = some 0xEF then
      (if text.take 3 = [0xEF, 0xBB, 0xBF] then some (text.drop 3) else none)
    else some text
  match input with
  | none => none
  | some input =>
    match parseValue strtod (input.length + 1) input with
    | some (value, rest) => if skip_whitespace rest = [] then some value else none
    | none => none

/-- `j.at(key)`: the member of an object with this key; `none` for the `out_of_range`
403 of a missing key and the `type_error` 304 of a value that is not an object. -/
def Json.atKey : Json → CppString → Option Json
  | .object members, key => UMap.find members key
  | _, _ => none

/-- `get_to(std::string&)`: `none` for the `type_error` 302 of a value that is not a
string. -/
def Json.get_string : Json → Option CppString
  | .string s => some s
  | _ => none

/-- `get_to(double&)`: a number of any of the three kinds, converted; `none` for the
`type_error` 302 of any other value. `ofInt` is the integer-to-`double` conversion. -/
def Json.get_double (ofInt : Int → Double) : Json → Option Double
  | .number_float x => some x
  | .number_integer i => some (ofInt i)
  | .number_unsigned n => some (ofInt n)
  | _ => none

end nlohmann

/-- `from_json(const json&, MarketDataEntry&)` of `DataParser.hpp`: the six `at` and
`get_to` in the order of the source; `none` when one of them throws (the exception is
logged and thrown again). -/
def from_json (ofInt : Int → Double) (j : nlohmann.Json) : Option MarketDataEntry :=
  match j.atKey (lit "timestamp") with
  | none => none
  | some ts =>
  match ts.get_string with
  | none => none
  | some m_timestamp =>
  match (j.atKey (lit "open")).bind (nlohmann.Json.get_double ofInt) with
  | none => none
  | some m_open =>
  match (j.atKey (lit "high")).bind (nlohmann.Json.get_double ofInt) with
  | none => none
  | some m_high =>
  match (j.atKey (lit "low")).bind (nlohmann.Json.get_double ofInt) with
  | none => none
  | some m_low =>
  match (j.atKey (lit "close")).bind (nlohmann.Json.get_double ofInt) with
  | none => none
  | some m_close =>
  match (j.atKey (lit "volume")).bind (nlohmann.Json.get_double ofInt) with
  | none => none
  | some m_volume => some ⟨m_timestamp, m_open, m_high, m_low, m_close, m_volume⟩

/-- The elements of `jsonData.get<std::vector<MarketDataEntry>>()`: `from_json` of every
element, in order; `none` when one throws. -/
def from_json_all (ofInt : Int → Double) : List nlohmann.Json → Option (List MarketDataEntry)
  | [] => some []
  | j :: rest =>
    match from_json ofInt j, from_json_all ofInt rest with
    | some entry, some entries => some (entry :: entries)
    | _, _ => none

/-- The decoding in `MarketDataWorker::handleReadPayload`: `json::parse` of the payload
and, for an array, `get<std::vector<MarketDataEntry>>()`. The result is the vector
`newDataArrived` is emitted with; `none` when nothing is emitted (the payload is not an
array, or an exception was caught). -/
def handleReadPayload (strtod : CppString → Double) (ofInt : Int → Double)
    (payload_str : CppString) : Option (List MarketDataEntry) :=
  match nlohmann.parse strtod payload_str with
  | some (.array elems) => from_json_all ofInt elems
  | _ => none

/-! ## What the wire format carries -/

namespace nlohmann

/-- The bytes lie in the ranges, one byte per range. -/
def InRanges : List (Nat × Nat) → CppString → Prop
  | [], [] => True
  | (lo, hi) :: ranges, b :: bytes => (lo ≤ b.toNat ∧ b.toNat ≤ hi) ∧ InRanges ranges bytes
  | _, _ => False

end nlohmann

/-- The number text of `x` is read back as `x`: `to_chars x` starts like a JSON number,
and the lexer, meeting it before a `,` or a `\x7d`, takes exactly it and converts it
to `x`. -/
def ReadsBack (to_chars : Double → CppString) (strtod : CppString → Double) (x : Double) :
    Prop :=
  (∃ c t, to_chars x = c :: t ∧ (c = 45 ∨ nlohmann.isDigit c = true)) ∧
    ∀ rest : CppString, (rest.head? = some 44 ∨ rest.head? = some 125) →
      nlohmann.scan_number strtod (to_chars x ++ rest) = some (.number_float x, rest)

/-- A bar the wire format carries faithfully: its timestamp is valid UTF-8, and each of
its five numbers is finite and has a number text that is read back as the number. -/
def Carried (to_chars : Double → CppString) (strtod : CppString → Double)
    (entry : MarketDataEntry) : Prop :=
  nlohmann.validUtf8 entry.m_timestamp = true ∧
    (isfinite entry.m_open = true ∧ ReadsBack to_chars strtod entry.m_open) ∧
    (isfinite entry.m_high = true ∧ ReadsBack to_chars strtod entry.m_high) ∧
    (isfinite entry.m_low = true ∧ ReadsBack to_chars strtod entry.m_low) ∧
    (isfinite entry.m_close = true ∧ ReadsBack to_chars strtod entry.m_close) ∧
    (isfinite entry.m_volume = true ∧ ReadsBack to_chars strtod entry.m_volume)

/-! ## Loading the configuration (`ConfigLoader::loadConfig`) -/

namespace nlohmann

/-- `j.contains(key)`: the value is an object and has a member with this key. -/
def Json.contains : Json → CppString → Bool
  | .object members, key => (UMap.find members key).isSome
  | _, _ => false

/-- A 64-bit integer converted to `int` by `static_cast`: reduced modulo `2^32` into the
range of `int`. -/
def toInt32 (i : Int) : Int := (i + 2 ^ 31) % 2 ^ 32 - 2 ^ 31

/-- `j.get<int>()`: a number of any of the three kinds or a boolean, converted by
`static_cast<int>`; `none` for the `type_error` 302 of any other value. `truncate` is the
conversion of a `double` to `int`. -/
def Json.get_int (truncate : Double → Int) : Json → Option Int
  | .number_unsigned n => some (toInt32 n)
  | .number_integer i => some (toInt32 i)
  | .number_float x => some (truncate x)
  | .boolean b => some (if b then 1 else 0)
  | _ => none

/-- The elements of `j.get<std::vector<std::string>>()` for the elements of an array:
`none` when one of them is not a string. -/
def get_strings : List Json → Option (List CppString)
  | [] => some []
  | j :: rest =>
    match j.get_string, get_strings rest with
    | some s, some ss => some (s :: ss)
    | _, _ => none

/-- `j.get<std::vector<std::string>>()`: `none` for the `type_error` 302 of a value that
is not an array of strings. -/
def Json.get_string_vector : Json → Option (List CppString)
  | .array elems => get_strings elems
  | _ => none

/-- `j.value(key, default_value)` with a `std::string` default: the member with this key
converted, or the default when the object has no such member; `none` for the `type_error`
306 of a value that is not an object and the `type_error` 302 of a member that is not a
string. -/
def Json.value_string : Json → CppString → CppString → Option CppString
  | .object members, key, default_value =>
    match UMap.find members key with
    | some v => v.get_string
    | none => some default_value
  | _, _, _ => none

/-- `j.value(key, default_value)` with an `int` default. -/
def Json.value_int (truncate : Double → Int) : Json → CppString → Int → Option Int
  | .object members, key, default_value =>
    match UMap.find members key with
    | some v => v.get_int truncate
    | none => some default_value
  | _, _, _ => none

/-- What `json_pointer::get_checked` comes to. -/
inductive Resolved where
  | found (j : Json)
  | out_of_range
  | parse_error

/-- `ptr.get_checked(&j)` for reference tokens that are neither numbers nor `-`: a
member is looked up in an object (`out_of_range` 403 when it is missing), a token that
meets an array is not an array index (`parse_error` 109), and a token that meets any
other value is unresolved (`out_of_range` 404). -/
def get_checked : Json → List CppString → Resolved
  | j, [] => .found j
  | .object members, token :: rest =>
    match UMap.find members token with
    | some v => get_checked v rest
    | none => .out_of_range
  | .array _, _ :: _ => .parse_error
  | _, _ :: _ => .out_of_range

/-- `j.value(ptr, default_value)` with a `std::string` default: for an object, the value
the pointer resolves to, converted, or the default when resolving throws `out_of_range`;
`none` for every other exception (`type_error` 306 when `j` is not an object, `type_error`
302 when the value found is not a string, `parse_error` 109 from resolving). -/
def Json.value_pointer : Json → List CppString → CppString → Option CppString
  | .object members, ptr, default_value =>
    match get_checked (.object members) ptr with
    | .found v => v.get_string
    | .out_of_range => some default_value
    | .parse_error => none
  | _, _, _ => none

/-- The key `items()` gives the element of an array at each index, from `i` on. -/
def indexed : Nat → List Json → List (CppString × Json)
  | _, [] => []
  | i, j :: rest => (to_string i, j) :: indexed (i + 1) rest

/-- `j.items()`: the members of an object with their keys, the elements of an array with
their indices as keys, nothing for `null`, the value itself under the empty key
otherwise. -/
def Json.items : Json → List (CppString × Json)
  | .object members => members
  | .array elems => indexed 0 elems
  | .null => []
  | j => [([], j)]

end nlohmann

/-- `struct AppConfig` of `Configuration.hpp`. -/
structure AppConfig where
  logFilePath : CppString
  serverConfig : MarketDataServer.ServerConfig
  clientServerAddress : CppString
  deriving DecidableEq, Repr

/-- A default-constructed `ServerConfig`: the member initializers of
`MarketDataServer.hpp`. -/
def MarketDataServer.ServerConfig.default : MarketDataServer.ServerConfig :=
  ⟨8080, [], [], [], 60, lit "www.alphavantage.co", lit "/query", lit "TIME_SERIES_INTRADAY",
    lit "1min"⟩

/-- A default-constructed `AppConfig`. -/
def AppConfig.default : AppConfig :=
  ⟨lit "market_data_log.txt", MarketDataServer.ServerConfig.default, lit "127.0.0.1"⟩

/-- What `loadConfig` finds outside the program: whether a path exists, the contents of
the file when it opens, and the absolute, normalized path of a CSV file named relative
to the project root of the configuration file (the path operations are taken to
succeed). -/
structure FileSystem where
  pathExists : CppString → Bool
  contents : CppString → Option CppString
  absolute_csv_path : CppString → CppString → CppString

/-- How a part of the `try` block of `loadConfig` ends: it runs through, a
`json::exception` leaves it (with what was assigned so far), or a `std::runtime_error`
leaves it. -/
inductive Tried (α : Type) where
  | completed (value : α)
  | json_exception (value : α)
  | runtime_error (what : CppString)
  deriving DecidableEq, Repr

/-- The loop over `pathsJson.items()` in `loadConfig`: a string is resolved and stored
under its symbol, anything else clears the map. -/
def csvFallbackPaths (fs : FileSystem) (filePath : CppString) :
    List (CppString × nlohmann.Json) → List (CppString × CppString) →
      List (CppString × CppString)
  | [], symbolCSVPaths => symbolCSVPaths
  | (symbol, .string relative_csv_path) :: rest, symbolCSVPaths =>
    csvFallbackPaths fs filePath rest
      (UMap.assign symbolCSVPaths symbol (fs.absolute_csv_path filePath relative_csv_path))
  | (_, _) :: rest, _ => csvFallbackPaths fs filePath rest []

/-- The branch `if (configJson.contains("server"))` of `loadConfig`, statement by
statement, on the server configuration it fills in. -/
def loadServer (fs : FileSystem) (truncate : Double → Int) (filePath : CppString)
    (serverJson : nlohmann.Json) (c0 : MarketDataServer.ServerConfig) :
    Tried MarketDataServer.ServerConfig :=
  match serverJson.value_int truncate (lit "port") c0.port with
  | none => .json_exception c0
  | some port =>
  let c1 := { c0 with port := port }
  match (serverJson.atKey (lit "api_key")).bind nlohmann.Json.get_string with
  | none => .json_exception c1
  | some apiKey =>
  let c2 := { c1 with apiKey := apiKey }
  match (serverJson.atKey (lit "symbols")).bind nlohmann.Json.get_string_vector with
  | none => .json_exception c2
  | some symbols =>
  let c3 := { c2 with symbols := symbols }
  match serverJson.value_int truncate (lit "api_refresh_seconds") c3.apiRefreshSeconds with
  | none => .json_exception c3
  | some apiRefreshSeconds =>
  let c4 := { c3 with apiRefreshSeconds := apiRefreshSeconds }
  match serverJson.value_string (lit "api_host") c4.apiHost with
  | none => .json_exception c4
  | some apiHost =>
  let c5 := { c4 with apiHost := apiHost }
  match serverJson.value_string (lit "api_base_path") c5.apiBasePath with
  | none => .json_exception c5
  | some apiBasePath =>
  let c6 := { c5 with apiBasePath := apiBasePath }
  match serverJson.value_string (lit "api_function") c6.apiFunction with
  | none => .json_exception c6
  | some apiFunction =>
  let c7 := { c6 with apiFunction := apiFunction }
  match serverJson.value_string (lit "api_interval") c7.apiInterval with
  | none => .json_exception c7
  | some apiInterval =>
  let c8 := { c7 with apiInterval := apiInterval }
  let c9 :=
    match serverJson.atKey (lit "csv_fallback_paths") with
    | some pathsJson =>
      { c8 with symbolCSVPaths := csvFallbackPaths fs filePath pathsJson.items [] }
    | none => c8
  if c9.apiKey.isEmpty then .runtime_error (lit "Server 'api_key' cannot be empty.")
  else if c9.apiRefreshSeconds ≤ 0 then .completed { c9 with apiRefreshSeconds := 60 }
  else .completed c9

/-- The second `try` block of `loadConfig`, on the configuration it fills in. -/
def loadFields (fs : FileSystem) (truncate : Double → Int) (filePath : CppString)
    (configJson : nlohmann.Json) (config : AppConfig) : Tried AppConfig :=
  match configJson.value_pointer [lit "logging", lit "log_file_path"] config.logFilePath with
  | none => .json_exception config
  | some logFilePath =>
  let config1 := { config with logFilePath := logFilePath }
  let server : Tried MarketDataServer.ServerConfig :=
    match configJson.atKey (lit "server") with
    | some serverJson => loadServer fs truncate filePath serverJson config1.serverConfig
    | none => .completed config1.serverConfig
  match server with
  | .runtime_error what => .runtime_error what
  | .json_exception serverConfig => .json_exception { config1 with serverConfig := serverConfig }
  | .completed serverConfig =>
  let config2 := { config1 with serverConfig := serverConfig }
  match configJson.value_pointer [lit "client", lit "server_address"]
      config2.clientServerAddress with
  | none => .json_exception config2
  | some clientServerAddress =>
    .completed { config2 with clientServerAddress := clientServerAddress }

namespace ConfigLoader

/-- `ConfigLoader::loadConfig` of `Configuration.cpp`: the configuration it returns, or
the message of the `std::runtime_error` it throws. A `json::parse_error` from
`json::parse` is caught by the first `catch` (which does nothing), so `configJson` stays
`null`; a `json::exception` from the second `try` block is caught by the second `catch`
(which does nothing), so the function goes on to return `config` as it is then. -/
def loadConfig (fs : FileSystem) (strtod : CppString → Double) (truncate : Double → Int)
    (filePath : CppString) : Except CppString AppConfig :=
  if !fs.pathExists filePath then .error (lit "Configuration file not found: " ++ filePath)
  else
    match fs.contents filePath with
    | none => .error (lit "Failed to open configuration file: " ++ filePath)
    | some text =>
      let configJson : nlohmann.Json :=
        match nlohmann.parse strtod text with
        | some j => j
        | none => .null
      match loadFields fs truncate filePath configJson AppConfig.default with
      | .completed config => .ok config
      | .json_exception config => .ok config
      | .runtime_error what => .error what

end ConfigLoader

/-- The start of `main` of `MainServer.cpp`, up to the point where the scheduler and the
server are started: `some 1` when `loadConfig` throws (the process exits with status 1),
`none` when the configuration is loaded and the program goes on to
`StartPeriodicFetching` and `StartServer` with it. -/
def main_startup (fs : FileSystem) (strtod : CppString → Double) (truncate : Double → Int)
    (configFilePath : CppString) : Option Nat :=
  match ConfigLoader.loadConfig fs strtod truncate configFilePath with
  | .error _ => some 1
  | .ok _ => none

/-! ## Sorting bars by timestamp -/

/-- `compareMarketDataEntryTimestamps` of `DataParser.cpp`. -/
def compareMarketDataEntryTimestamps (a b : MarketDataEntry) : Bool :=
  strLt a.m_timestamp b.m_timestamp

/-- `std::sort(first, last, comp)`: the elements in non-descending order of `comp`. The
standard leaves the order of equivalent elements open; the embedding keeps them in the
order they had (insertion sort). -/
def sort {α : Type} (comp : α → α → Bool) (data : List α) : List α :=
  data.insertionSort (fun a b => comp b a = false)

/-- The end of both `parseData` functions: `m_data` is sorted by timestamp when it is
not empty, and the function returns `!m_data.empty()`. -/
def finishParse (m_data : List MarketDataEntry) : ParserOutcome :=
  let sorted := if !m_data.isEmpty then sort compareMarketDataEntryTimestamps m_data else m_data
  ⟨!sorted.isEmpty, sorted⟩

/-- Bars in non-decreasing order of timestamp: no bar has a timestamp greater than that
of a bar after it. -/
def Ascending (data : List MarketDataEntry) : Prop :=
  data.Pairwise (fun a b => compareMarketDataEntryTimestamps b a = false)

/-! ## The CSV parser (`DataParserCSVAlphaAPI`)

Reading a `double` from a stream is the work of the `num_get` facet of the C++ library,
a parameter: for the characters at the front of a stream (the first one not white
space), the value read and the characters left, or `none` when the conversion fails. -/

/-- An input string stream as far as this parser uses it: the characters not yet
extracted and `eofbit`. A function on a stream returns `none` when it sets `failbit`,
which ends the `&&` chain or the `while` loop it stands in. -/
structure IStream where
  content : CppString
  eofbit : Bool
  deriving DecidableEq, Repr

namespace IStream

/-- `std::getline(ss, str, delim)`: the characters up to the delimiter, which is
extracted and dropped; `eofbit` when the end is reached first. It fails when `eofbit` is
already set and when no character at all can be extracted. -/
def getline (ss : IStream) (delim : UInt8) : Option (CppString × IStream) :=
  if ss.eofbit then none
  else if ss.content.isEmpty then none
  else
    match ss.content.dropWhile (fun c => c != delim) with
    | [] => some (ss.content, ⟨[], true⟩)
    | _ :: rest => some (ss.content.takeWhile (fun c => c != delim), ⟨rest, false⟩)

/-- `ss >> x` for a `double`: white space is skipped and `num_get` reads the number;
`eofbit` when the number runs to the end of the stream. It fails when `eofbit` is already
set, when only white space is left, and when `num_get` fails. -/
def extract (num_get : CppString → Option (Double × CppString)) (ss : IStream) :
    Option (Double × IStream) :=
  if ss.eofbit then none
  else
    match ss.content.dropWhile isspace with
    | [] => none
    | c :: rest =>
      match num_get (c :: rest) with
      | none => none
      | some (x, left) => some (x, ⟨left, left.isEmpty⟩)

/-- `ss.ignore(1)`: one character, whatever it is, is extracted and dropped. It fails
when `eofbit` is already set; at the end of a stream that is still good it sets `eofbit`
only. -/
def ignore (ss : IStream) : Option IStream :=
  if ss.eofbit then none
  else
    match ss.content with
    | [] => some ⟨[], true⟩
    | _ :: rest => some ⟨rest, false⟩

end IStream

/-- The lines successive calls of `std::getline(fileContent, line)` return until one
fails: the text is cut at every `\n`, and nothing follows a final `\n`. -/
def getlines : CppString → List CppString
  | [] => []
  | c :: rest =>
    if c = 10 then [] :: getlines rest
    else
      match getlines rest with
      | [] => [[c]]
      | line :: lines => (c :: line) :: lines

namespace DataParserCSVAlphaAPI

/-- The condition of the `if` in the loop of `parseData`, on `std::stringstream ss(line)`:
the timestamp up to the first comma, then five numbers, one character skipped after each
of the first four. The bar `emplace_back` adds when all of it succeeds. -/
def parseLine (num_get : CppString → Option (Double × CppString)) (line : CppString) :
    Option MarketDataEntry := do
  let (timestamp, ss1) ← IStream.getline ⟨line, false⟩ 44
  let (open_, ss2) ← ss1.extract num_get
  let ss3 ← ss2.ignore
  let (high, ss4) ← ss3.extract num_get
  let ss5 ← ss4.ignore
  let (low, ss6) ← ss5.extract num_get
  let ss7 ← ss6.ignore
  let (close, ss8) ← ss7.extract num_get
  let ss9 ← ss8.ignore
  let (volume, _) ← ss9.extract num_get
  some ⟨timestamp, open_, high, low, close, volume⟩

/-- The `while (std::getline(fileContent, line))` loop of `parseData`: `m_data` after the
lines have been processed in order. -/
def parseLines (num_get : CppString → Option (Double × CppString)) (lines : List CppString) :
    List MarketDataEntry :=
  lines.foldl
    (fun m_data line =>
      match parseLine num_get line with
      | some entry => m_data ++ [entry]
      | none => m_data)
    []

/-- `DataParserCSVAlphaAPI::parseData` and the `getData()` after it. `file` is the content
of the file at `m_CSVPath`, `none` when it cannot be opened. The first line is read and
dropped; without one the function returns `false`. -/
def parseData (num_get : CppString → Option (Double × CppString)) (file : Option CppString) :
    ParserOutcome :=
  match file with
  | none => ⟨false, []⟩
  | some fileContent =>
    match getlines fileContent with
    | [] => ⟨false, []⟩
    | _ :: lines => finishParse (parseLines num_get lines)

end DataParserCSVAlphaAPI

/-- The number text is read in full: it does not start with white space and, standing at
the end of a line or before a comma, `num_get` reads exactly it, as `x`. -/
def ReadsAs (num_get : CppString → Option (Double × CppString)) (text : CppString)
    (x : Double) : Prop :=
  (∃ c t, text = c :: t ∧ isspace c = false) ∧
    ∀ rest : CppString, (rest = [] ∨ rest.head? = some 44) →
      num_get (text ++ rest) = some (x, rest)

/-- The text is not a number: it does not start with white space and `num_get` fails on
it, whatever follows. -/
def NotANumber (num_get : CppString → Option (Double × CppString)) (text : CppString) : Prop :=
  (∃ c t, text = c :: t ∧ isspace c = false) ∧ ∀ rest : CppString, num_get (text ++ rest) = none

/-- Number texts, each after a comma. -/
def commaFields : List CppString → CppString
  | [] => []
  | text :: texts => 44 :: text ++ commaFields texts

/-- Lines, each followed by `\n`. -/
def unlines : List CppString → CppString
  | [] => []
  | line :: lines => line ++ 10 :: unlines lines

/-! ## The JSON parser of remote responses (`DataParserJsonAlphaAPI`)

`std::stod` is a parameter, `stod`: the value of the longest number at the front of a
string, `none` when it throws (`std::invalid_argument`, `std::out_of_range`). -/

namespace DataParserJsonAlphaAPI

/-- The `possibleKeys` of `parseData`, in the order of the source. -/
def possibleKeys : List CppString :=
  [lit "Time Series (1min)", lit "Time Series (5min)", lit "Time Series (15min)",
    lit "Time Series (30min)", lit "Time Series (60min)", lit "Time Series (Daily)"]

/-- `std::stod(dataPoint.at(key).get<std::string>())`: `none` when one of the three
throws. -/
def stodAt (stod : CppString → Option Double) (dataPoint : nlohmann.Json) (key : CppString) :
    Option Double :=
  ((dataPoint.atKey key).bind nlohmann.Json.get_string).bind stod

/-- The body of the loop over the time series, for one member: the bar `emplace_back`
adds, or `none` when the inner `catch` is reached. -/
def timeSeriesPoint (stod : CppString → Option Double) (timestamp : CppString)
    (dataPoint : nlohmann.Json) : Option MarketDataEntry := do
  let open_ ← stodAt stod dataPoint (lit "1. open")
  let high ← stodAt stod dataPoint (lit "2. high")
  let low ← stodAt stod dataPoint (lit "3. low")
  let close ← stodAt stod dataPoint (lit "4. close")
  let volume ← stodAt stod dataPoint (lit "5. volume")
  some ⟨timestamp, open_, high, low, close, volume⟩

/-- The body of the loop over a bare array, for one element: nothing when the element has
no `timestamp` or no `volume` member; else the bar `emplace_back` adds, or `none` when
the inner `catch` is reached. -/
def arrayPoint (ofInt : Int → Double) (entry : nlohmann.Json) : Option MarketDataEntry :=
  if entry.contains (lit "timestamp") && entry.contains (lit "volume") then do
    let timestamp ← (entry.atKey (lit "timestamp")).bind nlohmann.Json.get_string
    let open_ ← (entry.atKey (lit "open")).bind (nlohmann.Json.get_double ofInt)
    let high ← (entry.atKey (lit "high")).bind (nlohmann.Json.get_double ofInt)
    let low ← (entry.atKey (lit "low")).bind (nlohmann.Json.get_double ofInt)
    let close ← (entry.atKey (lit "close")).bind (nlohmann.Json.get_double ofInt)
    let volume ← (entry.atKey (lit "volume")).bind (nlohmann.Json.get_double ofInt)
    some ⟨timestamp, open_, high, low, close, volume⟩
  else none

/-- The loop over the members of the time series: `m_data` after it. -/
def timeSeriesLoop (stod : CppString → Option Double)
    (members : List (CppString × nlohmann.Json)) : List MarketDataEntry :=
  members.foldl
    (fun m_data member =>
      match timeSeriesPoint stod member.1 member.2 with
      | some entry => m_data ++ [entry]
      | none => m_data)
    []

/-- The loop over the elements of a bare array: `m_data` after it. -/
def arrayLoop (ofInt : Int → Double) (elems : List nlohmann.Json) : List MarketDataEntry :=
  elems.foldl
    (fun m_data entry =>
      match arrayPoint ofInt entry with
      | some bar => m_data ++ [bar]
      | none => m_data)
    []

/-- `DataParserJsonAlphaAPI::parseData` and the `getData()` after it. Both `catch` blocks
at the end return `false`; `m_data` is empty whenever they are reached: `json::parse`
throws before the loops, and iterating a time series that is not an object either visits
nothing or throws at the first `it.key()`. -/
def parseData (strtod : CppString → Double) (stod : CppString → Option Double)
    (ofInt : Int → Double) (m_jsonContent : CppString) : ParserOutcome :=
  match nlohmann.parse strtod m_jsonContent with
  | none => ⟨false, []⟩
  | some jsonData =>
    if jsonData.contains (lit "Information") || jsonData.contains (lit "Error") ||
        jsonData.contains (lit "Note") then ⟨false, []⟩
    else
      match possibleKeys.find? (fun key => jsonData.contains key) with
      | some timeSeriesKey =>
        match jsonData.atKey timeSeriesKey with
        | some (.object members) => finishParse (timeSeriesLoop stod members)
        | _ => ⟨false, []⟩
      | none =>
        match jsonData with
        | .array elems => finishParse (arrayLoop ofInt elems)
        | _ => ⟨false, []⟩

end DataParserJsonAlphaAPI

/-! ## The refresh task with the parsers of `DataParser.cpp` -/

/-- What one refresh pass finds outside the program: the body `FetchMarketData` returns
for a symbol, the content of the file at a path (`none` when it cannot be opened), and
the handles whose `weak_ptr` still locks. -/
structure World where
  FetchMarketData : CppString → CppString
  readFile : CppString → Option CppString
  alive : Handle → Bool

/-- The environment of a refresh pass in which `ParserFactory::createJSONParser` and
`ParserFactory::createCSVParser` make the two parsers of `DataParser.cpp`. -/
def World.env (strtod : CppString → Double) (stod : CppString → Option Double)
    (ofInt : Int → Double) (num_get : CppString → Option (Double × CppString)) (w : World) :
    Environment :=
  ⟨w.FetchMarketData, fun jsonContent => DataParserJsonAlphaAPI.parseData strtod stod ofInt jsonContent,
    fun filePath => DataParserCSVAlphaAPI.parseData num_get (w.readFile filePath), w.alive⟩

/-- The `while (g_shouldContinueFetching)` loop of `DataUpdateTask`: one pass after the
other, each in the world it finds. -/
def DataUpdateTask (to_chars : Double → CppString) (strtod : CppString → Double)
    (stod : CppString → Option Double) (ofInt : Int → Double)
    (num_get : CppString → Option (Double × CppString))
    (config : MarketDataServer.ServerConfig) (worlds : List World) (st : ServerState) :
    ServerState :=
  worlds.foldl
    (fun s w => DataUpdateTask_pass to_chars (w.env strtod stod ofInt num_get) config s) st

/-! ## The client's read loop (`MarketDataWorker`) -/

namespace MarketDataWorker

/-- `std::stoull(str)`: white space, an optional sign, decimal digits; `none` when it
throws (`std::invalid_argument` without a digit, `std::out_of_range` from `2^64` on). A
minus sign negates modulo `2^64`. -/
def stoull (str : CppString) : Option Nat :=
  let s := str.dropWhile isspace
  let s1 := if s.head? = some 45 ∨ s.head? = some 43 then s.drop 1 else s
  let digits := s1.takeWhile nlohmann.isDigit
  if digits.isEmpty then none
  else if 2 ^ 64 ≤ nlohmann.digitsValue digits then none
  else if s.head? = some 45 then some ((2 ^ 64 - nlohmann.digitsValue digits) % 2 ^ 64)
  else some (nlohmann.digitsValue digits)

/-- `net::async_read_until(*m_socket, m_responseBuffer, "\n", ...)` up to its handler:
while the buffer holds no `\n`, what the next `read_some` returns is appended to it.
`arrivals` lists what the successive `read_some` calls on the socket return; at its end
the connection is closed (`none`: the handler gets an error). -/
def read_until : CppString → List CppString → Option (CppString × List CppString)
  | m_responseBuffer, [] => if m_responseBuffer.contains 10 then some (m_responseBuffer, []) else none
  | m_responseBuffer, chunk :: arrivals =>
    if m_responseBuffer.contains 10 then some (m_responseBuffer, chunk :: arrivals)
    else read_until (m_responseBuffer ++ chunk) arrivals

/-- `net::async_read(*m_socket, m_responseBuffer, net::transfer_exactly(needed), ...)` up
to its handler: exactly `needed` bytes are taken from the socket, the rest of what has
arrived stays in the socket for the next read. -/
def read_exactly : Nat → List CppString → Option (CppString × List CppString)
  | needed, [] => if needed = 0 then some ([], []) else none
  | needed, chunk :: arrivals =>
    if needed = 0 then some ([], chunk :: arrivals)
    else if chunk.length ≤ needed then
      match read_exactly (needed - chunk.length) arrivals with
      | some (bytes, left) => some (chunk ++ bytes, left)
      | none => none
    else some (chunk.take needed, chunk.drop needed :: arrivals)

/-- What the worker does with a message of the server. -/
inductive Event where
  | newDataArrived (payload_str : CppString)
  | serverError (message : CppString)
  | unknownHeader (header_line : CppString)
  | invalidDataSize (header_line : CppString)
  deriving DecidableEq, Repr

/-- The cycle `doReadHeader`, `handleReadHeader`, `doReadPayload`, `handleReadPayload` of
`MarketDataWorker.cpp`, until the connection ends: the payloads handed to the decoding and
the other messages, in order. `doReadHeader` empties `m_responseBuffer` before it reads,
so every cycle starts from an empty buffer. The first argument bounds the number of
cycles; the number of arrivals plus one is enough. -/
def readCycles : Nat → List CppString → List Event
  | 0, _ => []
  | fuel + 1, arrivals =>
    match read_until [] arrivals with
    | none => []
    | some (buffer, arrivals1) =>
      let header_line := getline buffer
      let m_responseBuffer := (buffer.dropWhile (fun c => c != 10)).drop 1
      if (lit "DATA_SIZE:").isPrefixOf header_line then
        match stoull (header_line.drop 10) with
        | none => .invalidDataSize header_line :: readCycles fuel arrivals1
        | some expectedPayloadSize =>
          let needed := expectedPayloadSize - m_responseBuffer.length
          match read_exactly needed arrivals1 with
          | none => []
          | some (bytes, arrivals2) =>
            if expectedPayloadSize ≤ (m_responseBuffer ++ bytes).length then
              .newDataArrived ((m_responseBuffer ++ bytes).take expectedPayloadSize) ::
                readCycles fuel arrivals2
            else []
      else if (lit "ERROR:").isPrefixOf header_line then
        .serverError (header_line.drop 6) :: readCycles fuel arrivals1
      else .unknownHeader header_line :: readCycles fuel arrivals1

/-- The worker's read loop on a connection, from the first `doReadHeader` on. -/
def run (arrivals : List CppString) : List Event := readCycles (arrivals.length + 1) arrivals

end MarketDataWorker

/-! ## Theorems: `UMap` -/

namespace UMap

variable {K V : Type} [DecidableEq K]

theorem find_assign_self (m : List (K × V)) (k : K) (v : V) :
    find (assign m k v) k = some v := by
  induction m with
  | nil => simp [assign, find]
  | cons e rest ih =>
    obtain ⟨k', v'⟩ := e
    by_cases hk : k' = k
    · simp [assign, find, hk]
    · simp [assign, find, hk, ih]

theorem find_assign_of_ne (m : List (K × V)) {k k' : K} (v : V) (hne : k' ≠ k) :
    find (assign m k' v) k = find m k := by
  induction m with
  | nil => simp [assign, find, hne]
  | cons e rest ih =>
    obtain ⟨k₀, v₀⟩ := e
    by_cases hk : k₀ = k'
    · subst hk
      simp [assign, find, hne]
    · by_cases hk2 : k₀ = k
      · subst hk2
        simp [assign, find, hk]
      · simp [assign, find, hk, hk2, ih]

theorem find_eq_none_of_not_mem_keys (m : List (K × V)) (k : K)
    (hk : k ∉ m.map Prod.fst) : find m k = none := by
  induction m with
  | nil => rfl
  | cons e rest ih =>
    obtain ⟨k', v'⟩ := e
    simp only [List.map_cons, List.mem_cons, not_or] at hk
    have hne : ¬ k' = k := fun h => hk.1 h.symm
    simp [find, hne, ih hk.2]

theorem mem_of_find_eq_some (m : List (K × V)) (k : K) (v : V)
    (h : find m k = some v) : (k, v) ∈ m := by
  induction m with
  | nil => simp [find] at h
  | cons e rest ih =>
    obtain ⟨k', v'⟩ := e
    by_cases hk : k' = k
    · subst hk
      simp only [find, if_true, Option.some.injEq] at h
      subst h
      exact List.mem_cons_self _ _
    · simp only [find, hk, if_false] at h
      exact List.mem_cons_of_mem _ (ih h)

theorem find_update_self (dflt : V) (f : V → V) (m : List (K × V)) (k : K) :
    find (update dflt f m k) k = some (f ((find m k).getD dflt)) := by
  induction m with
  | nil => simp [update, find]
  | cons e rest ih =>
    obtain ⟨k', v'⟩ := e
    by_cases hk : k' = k
    · simp [update, find, hk]
    · simp [update, find, hk, ih]

theorem find_update_of_ne (dflt : V) (f : V → V) (m : List (K × V)) {k k' : K}
    (hne : k' ≠ k) : find (update dflt f m k') k = find m k := by
  induction m with
  | nil => simp [update, find, hne]
  | cons e rest ih =>
    obtain ⟨k₀, v₀⟩ := e
    by_cases hk : k₀ = k'
    · subst hk
      simp [update, find, hne]
    · by_cases hk2 : k₀ = k
      · subst hk2
        simp [update, find, hk]
      · simp [update, find, hk, hk2, ih]

theorem keys_erase_sublist (m : List (K × V)) (k : K) :
    ((erase m k).map Prod.fst).Sublist (m.map Prod.fst) := by
  induction m with
  | nil => simp [erase]
  | cons e rest ih =>
    obtain ⟨k', v'⟩ := e
    by_cases hk : k' = k
    · simp [erase, hk]
    · simpa [erase, hk] using ih

theorem erase_subset (m : List (K × V)) (k : K) : ∀ e ∈ erase m k, e ∈ m := by
  induction m with
  | nil => simp [erase]
  | cons e rest ih =>
    obtain ⟨k', v'⟩ := e
    intro x hx
    by_cases hk : k' = k
    · simp only [erase, hk, if_true] at hx
      exact List.mem_cons_of_mem _ hx
    · simp only [erase, hk, if_false, List.mem_cons] at hx
      rcases hx with hx | hx
      · exact hx ▸ List.mem_cons_self _ _
      · exact List.mem_cons_of_mem _ (ih x hx)

theorem find_erase_self (m : List (K × V)) (k : K) (hnd : (m.map Prod.fst).Nodup) :
    find (erase m k) k = none := by
  induction m with
  | nil => rfl
  | cons e rest ih =>
    obtain ⟨k', v'⟩ := e
    simp only [List.map_cons, List.nodup_cons] at hnd
    by_cases hk : k' = k
    · subst hk
      simp only [erase, if_true]
      exact find_eq_none_of_not_mem_keys _ _ hnd.1
    · simp [erase, find, hk, ih hnd.2]

theorem keys_assign_of_find (m : List (K × V)) (k : K) (v w : V)
    (h : find m k = some w) : (assign m k v).map Prod.fst = m.map Prod.fst := by
  induction m with
  | nil => simp [find] at h
  | cons e rest ih =>
    obtain ⟨k', v'⟩ := e
    by_cases hk : k' = k
    · simp [assign, hk]
    · simp only [find, hk, if_false] at h
      simp [assign, hk, ih h]

theorem mem_assign (m : List (K × V)) (k : K) (v : V) :
    ∀ e ∈ assign m k v, e ∈ m ∨ e = (k, v) := by
  induction m with
  | nil => simp [assign]
  | cons e rest ih =>
    obtain ⟨k', v'⟩ := e
    intro x hx
    by_cases hk : k' = k
    · subst hk
      simp only [assign, if_true, List.mem_cons] at hx
      rcases hx with hx | hx
      · exact Or.inr hx
      · exact Or.inl (List.mem_cons_of_mem _ hx)
    · simp only [assign, hk, if_false, List.mem_cons] at hx
      rcases hx with hx | hx
      · exact Or.inl (hx ▸ List.mem_cons_self _ _)
      · rcases ih x hx with h | h
        · exact Or.inl (List.mem_cons_of_mem _ h)
        · exact Or.inr h

theorem mem_update (dflt : V) (f : V → V) (m : List (K × V)) (k : K) :
    ∀ e ∈ update dflt f m k, e ∈ m ∨ e = (k, f ((find m k).getD dflt)) := by
  induction m with
  | nil => simp [update, find]
  | cons e rest ih =>
    obtain ⟨k', v'⟩ := e
    intro x hx
    by_cases hk : k' = k
    · subst hk
      simp only [update, if_true, List.mem_cons] at hx
      rcases hx with hx | hx
      · exact Or.inr (by simp [find, hx])
      · exact Or.inl (List.mem_cons_of_mem _ hx)
    · simp only [update, hk, if_false, List.mem_cons] at hx
      rcases hx with hx | hx
      · exact Or.inl (hx ▸ List.mem_cons_self _ _)
      · rcases ih x hx with h | h
        · exact Or.inl (List.mem_cons_of_mem _ h)
        · exact Or.inr (by simp [find, hk, h])

theorem keys_update_nodup (dflt : V) (f : V → V) (m : List (K × V)) (k : K)
    (hnd : (m.map Prod.fst).Nodup) : ((update dflt f m k).map Prod.fst).Nodup := by
  induction m with
  | nil => simp [update]
  | cons e rest ih =>
    obtain ⟨k', v'⟩ := e
    simp only [List.map_cons, List.nodup_cons] at hnd
    by_cases hk : k' = k
    · simpa [update, hk] using hnd
    · simp only [update, hk, if_false, List.map_cons, List.nodup_cons]
      refine ⟨?_, ih hnd.2⟩
      intro hmem
      rcases List.mem_map.1 hmem with ⟨x, hx, hxk⟩
      rcases mem_update dflt f rest k x hx with h | h
      · exact hnd.1 (List.mem_map.2 ⟨x, h, hxk⟩)
      · rw [h] at hxk
        exact hk hxk.symm

theorem update_update_of_idem (dflt : V) (f : V → V) (hf : ∀ v, f (f v) = f v)
    (m : List (K × V)) (k : K) :
    update dflt f (update dflt f m k) k = update dflt f m k := by
  induction m with
  | nil => simp [update, hf]
  | cons e rest ih =>
    obtain ⟨k', v'⟩ := e
    by_cases hk : k' = k
    · simp [update, hk, hf]
    · simp [update, hk, ih]

end UMap

/-! ## Theorems: `DataCache` -/

namespace MarketDataServer

namespace DataCache

theorem getData_updateData_of_ne (c : DataCache) {S S' : CppString}
    (B : List MarketDataEntry) (hne : S' ≠ S) :
    (c.updateData S' B).getData S = c.getData S := by
  simp [getData, updateData, UMap.find_assign_of_ne _ _ hne]

theorem find_applyUpdates_of_not_called (calls : List (CppString × List MarketDataEntry))
    (S : CppString) (hS : ∀ u ∈ calls, u.1 ≠ S) (c : DataCache) :
    UMap.find (c.applyUpdates calls).m_cache S = UMap.find c.m_cache S := by
  induction calls generalizing c with
  | nil => rfl
  | cons u rest ih =>
    have h1 : u.1 ≠ S := hS u (List.mem_cons_self _ _)
    have h2 : ∀ v ∈ rest, v.1 ≠ S := fun v hv => hS v (List.mem_cons_of_mem _ hv)
    show UMap.find ((c.updateData u.1 u.2).applyUpdates rest).m_cache S = _
    rw [ih h2]
    exact UMap.find_assign_of_ne _ _ h1

/-- C1: after `updateData(S, B)`, `getData(S)` returns exactly `B` (same length,
order and field values), whatever the cache held for `S` before. -/
theorem getData_updateData (c : DataCache) (S : CppString) (B : List MarketDataEntry) :
    (c.updateData S B).getData S = B := by
  simp [getData, updateData, UMap.find_assign_self]

/-- C2: in the cache reached from the empty cache by any sequence of `updateData`
calls none of which is for symbol `S`, `getData(S)` returns the empty sequence, and
the cache has no entry for `S` (`getData` is a total `const` function: it neither
fails nor stores anything). -/
theorem getData_of_never_updated (calls : List (CppString × List MarketDataEntry))
    (S : CppString) (hS : ∀ u ∈ calls, u.1 ≠ S) :
    (DataCache.empty.applyUpdates calls).getData S = [] ∧
      UMap.find (DataCache.empty.applyUpdates calls).m_cache S = none := by
  have h := find_applyUpdates_of_not_called calls S hS DataCache.empty
  have h0 : UMap.find DataCache.empty.m_cache S = none := rfl
  rw [h0] at h
  exact ⟨by simp [getData, h], h⟩

theorem getData_of_never_updated_witness :
    (∀ u ∈ [(lit "MSFT", [(⟨lit "2024-01-02", 1, 2, 3, 4, 5⟩ : MarketDataEntry)])],
        u.1 ≠ lit "AAPL") ∧
      ((DataCache.empty.applyUpdates
          [(lit "MSFT", [(⟨lit "2024-01-02", 1, 2, 3, 4, 5⟩ : MarketDataEntry)])]).getData
          (lit "AAPL") = [] ∧
        UMap.find (DataCache.empty.applyUpdates
          [(lit "MSFT", [(⟨lit "2024-01-02", 1, 2, 3, 4, 5⟩ : MarketDataEntry)])]).m_cache
          (lit "AAPL") = none) :=
  ⟨by decide, getData_of_never_updated _ _ (by decide)⟩

end DataCache

end MarketDataServer

/-! ## Theorems: `WeakSet` -/

namespace WeakSet

theorem erase_eq_list_erase (h : Handle) (s : List Handle) : erase h s = s.erase h := by
  induction s with
  | nil => rfl
  | cons x xs ih =>
    by_cases hx : x = h
    · simp [erase, hx]
    · simp [erase, hx, List.erase_cons_tail, ih]

theorem mem_insert_iff (h x : Handle) (s : List Handle) :
    x ∈ insert h s ↔ x = h ∨ x ∈ s := by
  induction s with
  | nil => simp [insert]
  | cons y ys ih =>
    unfold insert
    by_cases h1 : h < y
    · simp [h1]
    · by_cases h2 : y < h
      · simp only [h1, h2, if_false, if_true, List.mem_cons, ih]
        tauto
      · have hy : h = y := Nat.le_antisymm (Nat.le_of_not_lt h2) (Nat.le_of_not_lt h1)
        subst hy
        simp [h1]

theorem pairwise_insert (h : Handle) (s : List Handle) (hs : s.Pairwise (· < ·)) :
    (insert h s).Pairwise (· < ·) := by
  induction s with
  | nil => simp [insert]
  | cons y ys ih =>
    unfold insert
    have hy := List.pairwise_cons.1 hs
    by_cases h1 : h < y
    · simp only [h1, if_true]
      refine List.pairwise_cons.2 ⟨?_, hs⟩
      intro z hz
      rcases List.mem_cons.1 hz with hz | hz
      · exact hz ▸ h1
      · exact Nat.lt_trans h1 (hy.1 z hz)
    · by_cases h2 : y < h
      · simp only [h1, h2, if_false, if_true]
        refine List.pairwise_cons.2 ⟨?_, ih hy.2⟩
        intro z hz
        rcases (mem_insert_iff h z ys).1 hz with hz | hz
        · exact hz ▸ h2
        · exact hy.1 z hz
      · simpa [h1, h2] using hs

theorem insert_insert (h : Handle) (s : List Handle) :
    insert h (insert h s) = insert h s := by
  induction s with
  | nil => simp [insert]
  | cons y ys ih =>
    by_cases h1 : h < y
    · simp [insert, h1]
    · by_cases h2 : y < h
      · simp [insert, h1, h2, ih]
      · simp [insert, h1, h2]

theorem insert_ne_nil (h : Handle) (s : List Handle) : insert h s ≠ [] := by
  intro hnil
  have : h ∈ insert h s := (mem_insert_iff h h s).2 (Or.inl rfl)
  rw [hnil] at this
  exact List.not_mem_nil _ this

theorem not_mem_erase (h : Handle) (s : List Handle) (hs : s.Pairwise (· < ·)) :
    h ∉ erase h s := by
  have hnd : s.Nodup := hs.imp (fun hab => Nat.ne_of_lt hab)
  rw [erase_eq_list_erase]
  exact fun hmem => ((hnd.mem_erase_iff).1 hmem).1 rfl

theorem pairwise_erase (h : Handle) (s : List Handle) (hs : s.Pairwise (· < ·)) :
    (erase h s).Pairwise (· < ·) := by
  rw [erase_eq_list_erase]
  exact hs.sublist (List.erase_sublist _ _)

theorem erase_of_not_mem (h : Handle) (s : List Handle) (hmem : h ∉ s) :
    erase h s = s := by
  rw [erase_eq_list_erase]
  exact List.erase_of_not_mem hmem

theorem mem_of_mem_erase (h x : Handle) (s : List Handle) (hx : x ∈ erase h s) :
    x ∈ s := by
  rw [erase_eq_list_erase] at hx
  exact List.mem_of_mem_erase hx

theorem mem_erase_of_ne (h x : Handle) (s : List Handle) (hne : x ≠ h) (hx : x ∈ s) :
    x ∈ erase h s := by
  rw [erase_eq_list_erase]
  exact (List.mem_erase_of_ne hne).2 hx

theorem foldl_lock (alive : Handle → Bool) (s active : List Handle) :
    s.foldl (fun active w => if alive w then active ++ [w] else active) active =
      active ++ s.filter (fun w => alive w) := by
  induction s generalizing active with
  | nil => simp
  | cons x xs ih =>
    by_cases hx : alive x = true
    · simp [List.foldl_cons, ih, hx]
    · simp [List.foldl_cons, ih, hx]

end WeakSet

/-! ## Theorems: `SubscriptionManager` -/

namespace MarketDataServer

namespace SubscriptionManager

theorem getSubscribers_fst (alive : Handle → Bool) (r : SubscriptionManager)
    (S : CppString) :
    (r.getSubscribers alive S).1 = (r.stored S).filter (fun w => alive w) := by
  unfold getSubscribers stored
  cases UMap.find r.m_subscriptions S with
  | none => rfl
  | some subs => simp [WeakSet.foldl_lock]

theorem getSubscribers_snd (alive : Handle → Bool) (r : SubscriptionManager)
    (S : CppString) : (r.getSubscribers alive S).2 = r := by
  unfold getSubscribers
  cases UMap.find r.m_subscriptions S <;> rfl

theorem stored_pairwise (r : SubscriptionManager) (hwf : r.WF) (S : CppString) :
    (r.stored S).Pairwise (· < ·) := by
  unfold stored
  cases hf : UMap.find r.m_subscriptions S with
  | none => exact List.Pairwise.nil
  | some subs => exact hwf.2 _ (UMap.mem_of_find_eq_some _ _ _ hf)

theorem stored_addSubscription (r : SubscriptionManager) (S : CppString) (h : Handle) :
    (r.addSubscription S h).stored S = WeakSet.insert h (r.stored S) := by
  unfold stored addSubscription
  rw [UMap.find_update_self]
  cases UMap.find r.m_subscriptions S <;> rfl

theorem stored_removeSubscription (r : SubscriptionManager) (hwf : r.WF) (S : CppString)
    (h : Handle) : (r.removeSubscription S h).stored S = WeakSet.erase h (r.stored S) := by
  unfold stored removeSubscription
  cases hf : UMap.find r.m_subscriptions S with
  | none => simp [hf, WeakSet.erase]
  | some subs =>
    by_cases he : (WeakSet.erase h subs).isEmpty = true
    · simp only [he, if_true]
      rw [UMap.find_erase_self _ _ hwf.1]
      exact (List.isEmpty_iff.1 he).symm
    · simp only [he, Bool.false_eq_true, if_false]
      rw [UMap.find_assign_self]

theorem wf_empty : SubscriptionManager.empty.WF := by
  decide

theorem wf_addSubscription (r : SubscriptionManager) (hwf : r.WF) (S : CppString)
    (h : Handle) : (r.addSubscription S h).WF := by
  refine ⟨UMap.keys_update_nodup _ _ _ _ hwf.1, ?_⟩
  intro e he
  rcases UMap.mem_update _ _ _ _ e he with hm | hm
  · exact hwf.2 e hm
  · rw [hm]
    apply WeakSet.pairwise_insert
    cases hf : UMap.find r.m_subscriptions S with
    | none => exact List.Pairwise.nil
    | some subs => exact hwf.2 _ (UMap.mem_of_find_eq_some _ _ _ hf)

theorem wf_removeSubscription (r : SubscriptionManager) (hwf : r.WF) (S : CppString)
    (h : Handle) : (r.removeSubscription S h).WF := by
  unfold removeSubscription
  cases hf : UMap.find r.m_subscriptions S with
  | none => exact hwf
  | some subs =>
    have hsubs : subs.Pairwise (· < ·) := hwf.2 _ (UMap.mem_of_find_eq_some _ _ _ hf)
    by_cases he : (WeakSet.erase h subs).isEmpty = true
    · simp only [he, if_true]
      exact ⟨hwf.1.sublist (UMap.keys_erase_sublist _ _),
        fun e hmem => hwf.2 e (UMap.erase_subset _ _ e hmem)⟩
    · simp only [he, Bool.false_eq_true, if_false]
      refine ⟨?_, ?_⟩
      · show (List.map Prod.fst (UMap.assign r.m_subscriptions S _)).Nodup
        rw [UMap.keys_assign_of_find _ _ _ _ hf]
        exact hwf.1
      · intro e hmem
        rcases UMap.mem_assign _ _ _ e hmem with hm | hm
        · exact hwf.2 e hm
        · rw [hm]
          exact WeakSet.pairwise_erase _ _ hsubs

theorem mem_removeAllLoop (h : Handle) (m : List (CppString × List Handle)) :
    ∀ e ∈ removeAllLoop h m,
      e.2 ≠ [] ∧ ∃ e' ∈ m, e.1 = e'.1 ∧ e.2 = WeakSet.erase h e'.2 := by
  induction m with
  | nil => simp [removeAllLoop]
  | cons x rest ih =>
    obtain ⟨k, subs⟩ := x
    intro e he
    by_cases hemp : (WeakSet.erase h subs).isEmpty = true
    · simp only [removeAllLoop, hemp, if_true] at he
      obtain ⟨h1, e', he', h2⟩ := ih e he
      exact ⟨h1, e', List.mem_cons_of_mem _ he', h2⟩
    · simp only [removeAllLoop, hemp, Bool.false_eq_true, if_false, List.mem_cons] at he
      rcases he with he | he
      · subst he
        refine ⟨?_, (k, subs), List.mem_cons_self _ _, rfl, rfl⟩
        intro hnil
        exact hemp (List.isEmpty_iff.2 hnil)
      · obtain ⟨h1, e', he', h2⟩ := ih e he
        exact ⟨h1, e', List.mem_cons_of_mem _ he', h2⟩

theorem keys_removeAllLoop_sublist (h : Handle) (m : List (CppString × List Handle)) :
    ((removeAllLoop h m).map Prod.fst).Sublist (m.map Prod.fst) := by
  induction m with
  | nil => simp [removeAllLoop]
  | cons x rest ih =>
    obtain ⟨k, subs⟩ := x
    by_cases hemp : (WeakSet.erase h subs).isEmpty = true
    · simp only [removeAllLoop, hemp, if_true, List.map_cons]
      exact ih.trans (List.sublist_cons_self _ _)
    · simp only [removeAllLoop, hemp, Bool.false_eq_true, if_false, List.map_cons]
      exact ih.cons₂ _

theorem removeAllLoop_eq_self (h : Handle) (m : List (CppString × List Handle))
    (hne : ∀ e ∈ m, e.2 ≠ []) (hnot : ∀ e ∈ m, h ∉ e.2) : removeAllLoop h m = m := by
  induction m with
  | nil => rfl
  | cons x rest ih =>
    obtain ⟨k, subs⟩ := x
    have h1 : WeakSet.erase h subs = subs :=
      WeakSet.erase_of_not_mem _ _ (hnot _ (List.mem_cons_self _ _))
    have h2 : ¬ subs.isEmpty = true := fun hemp =>
      hne _ (List.mem_cons_self _ _) (List.isEmpty_iff.1 hemp)
    simp only [removeAllLoop, h1, h2, Bool.false_eq_true, if_false]
    rw [ih (fun e he => hne e (List.mem_cons_of_mem _ he))
      (fun e he => hnot e (List.mem_cons_of_mem _ he))]

theorem wf_removeAllSubscriptions (r : SubscriptionManager) (hwf : r.WF) (h : Handle) :
    (r.removeAllSubscriptions h).WF := by
  refine ⟨hwf.1.sublist (keys_removeAllLoop_sublist _ _), ?_⟩
  intro e he
  obtain ⟨_, e', he', _, h2⟩ := mem_removeAllLoop h _ e he
  rw [h2]
  exact WeakSet.pairwise_erase _ _ (hwf.2 e' he')

theorem wf_step (r : SubscriptionManager) (hwf : r.WF) (c : Call) : (r.step c).WF := by
  cases c with
  | addSubscription S h => exact wf_addSubscription r hwf S h
  | removeSubscription S h => exact wf_removeSubscription r hwf S h
  | removeAllSubscriptions h => exact wf_removeAllSubscriptions r hwf h
  | getSubscribers alive S =>
    show (r.getSubscribers alive S).2.WF
    rw [getSubscribers_snd]
    exact hwf

theorem wf_run (calls : List Call) (r : SubscriptionManager) (hwf : r.WF) :
    (r.run calls).WF := by
  induction calls generalizing r with
  | nil => exact hwf
  | cons c rest ih => exact ih (r.step c) (wf_step r hwf c)

theorem nonempty_addSubscription (r : SubscriptionManager)
    (hne : ∀ e ∈ r.m_subscriptions, e.2 ≠ []) (S : CppString) (h : Handle) :
    ∀ e ∈ (r.addSubscription S h).m_subscriptions, e.2 ≠ [] := by
  intro e he
  rcases UMap.mem_update _ _ _ _ e he with hm | hm
  · exact hne e hm
  · rw [hm]
    exact WeakSet.insert_ne_nil _ _

theorem nonempty_removeSubscription (r : SubscriptionManager)
    (hne : ∀ e ∈ r.m_subscriptions, e.2 ≠ []) (S : CppString) (h : Handle) :
    ∀ e ∈ (r.removeSubscription S h).m_subscriptions, e.2 ≠ [] := by
  unfold removeSubscription
  cases hf : UMap.find r.m_subscriptions S with
  | none => exact hne
  | some subs =>
    by_cases he : (WeakSet.erase h subs).isEmpty = true
    · simp only [he, if_true]
      exact fun e hmem => hne e (UMap.erase_subset _ _ e hmem)
    · simp only [he, Bool.false_eq_true, if_false]
      intro e hmem
      rcases UMap.mem_assign _ _ _ e hmem with hm | hm
      · exact hne e hm
      · rw [hm]
        exact fun hnil => he (List.isEmpty_iff.2 hnil)

theorem nonempty_step (r : SubscriptionManager)
    (hne : ∀ e ∈ r.m_subscriptions, e.2 ≠ []) (c : Call) :
    ∀ e ∈ (r.step c).m_subscriptions, e.2 ≠ [] := by
  cases c with
  | addSubscription S h => exact nonempty_addSubscription r hne S h
  | removeSubscription S h => exact nonempty_removeSubscription r hne S h
  | removeAllSubscriptions h => exact fun e he => (mem_removeAllLoop h _ e he).1
  | getSubscribers alive S =>
    show ∀ e ∈ (r.getSubscribers alive S).2.m_subscriptions, e.2 ≠ []
    rw [getSubscribers_snd]
    exact hne

theorem nonempty_run (calls : List Call) (r : SubscriptionManager)
    (hne : ∀ e ∈ r.m_subscriptions, e.2 ≠ []) :
    ∀ e ∈ (r.run calls).m_subscriptions, e.2 ≠ [] := by
  induction calls generalizing r with
  | nil => exact hne
  | cons c rest ih => exact ih (r.step c) (nonempty_step r hne c)

/-- C3: after `addSubscription(S, h)` for a handle `h` whose connection is alive
(`lock()` succeeds), `getSubscribers(S)` contains `h`, from every registry state. -/
theorem mem_getSubscribers_addSubscription (alive : Handle → Bool)
    (r : SubscriptionManager) (S : CppString) (h : Handle) (hal : alive h = true) :
    h ∈ ((r.addSubscription S h).getSubscribers alive S).1 := by
  rw [getSubscribers_fst, stored_addSubscription, List.mem_filter]
  exact ⟨(WeakSet.mem_insert_iff h h _).2 (Or.inl rfl), hal⟩

theorem mem_getSubscribers_addSubscription_witness :
    (fun _ => true : Handle → Bool) 2 = true ∧
      2 ∈ (((⟨[(lit "AAPL", [1, 3])]⟩ : SubscriptionManager).addSubscription
        (lit "AAPL") 2).getSubscribers (fun _ => true) (lit "AAPL")).1 :=
  ⟨rfl, mem_getSubscribers_addSubscription _ _ _ _ rfl⟩

/-- C4: after `removeSubscription(S, h)`, `getSubscribers(S)` does not contain `h`,
whether or not `h` was subscribed to `S` before and whichever handles are alive, from
every registry state the C++ type can hold. -/
theorem not_mem_getSubscribers_removeSubscription (alive : Handle → Bool)
    (r : SubscriptionManager) (hwf : r.WF) (S : CppString) (h : Handle) :
    h ∉ ((r.removeSubscription S h).getSubscribers alive S).1 := by
  rw [getSubscribers_fst, stored_removeSubscription r hwf, List.mem_filter]
  exact fun hmem => WeakSet.not_mem_erase h _ (stored_pairwise r hwf S) hmem.1

theorem not_mem_getSubscribers_removeSubscription_witness :
    (⟨[(lit "AAPL", [1, 2]), (lit "MSFT", [2])]⟩ : SubscriptionManager).WF ∧
      2 ∉ (((⟨[(lit "AAPL", [1, 2]), (lit "MSFT", [2])]⟩ :
        SubscriptionManager).removeSubscription (lit "MSFT") 2).getSubscribers
          (fun _ => true) (lit "MSFT")).1 :=
  ⟨by decide, not_mem_getSubscribers_removeSubscription _ _ (by decide) _ _⟩

/-- C5: `addSubscription` is idempotent under duplicate identity: calling it twice with
the same symbol and handle leaves the same registry as calling it once; and, the
registry being one the C++ type can hold and `h` alive, `getSubscribers(S)` then lists
`h` exactly once, so a fan-out (one push per listed handle) reaches `h` once. -/
theorem addSubscription_idempotent (alive : Handle → Bool) (r : SubscriptionManager)
    (S : CppString) (h : Handle) :
    (r.addSubscription S h).addSubscription S h = r.addSubscription S h ∧
      (r.WF → alive h = true →
        (((r.addSubscription S h).addSubscription S h).getSubscribers alive S).1.count h
          = 1) := by
  have hidem : (r.addSubscription S h).addSubscription S h = r.addSubscription S h := by
    unfold addSubscription
    simp only
    rw [UMap.update_update_of_idem _ _ (WeakSet.insert_insert h)]
  refine ⟨hidem, fun hwf hal => ?_⟩
  rw [hidem, getSubscribers_fst, stored_addSubscription]
  have hpw : (WeakSet.insert h (r.stored S)).Pairwise (· < ·) :=
    WeakSet.pairwise_insert _ _ (stored_pairwise r hwf S)
  have hnd : (WeakSet.insert h (r.stored S)).Nodup := hpw.imp (fun hab => Nat.ne_of_lt hab)
  apply List.count_eq_one_of_mem (hnd.filter _)
  exact List.mem_filter.2 ⟨(WeakSet.mem_insert_iff h h _).2 (Or.inl rfl), hal⟩

theorem addSubscription_idempotent_witness :
    (⟨[(lit "AAPL", [1, 3])]⟩ : SubscriptionManager).WF ∧
      (fun _ => true : Handle → Bool) 3 = true ∧
      (((((⟨[(lit "AAPL", [1, 3])]⟩ : SubscriptionManager).addSubscription
        (lit "AAPL") 3).addSubscription (lit "AAPL") 3).getSubscribers
          (fun _ => true) (lit "AAPL")).1.count 3 = 1) :=
  ⟨by decide, rfl, (addSubscription_idempotent _ _ _ _).2 (by decide) rfl⟩

/-- C6: after `removeAllSubscriptions(h)`, `h` is a member of no symbol's set, and for
every symbol `getSubscribers` excludes `h`, from every registry state the C++ type can
hold; entries that follow an erased entry in the iteration are processed like any
other. -/
theorem not_subscribed_after_removeAllSubscriptions (r : SubscriptionManager)
    (hwf : r.WF) (h : Handle) :
    (∀ e ∈ (r.removeAllSubscriptions h).m_subscriptions, h ∉ e.2) ∧
      ∀ (alive : Handle → Bool) (S : CppString),
        h ∉ ((r.removeAllSubscriptions h).getSubscribers alive S).1 := by
  have hall : ∀ e ∈ (r.removeAllSubscriptions h).m_subscriptions, h ∉ e.2 := by
    intro e he
    obtain ⟨_, e', he', _, h2⟩ := mem_removeAllLoop h _ e he
    rw [h2]
    exact WeakSet.not_mem_erase h _ (hwf.2 e' he')
  refine ⟨hall, fun alive S => ?_⟩
  rw [getSubscribers_fst, List.mem_filter]
  intro hmem
  have hst := hmem.1
  unfold stored at hst
  cases hf : UMap.find (r.removeAllSubscriptions h).m_subscriptions S with
  | none => simp [hf] at hst
  | some subs =>
    simp only [hf] at hst
    exact hall _ (UMap.mem_of_find_eq_some _ _ _ hf) hst

theorem not_subscribed_after_removeAllSubscriptions_witness :
    (⟨[(lit "AAPL", [7]), (lit "MSFT", [5, 7]), (lit "TSLA", [7, 9])]⟩ :
        SubscriptionManager).WF ∧
      ((⟨[(lit "AAPL", [7]), (lit "MSFT", [5, 7]), (lit "TSLA", [7, 9])]⟩ :
          SubscriptionManager).removeAllSubscriptions 7 =
        ⟨[(lit "MSFT", [5]), (lit "TSLA", [9])]⟩) ∧
      ((∀ e ∈ ((⟨[(lit "AAPL", [7]), (lit "MSFT", [5, 7]), (lit "TSLA", [7, 9])]⟩ :
          SubscriptionManager).removeAllSubscriptions 7).m_subscriptions, 7 ∉ e.2) ∧
        ∀ (alive : Handle → Bool) (S : CppString),
          7 ∉ (((⟨[(lit "AAPL", [7]), (lit "MSFT", [5, 7]), (lit "TSLA", [7, 9])]⟩ :
            SubscriptionManager).removeAllSubscriptions 7).getSubscribers alive S).1) :=
  ⟨by decide, by decide, not_subscribed_after_removeAllSubscriptions _ (by decide) 7⟩

/-- C7: in every registry reached from the empty registry by a sequence of calls of
its methods, `removeAllSubscriptions(h)` for a handle `h` that is in no symbol's set
changes nothing: the registry after the call is the registry before it. -/
theorem removeAllSubscriptions_noop (calls : List Call) (h : Handle)
    (hnot : ∀ e ∈ (SubscriptionManager.empty.run calls).m_subscriptions, h ∉ e.2) :
    (SubscriptionManager.empty.run calls).removeAllSubscriptions h =
      SubscriptionManager.empty.run calls := by
  have hne := nonempty_run calls SubscriptionManager.empty (by simp [SubscriptionManager.empty])
  unfold removeAllSubscriptions
  rw [removeAllLoop_eq_self h _ hne hnot]

theorem removeAllSubscriptions_noop_witness :
    (∀ e ∈ (SubscriptionManager.empty.run
        [.addSubscription (lit "AAPL") 1, .addSubscription (lit "MSFT") 2,
          .addSubscription (lit "AAPL") 2, .removeSubscription (lit "MSFT") 2]).m_subscriptions,
        3 ∉ e.2) ∧
      (SubscriptionManager.empty.run
        [.addSubscription (lit "AAPL") 1, .addSubscription (lit "MSFT") 2,
          .addSubscription (lit "AAPL") 2,
          .removeSubscription (lit "MSFT") 2]).removeAllSubscriptions 3 =
        SubscriptionManager.empty.run
          [.addSubscription (lit "AAPL") 1, .addSubscription (lit "MSFT") 2,
            .addSubscription (lit "AAPL") 2, .removeSubscription (lit "MSFT") 2] :=
  ⟨by decide, removeAllSubscriptions_noop _ 3 (by decide)⟩

/-- C8: in every registry reached from the empty registry by any sequence of
`addSubscription`, `removeSubscription`, `removeAllSubscriptions` and `getSubscribers`
calls, no symbol maps to an empty set, so the number of entries is the number of
entries with at least one stored subscriber. -/
theorem no_empty_set_reachable (calls : List Call) :
    (∀ e ∈ (SubscriptionManager.empty.run calls).m_subscriptions, e.2 ≠ []) ∧
      (SubscriptionManager.empty.run calls).m_subscriptions.length =
        ((SubscriptionManager.empty.run calls).m_subscriptions.filter
          (fun e => !e.2.isEmpty)).length := by
  have hne := nonempty_run calls SubscriptionManager.empty (by simp [SubscriptionManager.empty])
  refine ⟨hne, ?_⟩
  rw [List.filter_eq_self.2]
  intro e he
  have := hne e he
  cases h2 : e.2 with
  | nil => exact absurd h2 this
  | cons x xs => rfl

/-- C9: `getSubscribers(S)` returns exactly the handles stored in `S`'s set whose
connection resolves, in set order and each once (nothing when `S` has no entry), and
leaves the registry as it was: a stored handle whose connection is gone is absent from
the result and still stored after the call. -/
theorem getSubscribers_spec (alive : Handle → Bool) (r : SubscriptionManager)
    (hwf : r.WF) (S : CppString) :
    (r.getSubscribers alive S).1 = (r.stored S).filter (fun w => alive w) ∧
      (r.getSubscribers alive S).1.Nodup ∧
      (∀ h, h ∈ (r.getSubscribers alive S).1 ↔ h ∈ r.stored S ∧ alive h = true) ∧
      (UMap.find r.m_subscriptions S = none → (r.getSubscribers alive S).1 = []) ∧
      (r.getSubscribers alive S).2 = r ∧
      (∀ h ∈ r.stored S, alive h = false →
        h ∉ (r.getSubscribers alive S).1 ∧ h ∈ (r.getSubscribers alive S).2.stored S) := by
  have hnd : (r.stored S).Nodup :=
    (stored_pairwise r hwf S).imp (fun hab => Nat.ne_of_lt hab)
  refine ⟨getSubscribers_fst alive r S, ?_, ?_, ?_, getSubscribers_snd alive r S, ?_⟩
  · rw [getSubscribers_fst]
    exact hnd.filter _
  · intro h
    rw [getSubscribers_fst, List.mem_filter]
  · intro hnone
    rw [getSubscribers_fst]
    unfold stored
    rw [hnone]
    rfl
  · intro h hst hdead
    rw [getSubscribers_snd, getSubscribers_fst, List.mem_filter]
    exact ⟨fun hmem => by simp [hdead] at hmem, hst⟩

theorem getSubscribers_spec_witness :
    (⟨[(lit "AAPL", [1, 2, 3])]⟩ : SubscriptionManager).WF ∧
      (((⟨[(lit "AAPL", [1, 2, 3])]⟩ : SubscriptionManager).getSubscribers
          (fun w => w != 2) (lit "AAPL")).1 = [1, 3]) ∧
      (((⟨[(lit "AAPL", [1, 2, 3])]⟩ : SubscriptionManager).getSubscribers
          (fun w => w != 2) (lit "AAPL")).2 = ⟨[(lit "AAPL", [1, 2, 3])]⟩) :=
  ⟨by decide, by decide,
    (getSubscribers_spec (fun w => w != 2) ⟨[(lit "AAPL", [1, 2, 3])]⟩ (by decide)
      (lit "AAPL")).2.2.2.2.1⟩

end SubscriptionManager

end MarketDataServer

/-! ## Theorems: serialization and `SendMarketData` -/

namespace nlohmann

theorem dumpElems_cons_cons (to_chars : Double → CppString) (x y : Json) (rest : List Json)
    (a b : CppString) (hx : dump to_chars x = some a)
    (hrest : dumpElems to_chars (y :: rest) = some b) :
    dumpElems to_chars (x :: y :: rest) = some (a ++ lit "," ++ b) := by
  rw [dumpElems, hx, hrest]

theorem dumpElems_eq_none_of_mem (to_chars : Double → CppString) (x : Json) :
    ∀ l : List Json, x ∈ l → dump to_chars x = none → dumpElems to_chars l = none
  | [], hx, _ => absurd hx (List.not_mem_nil _)
  | [a], hx, hnone => by
    have hxa : x = a := by simpa using hx
    subst hxa
    rw [dumpElems]
    exact hnone
  | a :: b :: rest, hx, hnone => by
    rw [dumpElems]
    rcases List.mem_cons.1 hx with hxa | hxr
    · subst hxa
      rw [hnone]
    · rw [dumpElems_eq_none_of_mem to_chars x (b :: rest) hxr hnone]
      cases dump to_chars a <;> rfl

end nlohmann

theorem to_json_eq (entry : MarketDataEntry) :
    to_json entry = .object
      [(lit "close", .number_float entry.m_close),
       (lit "high", .number_float entry.m_high),
       (lit "low", .number_float entry.m_low),
       (lit "open", .number_float entry.m_open),
       (lit "timestamp", .string entry.m_timestamp),
       (lit "volume", .number_float entry.m_volume)] := by
  rfl

theorem dump_to_json (to_chars : Double → CppString) (entry : MarketDataEntry)
    (hutf : nlohmann.validUtf8 entry.m_timestamp = true) :
    nlohmann.dump to_chars (to_json entry) = some (barText to_chars entry) := by
  have h1 : nlohmann.dump_escaped (lit "close") = some (lit "close") := by decide
  have h2 : nlohmann.dump_escaped (lit "high") = some (lit "high") := by decide
  have h3 : nlohmann.dump_escaped (lit "low") = some (lit "low") := by decide
  have h4 : nlohmann.dump_escaped (lit "open") = some (lit "open") := by decide
  have h5 : nlohmann.dump_escaped (lit "timestamp") = some (lit "timestamp") := by decide
  have h6 : nlohmann.dump_escaped (lit "volume") = some (lit "volume") := by decide
  have h7 : nlohmann.dump_escaped entry.m_timestamp =
      some (nlohmann.escapeAll entry.m_timestamp) := by
    simp [nlohmann.dump_escaped, hutf]
  rw [to_json_eq]
  simp only [nlohmann.dump, nlohmann.dumpMembers, h1, h2, h3, h4, h5, h6, h7, Option.map_some',
    barText]
  have e1 : lit "\x7b\"close\":" = lit "\x7b" ++ (lit "\"" ++ lit "close" ++ lit "\":") := by decide
  have e2 : lit ",\"high\":" = lit "," ++ (lit "\"" ++ lit "high" ++ lit "\":") := by decide
  have e3 : lit ",\"low\":" = lit "," ++ (lit "\"" ++ lit "low" ++ lit "\":") := by decide
  have e4 : lit ",\"open\":" = lit "," ++ (lit "\"" ++ lit "open" ++ lit "\":") := by decide
  have e5 : lit ",\"timestamp\":\"" =
      lit "," ++ (lit "\"" ++ lit "timestamp" ++ lit "\":") ++ lit "\"" := by decide
  have e6 : lit "\",\"volume\":" =
      lit "\"" ++ lit "," ++ (lit "\"" ++ lit "volume" ++ lit "\":") := by decide
  rw [e1, e2, e3, e4, e5, e6]
  simp only [List.append_assoc]

theorem dumpElems_map_to_json (to_chars : Double → CppString) (data : List MarketDataEntry)
    (hutf : ∀ b ∈ data, nlohmann.validUtf8 b.m_timestamp = true) :
    nlohmann.dumpElems to_chars (data.map to_json) =
      some (joinComma (data.map (barText to_chars))) := by
  induction data with
  | nil => rfl
  | cons b rest ih =>
    have hb := dump_to_json to_chars b (hutf b (List.mem_cons_self _ _))
    have hrest := ih (fun x hx => hutf x (List.mem_cons_of_mem _ hx))
    cases rest with
    | nil =>
      show nlohmann.dumpElems to_chars [to_json b] = some (barText to_chars b)
      rw [nlohmann.dumpElems]
      exact hb
    | cons c rest' =>
      exact nlohmann.dumpElems_cons_cons to_chars _ _ _ _ _ hb hrest

theorem dump_snapshot (to_chars : Double → CppString) (data : List MarketDataEntry)
    (hutf : ∀ b ∈ data, nlohmann.validUtf8 b.m_timestamp = true) :
    nlohmann.dump to_chars (.array (data.map to_json)) = some (arrayText to_chars data) := by
  rw [nlohmann.dump, dumpElems_map_to_json to_chars data hutf]
  rfl

theorem dump_to_json_of_invalid (to_chars : Double → CppString) (entry : MarketDataEntry)
    (hutf : nlohmann.validUtf8 entry.m_timestamp = false) :
    nlohmann.dump to_chars (to_json entry) = none := by
  have h7 : nlohmann.dump_escaped entry.m_timestamp = none := by
    simp [nlohmann.dump_escaped, hutf]
  rw [to_json_eq]
  simp only [nlohmann.dump, nlohmann.dumpMembers, h7, Option.map_none']
  cases nlohmann.dump_escaped (lit "close") <;> cases nlohmann.dump_escaped (lit "high") <;>
    cases nlohmann.dump_escaped (lit "low") <;> cases nlohmann.dump_escaped (lit "open") <;>
    cases nlohmann.dump_escaped (lit "timestamp") <;> rfl

theorem dump_snapshot_of_invalid (to_chars : Double → CppString) (data : List MarketDataEntry)
    (hbad : ∃ b ∈ data, nlohmann.validUtf8 b.m_timestamp = false) :
    nlohmann.dump to_chars (.array (data.map to_json)) = none := by
  obtain ⟨b, hb, hutf⟩ := hbad
  rw [nlohmann.dump, nlohmann.dumpElems_eq_none_of_mem to_chars (to_json b) _
    (List.mem_map_of_mem _ hb) (dump_to_json_of_invalid to_chars b hutf)]
  rfl

/-- C10 (as amended): for a symbol whose cached snapshot is non-empty, on a connection
that stays up: when every cached bar's timestamp is valid UTF-8, the bytes
`SendMarketData` writes are exactly `DATA_SIZE:`, the decimal `N`, a newline, and the
`N` bytes of the payload, the payload being the JSON array with one object per cached
bar in snapshot order, and nothing follows the payload; when some cached timestamp is
not valid UTF-8, it writes the internal-error line and no frame. -/
theorem SendMarketData_frame (to_chars : Double → CppString)
    (g_dataCache : MarketDataServer.DataCache) (socket : Socket) (S : CppString)
    (hne : g_dataCache.getData S ≠ []) (hup : socket.room = none) :
    ((∀ b ∈ g_dataCache.getData S, nlohmann.validUtf8 b.m_timestamp = true) →
      (SendMarketData to_chars g_dataCache socket S).sent =
        socket.sent ++
          (lit "DATA_SIZE:" ++
            to_string (arrayText to_chars (g_dataCache.getData S)).length ++ lit "\n" ++
            arrayText to_chars (g_dataCache.getData S))) ∧
    ((∃ b ∈ g_dataCache.getData S, nlohmann.validUtf8 b.m_timestamp = false) →
      (SendMarketData to_chars g_dataCache socket S).sent =
        socket.sent ++ lit "ERROR: Internal server error serializing data.\n") := by
  have hemp : (g_dataCache.getData S).isEmpty = false := by
    cases hd : g_dataCache.getData S with
    | nil => exact absurd hd hne
    | cons b rest => rfl
  constructor
  · intro hutf
    unfold SendMarketData
    simp only [hemp, Bool.false_eq_true, if_false, dump_snapshot to_chars _ hutf, Socket.write,
      hup, List.append_assoc]
  · intro hbad
    unfold SendMarketData
    simp only [hemp, Bool.false_eq_true, if_false, dump_snapshot_of_invalid to_chars _ hbad,
      Socket.write, hup]

theorem SendMarketData_frame_witness :
    (⟨[(lit "MSFT", [⟨lit "2024-01-02", 1, 2, 3, 4, 5⟩, ⟨lit "2024-01-03", 1, 2, 3, 4, 5⟩])]⟩ :
        MarketDataServer.DataCache).getData (lit "MSFT") ≠ [] ∧
      (SendMarketData (fun _ => lit "1.5")
          ⟨[(lit "MSFT",
            [⟨lit "2024-01-02", 1, 2, 3, 4, 5⟩, ⟨lit "2024-01-03", 1, 2, 3, 4, 5⟩])]⟩
          ⟨[], none⟩ (lit "MSFT")).sent =
        [] ++ (lit "DATA_SIZE:" ++
          to_string (arrayText (fun _ => lit "1.5")
            ((⟨[(lit "MSFT",
              [⟨lit "2024-01-02", 1, 2, 3, 4, 5⟩, ⟨lit "2024-01-03", 1, 2, 3, 4, 5⟩])]⟩ :
              MarketDataServer.DataCache).getData (lit "MSFT"))).length ++ lit "\n" ++
          arrayText (fun _ => lit "1.5")
            ((⟨[(lit "MSFT",
              [⟨lit "2024-01-02", 1, 2, 3, 4, 5⟩, ⟨lit "2024-01-03", 1, 2, 3, 4, 5⟩])]⟩ :
              MarketDataServer.DataCache).getData (lit "MSFT"))) :=
  ⟨by decide,
    (SendMarketData_frame _ _ ⟨[], none⟩ (lit "MSFT") (by decide) rfl).1 (by decide)⟩

/-- C10, as stated, fails: the cached snapshot for `MSFT` is one bar whose timestamp
ends in the byte `0xFF` (not valid UTF-8); on a connection that stays up
`SendMarketData` writes the internal-error line and no `DATA_SIZE` frame, whatever
the number formatting. -/
theorem SendMarketData_frame_counterexample :
    (⟨[(lit "MSFT", [⟨lit "2024" ++ [0xFF], 1, 2, 3, 4, 5⟩])]⟩ :
        MarketDataServer.DataCache).getData (lit "MSFT") ≠ [] ∧
      (∀ to_chars : Double → CppString,
        (SendMarketData to_chars ⟨[(lit "MSFT", [⟨lit "2024" ++ [0xFF], 1, 2, 3, 4, 5⟩])]⟩
          ⟨[], none⟩ (lit "MSFT")).sent =
            lit "ERROR: Internal server error serializing data.\n") ∧
      (∀ (to_chars : Double → CppString) (payload : CppString),
        (SendMarketData to_chars ⟨[(lit "MSFT", [⟨lit "2024" ++ [0xFF], 1, 2, 3, 4, 5⟩])]⟩
          ⟨[], none⟩ (lit "MSFT")).sent ≠
            lit "DATA_SIZE:" ++ to_string payload.length ++ lit "\n" ++ payload) := by
  have hsent : ∀ to_chars : Double → CppString,
      (SendMarketData to_chars ⟨[(lit "MSFT", [⟨lit "2024" ++ [0xFF], 1, 2, 3, 4, 5⟩])]⟩
        ⟨[], none⟩ (lit "MSFT")).sent =
          lit "ERROR: Internal server error serializing data.\n" := by
    intro to_chars
    rfl
  refine ⟨by decide, hsent, ?_⟩
  intro to_chars payload heq
  rw [hsent] at heq
  have h0 := congrArg List.head? heq
  have h1 : List.head? (lit "DATA_SIZE:" ++ to_string payload.length ++ lit "\n" ++ payload) =
      some 68 := rfl
  have h2 : List.head? (lit "ERROR: Internal server error serializing data.\n") = some 69 := by
    decide
  rw [h1, h2] at h0
  exact absurd h0 (by decide)

/-! ## Theorems: bytes -/

theorem toNat_ofNat_of_lt (n : Nat) (h : n < 256) : (UInt8.ofNat n).toNat = n := by
  show (BitVec.ofNat 8 n).toNat = n
  rw [BitVec.toNat_ofNat]
  exact Nat.mod_eq_of_lt h

theorem toupper_toNat (c : UInt8) :
    (toupper c).toNat = if 97 ≤ c.toNat ∧ c.toNat ≤ 122 then c.toNat - 32 else c.toNat := by
  unfold toupper
  by_cases h : 97 ≤ c.toNat ∧ c.toNat ≤ 122
  · rw [if_pos h, if_pos h]
    exact toNat_ofNat_of_lt _ (by omega)
  · rw [if_neg h, if_neg h]

theorem isspace_toupper (c : UInt8) : isspace (toupper c) = isspace c := by
  unfold isspace
  rw [toupper_toNat]
  by_cases h : 97 ≤ c.toNat ∧ c.toNat ≤ 122
  · rw [if_pos h]
    have h1 : ¬ (c.toNat - 32 = 32) := by omega
    have h2 : ¬ (c.toNat - 32 ≤ 13) := by omega
    have h3 : ¬ (c.toNat = 32) := by omega
    have h4 : ¬ (c.toNat ≤ 13) := by omega
    simp [h1, h2, h3, h4]
  · rw [if_neg h]

theorem toupper_toupper (c : UInt8) : toupper (toupper c) = toupper c := by
  apply UInt8.ext
  rw [toupper_toNat (toupper c), toupper_toNat c]
  by_cases h : 97 ≤ c.toNat ∧ c.toNat ≤ 122
  · rw [if_pos h]
    have h1 : ¬ (97 ≤ c.toNat - 32 ∧ c.toNat - 32 ≤ 122) := by omega
    rw [if_neg h1]
  · rw [if_neg h, if_neg h]
/-! ## Theorems: command parsing -/

theorem takeWhile_token (v rest : CppString) (c : UInt8)
    (hv : ∀ b ∈ v, isspace b = false) (hc : isspace c = true) :
    (v ++ c :: rest).takeWhile (fun c => !isspace c) = v := by
  induction v with
  | nil => simp [List.takeWhile, hc]
  | cons b v' ih =>
    have hb : isspace b = false := hv b (List.mem_cons_self _ _)
    simp only [List.cons_append, List.takeWhile_cons, hb, Bool.not_false, if_true]
    rw [ih (fun x hx => hv x (List.mem_cons_of_mem _ hx))]

theorem dropWhile_token (v rest : CppString) (c : UInt8)
    (hv : ∀ b ∈ v, isspace b = false) (hc : isspace c = true) :
    (v ++ c :: rest).dropWhile (fun c => !isspace c) = c :: rest := by
  induction v with
  | nil => simp [List.dropWhile, hc]
  | cons b v' ih =>
    have hb : isspace b = false := hv b (List.mem_cons_self _ _)
    simp only [List.cons_append, List.dropWhile_cons, hb, Bool.not_false, if_true]
    rw [ih (fun x hx => hv x (List.mem_cons_of_mem _ hx))]

theorem takeWhile_token_end (v : CppString) (hv : ∀ b ∈ v, isspace b = false) :
    v.takeWhile (fun c => !isspace c) = v := by
  induction v with
  | nil => rfl
  | cons b v' ih =>
    have hb : isspace b = false := hv b (List.mem_cons_self _ _)
    simp only [List.takeWhile_cons, hb, Bool.not_false, if_true]
    rw [ih (fun x hx => hv x (List.mem_cons_of_mem _ hx))]

theorem dropWhile_isspace_token (v : CppString) (hv : ∀ b ∈ v, isspace b = false) :
    v.dropWhile isspace = v := by
  cases v with
  | nil => rfl
  | cons b v' =>
    have hb : isspace b = false := hv b (List.mem_cons_self _ _)
    simp [List.dropWhile, hb]

theorem parseCommand_verb (v rest : CppString) (hne : v ≠ [])
    (hv : ∀ b ∈ v, isspace b = false) :
    parseCommand (v ++ lit " " ++ rest) =
      (v, (rest.dropWhile isspace).takeWhile (fun c => !isspace c)) := by
  have hsp : isspace 32 = true := by decide
  have hline : v ++ lit " " ++ rest = v ++ 32 :: rest := by
    rw [List.append_assoc]
    rfl
  have h1 : (v ++ 32 :: rest).dropWhile isspace = v ++ 32 :: rest := by
    cases v with
    | nil => exact absurd rfl hne
    | cons b v' =>
      have hb : isspace b = false := hv b (List.mem_cons_self _ _)
      simp [List.dropWhile, hb]
  unfold parseCommand
  simp only [hline, h1, takeWhile_token v rest 32 hv hsp, dropWhile_token v rest 32 hv hsp]
  simp [List.dropWhile, hsp]

theorem parseCommand_verb_token (v a : CppString) (hne : v ≠ [])
    (hv : ∀ b ∈ v, isspace b = false) (ha : ∀ b ∈ a, isspace b = false) :
    parseCommand (v ++ lit " " ++ a) = (v, a) := by
  rw [parseCommand_verb v a hne hv, dropWhile_isspace_token a ha, takeWhile_token_end a ha]

theorem not_isspace_of_map_toupper (v V : CppString) (hV : ∀ b ∈ V, isspace b = false)
    (h : v.map toupper = V) : ∀ b ∈ v, isspace b = false := by
  intro b hb
  rw [← isspace_toupper]
  exact hV _ (h ▸ List.mem_map_of_mem toupper hb)

theorem map_toupper_idem (v : CppString) : (v.map toupper).map toupper = v.map toupper := by
  rw [List.map_map]
  apply List.map_congr_left
  intro b _
  exact toupper_toupper b

/-! ## Theorems: `HandleClient` -/

theorem dispatch_congr (to_chars : Double → CppString)
    (g_dataCache : MarketDataServer.DataCache) (h : Handle) (st : ClientState)
    (l1 l2 : CppString)
    (h1 : (parseCommand l1).1.map toupper = (parseCommand l2).1.map toupper)
    (h2 : (parseCommand l1).2 = (parseCommand l2).2) :
    dispatch to_chars g_dataCache h st l1 = dispatch to_chars g_dataCache h st l2 := by
  unfold dispatch
  simp only [h1, h2]

theorem commandLoop_line (to_chars : Double → CppString)
    (g_dataCache : MarketDataServer.DataCache) (h : Handle) (st : ClientState)
    (line tail : CppString) (rest : List CppString) (hline : ∀ b ∈ line, b ≠ 10) :
    commandLoop to_chars g_dataCache h st [] ((line ++ 10 :: tail) :: rest) =
      commandLoop to_chars g_dataCache h (dispatch to_chars g_dataCache h st line) [] rest := by
  have hc : ([] ++ (line ++ 10 :: tail)).contains 10 = true := by
    simp
  have hg : ∀ l : CppString, (∀ b ∈ l, b ≠ 10) →
      (l ++ 10 :: tail).takeWhile (fun c => c != 10) = l := by
    intro l
    induction l with
    | nil => intro _; simp [List.takeWhile_cons]
    | cons b l ih =>
      intro hl
      have hb : (b != 10) = true := bne_iff_ne.2 (hl b (List.mem_cons_self _ _))
      simp only [List.cons_append, List.takeWhile_cons, hb, if_true]
      rw [ih (fun x hx => hl x (List.mem_cons_of_mem _ hx))]
  rw [commandLoop, if_pos hc]
  unfold getline
  rw [List.nil_append, hg line hline]

theorem wf_dispatch (to_chars : Double → CppString)
    (g_dataCache : MarketDataServer.DataCache) (h : Handle) (st : ClientState)
    (line : CppString) (hwf : st.subManager.WF) :
    (dispatch to_chars g_dataCache h st line).subManager.WF := by
  unfold dispatch
  dsimp only
  split
  · exact MarketDataServer.SubscriptionManager.wf_addSubscription _ hwf _ _
  · split
    · exact MarketDataServer.SubscriptionManager.wf_removeSubscription _ hwf _ _
    · split
      · exact hwf
      · exact hwf

theorem wf_commandLoop (to_chars : Double → CppString)
    (g_dataCache : MarketDataServer.DataCache) (h : Handle) (arrivals : List CppString) :
    ∀ (st : ClientState) (buffer : CppString), st.subManager.WF →
      (commandLoop to_chars g_dataCache h st buffer arrivals).subManager.WF := by
  induction arrivals with
  | nil => intro st buffer hwf; exact hwf
  | cons chunk rest ih =>
    intro st buffer hwf
    rw [commandLoop]
    split
    · exact ih _ _ (wf_dispatch to_chars g_dataCache h st _ hwf)
    · exact ih _ _ hwf

theorem removeAllSubscriptions_excludes (r : MarketDataServer.SubscriptionManager)
    (hwf : r.WF) (h : Handle) :
    (∀ e ∈ (r.removeAllSubscriptions h).m_subscriptions, h ∉ e.2) ∧
      ∀ (alive : Handle → Bool) (S : CppString),
        h ∉ ((r.removeAllSubscriptions h).getSubscribers alive S).1 := by
  have hall : ∀ e ∈ (r.removeAllSubscriptions h).m_subscriptions, h ∉ e.2 := by
    intro e he
    obtain ⟨_, e', he', _, h2⟩ := MarketDataServer.SubscriptionManager.mem_removeAllLoop h _ e he
    rw [h2]
    exact WeakSet.not_mem_erase h _ (hwf.2 e' he')
  refine ⟨hall, fun alive S hmem => ?_⟩
  rw [MarketDataServer.SubscriptionManager.getSubscribers_fst, List.mem_filter] at hmem
  have hst := hmem.1
  unfold MarketDataServer.SubscriptionManager.stored at hst
  cases hf : UMap.find (r.removeAllSubscriptions h).m_subscriptions S with
  | none => simp [hf] at hst
  | some subs =>
    simp only [hf] at hst
    exact hall _ (UMap.mem_of_find_eq_some _ _ _ hf) hst

theorem commandLoop_lines (to_chars : Double → CppString)
    (g_dataCache : MarketDataServer.DataCache) (h : Handle) (lines : List CppString)
    (hl : ∀ l ∈ lines, ∀ b ∈ l, b ≠ 10) :
    ∀ st : ClientState,
      commandLoop to_chars g_dataCache h st [] (lines.map (fun l => l ++ lit "\n")) =
        lines.foldl (dispatch to_chars g_dataCache h) st := by
  induction lines with
  | nil => intro st; rfl
  | cons l rest ih =>
    intro st
    have h1 : l ++ lit "\n" = l ++ 10 :: [] := rfl
    rw [List.map_cons, h1, commandLoop_line to_chars g_dataCache h st l [] _
      (hl l (List.mem_cons_self _ _)), ih (fun x hx => hl x (List.mem_cons_of_mem _ hx))]
    rfl

/-- C12: for a symbol `S` the cache holds no data for, `SendMarketData` makes exactly
one write, of the bytes `ERROR: No data available for symbol: ` + `S` + `\n`; on a
connection that stays up the client receives exactly that line, and nothing else. So
does a client whose `SUBSCRIBE S` or `GET S` line is dispatched (`S` a token without
white space). -/
theorem SendMarketData_no_data (to_chars : Double → CppString)
    (g_dataCache : MarketDataServer.DataCache) (socket : Socket) (S : CppString)
    (hno : g_dataCache.getData S = []) :
    SendMarketData to_chars g_dataCache socket S =
        (socket.write (lit "ERROR: No data available for symbol: " ++ S ++ lit "\n")).2 ∧
      (socket.room = none →
        (SendMarketData to_chars g_dataCache socket S).sent =
          socket.sent ++ (lit "ERROR: No data available for symbol: " ++ S ++ lit "\n")) ∧
      (S ≠ [] → (∀ b ∈ S, isspace b = false) → ∀ (h : Handle) (st : ClientState),
        st.socket = socket → socket.room = none →
        (dispatch to_chars g_dataCache h st (lit "SUBSCRIBE " ++ S)).socket.sent =
            socket.sent ++ (lit "ERROR: No data available for symbol: " ++ S ++ lit "\n") ∧
          (dispatch to_chars g_dataCache h st (lit "GET " ++ S)).socket.sent =
            socket.sent ++ (lit "ERROR: No data available for symbol: " ++ S ++ lit "\n")) := by
  have hsend : ∀ sock : Socket, SendMarketData to_chars g_dataCache sock S =
      (sock.write (lit "ERROR: No data available for symbol: " ++ S ++ lit "\n")).2 := by
    intro sock
    unfold SendMarketData
    simp [hno]
  have hup : ∀ sock : Socket, sock.room = none →
      (SendMarketData to_chars g_dataCache sock S).sent =
        sock.sent ++ (lit "ERROR: No data available for symbol: " ++ S ++ lit "\n") := by
    intro sock hroom
    rw [hsend]
    simp [Socket.write, hroom]
  refine ⟨hsend socket, hup socket, ?_⟩
  intro hS htok h st hst hroom
  have hs1 : ∀ b ∈ lit "SUBSCRIBE", isspace b = false := by decide
  have hs2 : ∀ b ∈ lit "GET", isspace b = false := by decide
  have p1 : parseCommand (lit "SUBSCRIBE " ++ S) = (lit "SUBSCRIBE", S) :=
    parseCommand_verb_token (lit "SUBSCRIBE") S (by decide) hs1 htok
  have p2 : parseCommand (lit "GET " ++ S) = (lit "GET", S) :=
    parseCommand_verb_token (lit "GET") S (by decide) hs2 htok
  have u1 : (lit "SUBSCRIBE").map toupper = lit "SUBSCRIBE" := by decide
  have u2 : (lit "GET").map toupper = lit "GET" := by decide
  have n1 : ¬ (lit "GET" = lit "SUBSCRIBE") := by decide
  have n2 : ¬ (lit "GET" = lit "UNSUBSCRIBE") := by decide
  subst hst
  constructor
  · unfold dispatch
    simp only [p1, u1, hS, ne_eq, not_false_eq_true, and_self, if_true]
    exact hup _ hroom
  · unfold dispatch
    simp only [p2, u2, hS, n1, n2, ne_eq, not_false_eq_true, and_true, false_and, if_false,
      if_true, true_and]
    exact hup _ hroom

theorem SendMarketData_no_data_witness :
    (MarketDataServer.DataCache.empty.getData (lit "AAPL") = []) ∧
      (dispatch (fun _ => []) MarketDataServer.DataCache.empty 7 ⟨⟨[]⟩, ⟨[], none⟩⟩
          (lit "SUBSCRIBE AAPL")).socket.sent =
        [] ++ (lit "ERROR: No data available for symbol: " ++ lit "AAPL" ++ lit "\n") :=
  ⟨by decide,
    ((SendMarketData_no_data (fun _ => []) MarketDataServer.DataCache.empty ⟨[], none⟩
      (lit "AAPL") (by decide)).2.2 (by decide) (by decide) 7 ⟨⟨[]⟩, ⟨[], none⟩⟩ rfl rfl).1⟩

/-- C13: however `HandleClient` leaves its loop (the arrivals end with the peer's close,
a read error or an exception), and whatever lines it dispatched before, the cleanup
runs once on the registry the loop left: when `HandleClient` returns the connection's
handle is in no symbol's set, `getSubscribers` excludes it for every symbol, and the
socket is closed. -/
theorem HandleClient_cleanup (to_chars : Double → CppString)
    (g_dataCache : MarketDataServer.DataCache) (h : Handle) (st : ClientState)
    (arrivals : List CppString) (hwf : st.subManager.WF) :
    (HandleClient to_chars g_dataCache h st arrivals).subManager =
        (commandLoop to_chars g_dataCache h st [] arrivals).subManager.removeAllSubscriptions h ∧
      (∀ e ∈ (HandleClient to_chars g_dataCache h st arrivals).subManager.m_subscriptions,
        h ∉ e.2) ∧
      (∀ (alive : Handle → Bool) (S : CppString),
        h ∉ ((HandleClient to_chars g_dataCache h st arrivals).subManager.getSubscribers
          alive S).1) ∧
      (HandleClient to_chars g_dataCache h st arrivals).is_open = false := by
  have hx := removeAllSubscriptions_excludes _
    (wf_commandLoop to_chars g_dataCache h arrivals st [] hwf) h
  exact ⟨rfl, hx.1, hx.2, rfl⟩

theorem HandleClient_cleanup_witness :
    (⟨[(lit "AAPL", [3])]⟩ : MarketDataServer.SubscriptionManager).WF ∧
      (commandLoop (fun _ => []) MarketDataServer.DataCache.empty 7
          ⟨⟨[(lit "AAPL", [3])]⟩, ⟨[], none⟩⟩ []
          [lit "SUBSCRIBE AAPL\n", lit "SUBSCRIBE MSFT\n"]).subManager =
        ⟨[(lit "AAPL", [3, 7]), (lit "MSFT", [7])]⟩ ∧
      (HandleClient (fun _ => []) MarketDataServer.DataCache.empty 7
          ⟨⟨[(lit "AAPL", [3])]⟩, ⟨[], none⟩⟩
          [lit "SUBSCRIBE AAPL\n", lit "SUBSCRIBE MSFT\n"]).subManager =
        ⟨[(lit "AAPL", [3])]⟩ ∧
      (HandleClient (fun _ => []) MarketDataServer.DataCache.empty 7
          ⟨⟨[(lit "AAPL", [3])]⟩, ⟨[], none⟩⟩
          [lit "SUBSCRIBE AAPL\n", lit "SUBSCRIBE MSFT\n"]).is_open = false :=
  ⟨by decide, by decide, by decide,
    (HandleClient_cleanup (fun _ => []) MarketDataServer.DataCache.empty 7
      ⟨⟨[(lit "AAPL", [3])]⟩, ⟨[], none⟩⟩ [lit "SUBSCRIBE AAPL\n", lit "SUBSCRIBE MSFT\n"]
      (by decide)).2.2.2⟩

/-- C14 fails on the code: two command lines that arrive in one piece. The first
`read_until` takes both into its `streambuf`, the cycle dispatches the first line, and
the next cycle starts with a new `streambuf`: `SUBSCRIBE MSFT` is never dispatched.
The same two lines arriving one piece each are both dispatched. -/
theorem commandLoop_drops_line_after_newline :
    (∀ to_chars : Double → CppString,
      commandLoop to_chars MarketDataServer.DataCache.empty 7 ⟨⟨[]⟩, ⟨[], none⟩⟩ []
          [lit "SUBSCRIBE AAPL\nSUBSCRIBE MSFT\n"] =
        ⟨⟨[(lit "AAPL", [7])]⟩,
          ⟨lit "ERROR: No data available for symbol: AAPL\n", none⟩⟩) ∧
    (∀ to_chars : Double → CppString,
      commandLoop to_chars MarketDataServer.DataCache.empty 7 ⟨⟨[]⟩, ⟨[], none⟩⟩ []
          [lit "SUBSCRIBE AAPL\n", lit "SUBSCRIBE MSFT\n"] =
        ⟨⟨[(lit "AAPL", [7]), (lit "MSFT", [7])]⟩,
          ⟨lit "ERROR: No data available for symbol: AAPL\n" ++
            lit "ERROR: No data available for symbol: MSFT\n", none⟩⟩) :=
  ⟨fun _ => rfl, fun _ => rfl⟩

/-- C15: a dispatched line whose verb is `SUBSCRIBE` (in any case) and whose argument is
the symbol `S` leaves the registry that `addSubscription(S, socket)` produces, with the
connection's handle in `S`'s set, for every cache and every state of the socket: the
push changes the socket only, whether it delivers data, delivers the no-data line or
fails to write; and the loop goes on with the next arrival. -/
theorem dispatch_subscribe (to_chars : Double → CppString)
    (g_dataCache : MarketDataServer.DataCache) (h : Handle) (st : ClientState)
    (line S : CppString)
    (hverb : (parseCommand line).1.map toupper = lit "SUBSCRIBE")
    (harg : (parseCommand line).2 = S) (hS : S ≠ []) :
    (dispatch to_chars g_dataCache h st line).subManager = st.subManager.addSubscription S h ∧
      h ∈ (dispatch to_chars g_dataCache h st line).subManager.stored S ∧
      (dispatch to_chars g_dataCache h st line).socket =
        SendMarketData to_chars g_dataCache st.socket S ∧
      ((∀ b ∈ line, b ≠ 10) → ∀ rest : List CppString,
        commandLoop to_chars g_dataCache h st [] ((line ++ lit "\n") :: rest) =
          commandLoop to_chars g_dataCache h (dispatch to_chars g_dataCache h st line) []
            rest) := by
  have hd : dispatch to_chars g_dataCache h st line =
      ⟨st.subManager.addSubscription S h, SendMarketData to_chars g_dataCache st.socket S⟩ := by
    unfold dispatch
    simp only [hverb, harg, hS, ne_eq, not_false_eq_true, and_self, if_true]
  refine ⟨by rw [hd], ?_, by rw [hd], ?_⟩
  · rw [hd]
    show h ∈ (st.subManager.addSubscription S h).stored S
    rw [MarketDataServer.SubscriptionManager.stored_addSubscription]
    exact (WeakSet.mem_insert_iff h h _).2 (Or.inl rfl)
  · intro hline rest
    exact commandLoop_line to_chars g_dataCache h st line [] rest hline

theorem dispatch_subscribe_witness :
    ((parseCommand (lit "Subscribe TSLA")).1.map toupper = lit "SUBSCRIBE") ∧
      ((parseCommand (lit "Subscribe TSLA")).2 = lit "TSLA") ∧
      (dispatch (fun _ => lit "1.5")
          ⟨[(lit "TSLA", [⟨lit "2024-01-02", 1, 2, 3, 4, 5⟩])]⟩ 7
          ⟨⟨[]⟩, ⟨[], some 4⟩⟩ (lit "Subscribe TSLA")).subManager = ⟨[(lit "TSLA", [7])]⟩ ∧
      (dispatch (fun _ => lit "1.5")
          ⟨[(lit "TSLA", [⟨lit "2024-01-02", 1, 2, 3, 4, 5⟩])]⟩ 7
          ⟨⟨[]⟩, ⟨[], some 4⟩⟩ (lit "Subscribe TSLA")).socket = ⟨lit "DATA", some 0⟩ ∧
      7 ∈ (dispatch (fun _ => lit "1.5")
          ⟨[(lit "TSLA", [⟨lit "2024-01-02", 1, 2, 3, 4, 5⟩])]⟩ 7
          ⟨⟨[]⟩, ⟨[], some 4⟩⟩ (lit "Subscribe TSLA")).subManager.stored (lit "TSLA") :=
  ⟨by decide, by decide, by decide, by decide,
    (dispatch_subscribe (fun _ => lit "1.5")
      ⟨[(lit "TSLA", [⟨lit "2024-01-02", 1, 2, 3, 4, 5⟩])]⟩ 7 ⟨⟨[]⟩, ⟨[], some 4⟩⟩
      (lit "Subscribe TSLA") (lit "TSLA") (by decide) (by decide) (by decide)).2.1⟩

/-- C16: the verb is case-insensitive. A line `verb argument...` whose verb upper-cases
to `SUBSCRIBE`, `UNSUBSCRIBE` or `GET` is dispatched exactly as the line with the verb
in upper case: the same registry and the same bytes written. -/
theorem dispatch_verb_case_insensitive (to_chars : Double → CppString)
    (g_dataCache : MarketDataServer.DataCache) (h : Handle) (st : ClientState)
    (verb rest : CppString)
    (hverb : verb.map toupper = lit "SUBSCRIBE" ∨ verb.map toupper = lit "UNSUBSCRIBE" ∨
      verb.map toupper = lit "GET") :
    dispatch to_chars g_dataCache h st (verb ++ lit " " ++ rest) =
      dispatch to_chars g_dataCache h st (verb.map toupper ++ lit " " ++ rest) := by
  have hs1 : ∀ b ∈ lit "SUBSCRIBE", isspace b = false := by decide
  have hs2 : ∀ b ∈ lit "UNSUBSCRIBE", isspace b = false := by decide
  have hs3 : ∀ b ∈ lit "GET", isspace b = false := by decide
  have hup : ∀ b ∈ verb.map toupper, isspace b = false := by
    rcases hverb with hv | hv | hv <;> rw [hv] <;> assumption
  have hlow : ∀ b ∈ verb, isspace b = false :=
    not_isspace_of_map_toupper verb _ hup rfl
  have hne : verb ≠ [] := by
    intro hnil
    subst hnil
    rcases hverb with hv | hv | hv <;> exact absurd hv (by decide)
  have hne' : verb.map toupper ≠ [] := by
    intro hnil
    exact hne (List.map_eq_nil_iff.1 hnil)
  apply dispatch_congr
  · rw [parseCommand_verb verb rest hne hlow, parseCommand_verb _ rest hne' hup,
      map_toupper_idem]
  · rw [parseCommand_verb verb rest hne hlow, parseCommand_verb _ rest hne' hup]

theorem dispatch_verb_case_insensitive_witness :
    ((lit "uNsubScribe").map toupper = lit "SUBSCRIBE" ∨
        (lit "uNsubScribe").map toupper = lit "UNSUBSCRIBE" ∨
        (lit "uNsubScribe").map toupper = lit "GET") ∧
      dispatch (fun _ => []) MarketDataServer.DataCache.empty 7
          ⟨⟨[(lit "AAPL", [3, 7])]⟩, ⟨[], none⟩⟩ (lit "uNsubScribe" ++ lit " " ++ lit "AAPL") =
        dispatch (fun _ => []) MarketDataServer.DataCache.empty 7
          ⟨⟨[(lit "AAPL", [3, 7])]⟩, ⟨[], none⟩⟩
          ((lit "uNsubScribe").map toupper ++ lit " " ++ lit "AAPL") :=
  ⟨by decide, dispatch_verb_case_insensitive _ _ 7 _ (lit "uNsubScribe") (lit "AAPL")
    (by decide)⟩

/-- C17: a line that is not a `SUBSCRIBE`, `UNSUBSCRIBE` or `GET` command with an
argument (its first token does not upper-case to one of the three verbs, or it has no
second token; an empty line has neither) is ignored: the registry and the socket are
left as they were, nothing is written, and the loop goes on with the next arrival.
The handler never writes the cache. -/
theorem dispatch_ignores_other_lines (to_chars : Double → CppString)
    (g_dataCache : MarketDataServer.DataCache) (h : Handle) (st : ClientState)
    (line : CppString)
    (hother : ¬ (((parseCommand line).1.map toupper = lit "SUBSCRIBE" ∨
        (parseCommand line).1.map toupper = lit "UNSUBSCRIBE" ∨
        (parseCommand line).1.map toupper = lit "GET") ∧ (parseCommand line).2 ≠ [])) :
    dispatch to_chars g_dataCache h st line = st ∧
      ((∀ b ∈ line, b ≠ 10) → ∀ rest : List CppString,
        commandLoop to_chars g_dataCache h st [] ((line ++ lit "\n") :: rest) =
          commandLoop to_chars g_dataCache h st [] rest) := by
  have hd : dispatch to_chars g_dataCache h st line = st := by
    unfold dispatch
    dsimp only
    have h1 : ¬ ((parseCommand line).1.map toupper = lit "SUBSCRIBE" ∧
        (parseCommand line).2 ≠ []) := fun hx => hother ⟨Or.inl hx.1, hx.2⟩
    have h2 : ¬ ((parseCommand line).1.map toupper = lit "UNSUBSCRIBE" ∧
        (parseCommand line).2 ≠ []) := fun hx => hother ⟨Or.inr (Or.inl hx.1), hx.2⟩
    have h3 : ¬ ((parseCommand line).1.map toupper = lit "GET" ∧
        (parseCommand line).2 ≠ []) := fun hx => hother ⟨Or.inr (Or.inr hx.1), hx.2⟩
    rw [if_neg h1, if_neg h2, if_neg h3]
  refine ⟨hd, fun hline rest => ?_⟩
  have := commandLoop_line to_chars g_dataCache h st line [] rest hline
  rw [hd] at this
  exact this

theorem dispatch_ignores_other_lines_witness :
    (dispatch (fun _ => []) MarketDataServer.DataCache.empty 7
        ⟨⟨[(lit "AAPL", [7])]⟩, ⟨[], none⟩⟩ (lit "HELLO AAPL") =
      ⟨⟨[(lit "AAPL", [7])]⟩, ⟨[], none⟩⟩) ∧
    (dispatch (fun _ => []) MarketDataServer.DataCache.empty 7
        ⟨⟨[(lit "AAPL", [7])]⟩, ⟨[], none⟩⟩ (lit "") =
      ⟨⟨[(lit "AAPL", [7])]⟩, ⟨[], none⟩⟩) ∧
    (dispatch (fun _ => []) MarketDataServer.DataCache.empty 7
        ⟨⟨[(lit "AAPL", [7])]⟩, ⟨[], none⟩⟩ (lit "UNSUBSCRIBE") =
      ⟨⟨[(lit "AAPL", [7])]⟩, ⟨[], none⟩⟩) :=
  ⟨(dispatch_ignores_other_lines _ _ 7 _ (lit "HELLO AAPL") (by decide)).1,
    (dispatch_ignores_other_lines _ _ 7 _ (lit "") (by decide)).1,
    (dispatch_ignores_other_lines _ _ 7 _ (lit "UNSUBSCRIBE") (by decide)).1⟩

/-- C18: a dispatched line whose verb is `GET` and whose argument is the symbol `S`
leaves the registry exactly as it was, and does to the socket what one
`SendMarketData(socket, S)` on the current cache does. -/
theorem dispatch_get (to_chars : Double → CppString)
    (g_dataCache : MarketDataServer.DataCache) (h : Handle) (st : ClientState)
    (line S : CppString)
    (hverb : (parseCommand line).1.map toupper = lit "GET")
    (harg : (parseCommand line).2 = S) (hS : S ≠ []) :
    (dispatch to_chars g_dataCache h st line).subManager = st.subManager ∧
      (dispatch to_chars g_dataCache h st line).socket =
        SendMarketData to_chars g_dataCache st.socket S := by
  have n1 : ¬ (lit "GET" = lit "SUBSCRIBE") := by decide
  have n2 : ¬ (lit "GET" = lit "UNSUBSCRIBE") := by decide
  have hd : dispatch to_chars g_dataCache h st line =
      ⟨st.subManager, SendMarketData to_chars g_dataCache st.socket S⟩ := by
    unfold dispatch
    simp only [hverb, harg, hS, n1, n2, ne_eq, not_false_eq_true, and_true, false_and,
      if_false, if_true, true_and]
  rw [hd]
  exact ⟨rfl, rfl⟩

theorem dispatch_get_witness :
    ((parseCommand (lit "GET MSFT")).1.map toupper = lit "GET") ∧
      ((parseCommand (lit "GET MSFT")).2 = lit "MSFT") ∧
      (dispatch (fun _ => []) MarketDataServer.DataCache.empty 7
        ⟨⟨[(lit "AAPL", [7])]⟩, ⟨[], none⟩⟩ (lit "GET MSFT")).subManager =
          ⟨[(lit "AAPL", [7])]⟩ :=
  ⟨by decide, by decide,
    (dispatch_get (fun _ => []) MarketDataServer.DataCache.empty 7
      ⟨⟨[(lit "AAPL", [7])]⟩, ⟨[], none⟩⟩ (lit "GET MSFT") (lit "MSFT") (by decide)
      (by decide) (by decide)).1⟩

/-! ## Theorems: the refresh pass -/

theorem pushAll_congr_at (to_chars : Double → CppString)
    (g_dataCache : MarketDataServer.DataCache) (symbol : CppString) (h : Handle)
    (subs : List Handle) :
    ∀ s1 s2 : Handle → Socket, s1 h = s2 h →
      pushAll to_chars g_dataCache symbol subs s1 h =
        pushAll to_chars g_dataCache symbol subs s2 h := by
  induction subs with
  | nil => intro s1 s2 heq; exact heq
  | cons sub rest ih =>
    intro s1 s2 heq
    rw [pushAll, pushAll]
    apply ih
    by_cases hk : h = sub
    · subst hk
      simp only [if_true]
      rw [heq]
    · simp only [hk, if_false]
      exact heq

theorem pushAll_of_not_mem (to_chars : Double → CppString)
    (g_dataCache : MarketDataServer.DataCache) (symbol : CppString) (h : Handle)
    (subs : List Handle) (hmem : h ∉ subs) :
    ∀ s : Handle → Socket, pushAll to_chars g_dataCache symbol subs s h = s h := by
  induction subs with
  | nil => intro s; rfl
  | cons sub rest ih =>
    intro s
    have hne : h ≠ sub := fun hx => hmem (hx ▸ List.mem_cons_self _ _)
    rw [pushAll, ih (fun hx => hmem (List.mem_cons_of_mem _ hx))]
    simp only [hne, if_false]

theorem pushAll_of_mem (to_chars : Double → CppString)
    (g_dataCache : MarketDataServer.DataCache) (symbol : CppString) (h : Handle)
    (subs : List Handle) (hnd : subs.Nodup) (hmem : h ∈ subs) :
    ∀ s : Handle → Socket,
      pushAll to_chars g_dataCache symbol subs s h =
        SendMarketData to_chars g_dataCache (s h) symbol := by
  induction subs with
  | nil => exact absurd hmem (List.not_mem_nil _)
  | cons sub rest ih =>
    intro s
    have hnd' := List.nodup_cons.1 hnd
    rw [pushAll]
    by_cases hk : h = sub
    · subst hk
      rw [pushAll_of_not_mem to_chars g_dataCache symbol h rest hnd'.1]
      simp only [if_true]
    · have hr : h ∈ rest := by
        rcases List.mem_cons.1 hmem with hx | hx
        · exact absurd hx hk
        · exact hx
      rw [ih hnd'.2 hr]
      simp only [hk, if_false]

theorem updateSymbol_cache_congr (to_chars : Double → CppString) (env : Environment)
    (config : MarketDataServer.ServerConfig) (st1 st2 : ServerState) (symbol : CppString)
    (hc : st1.g_dataCache = st2.g_dataCache) (hr : st1.subManager = st2.subManager) :
    (updateSymbol to_chars env config st1 symbol).1.g_dataCache =
        (updateSymbol to_chars env config st2 symbol).1.g_dataCache ∧
      (updateSymbol to_chars env config st1 symbol).1.subManager =
        (updateSymbol to_chars env config st2 symbol).1.subManager ∧
      (updateSymbol to_chars env config st1 symbol).2 =
        (updateSymbol to_chars env config st2 symbol).2 ∧
      ∀ h, st1.sockets h = st2.sockets h →
        (updateSymbol to_chars env config st1 symbol).1.sockets h =
          (updateSymbol to_chars env config st2 symbol).1.sockets h := by
  unfold updateSymbol
  rw [hc, hr]
  by_cases hu : (refreshCache env config st2.g_dataCache symbol).2 = true
  · simp only [hu, if_true]
    exact ⟨trivial, trivial, trivial,
      fun h heq => pushAll_congr_at to_chars _ symbol h _ _ _ heq⟩
  · simp only [hu, Bool.false_eq_true, if_false]
    exact ⟨trivial, trivial, trivial, fun h heq => heq⟩

theorem pass_congr (to_chars : Double → CppString) (env : Environment)
    (config : MarketDataServer.ServerConfig) (symbols : List CppString) :
    ∀ st1 st2 : ServerState, st1.g_dataCache = st2.g_dataCache →
      st1.subManager = st2.subManager →
      (symbols.foldl (fun s symbol => (updateSymbol to_chars env config s symbol).1)
          st1).g_dataCache =
        (symbols.foldl (fun s symbol => (updateSymbol to_chars env config s symbol).1)
          st2).g_dataCache ∧
      ∀ h, st1.sockets h = st2.sockets h →
        (symbols.foldl (fun s symbol => (updateSymbol to_chars env config s symbol).1)
            st1).sockets h =
          (symbols.foldl (fun s symbol => (updateSymbol to_chars env config s symbol).1)
            st2).sockets h := by
  induction symbols with
  | nil => intro st1 st2 hc _; exact ⟨hc, fun h heq => heq⟩
  | cons symbol rest ih =>
    intro st1 st2 hc hr
    have hs := updateSymbol_cache_congr to_chars env config st1 st2 symbol hc hr
    have hi := ih _ _ hs.1 hs.2.1
    simp only [List.foldl_cons]
    exact ⟨hi.1, fun h heq => hi.2 h (hs.2.2.2 h heq)⟩

theorem updateSymbol_fst_cache (to_chars : Double → CppString) (env : Environment)
    (config : MarketDataServer.ServerConfig) (st : ServerState) (symbol : CppString) :
    (updateSymbol to_chars env config st symbol).1.g_dataCache =
        (refreshCache env config st.g_dataCache symbol).1 ∧
      (updateSymbol to_chars env config st symbol).2 =
        (refreshCache env config st.g_dataCache symbol).2 := by
  unfold updateSymbol
  by_cases hu : (refreshCache env config st.g_dataCache symbol).2 = true
  · simp only [hu, if_true, and_self]
  · simp only [hu, Bool.false_eq_true, if_false, true_and]

/-- C19: per symbol, the cache update of a refresh pass follows the fetch-then-fallback
chain. When the remote body is not empty and the JSON parser succeeds on it, the
snapshot of the symbol becomes the JSON parser's bars, the symbol is marked updated,
and the outcome does not depend on the CSV parser. Otherwise, when a CSV path is
configured and the CSV parser succeeds on it, the snapshot becomes the CSV parser's
bars and the symbol is marked updated. Otherwise the cache is exactly as it was and the
symbol is not marked updated. -/
theorem fetch_then_fallback (to_chars : Double → CppString) (env : Environment)
    (config : MarketDataServer.ServerConfig) (st : ServerState) (symbol : CppString) :
    ((env.FetchMarketData symbol ≠ [] ∧
        (env.createJSONParser (env.FetchMarketData symbol)).parseData = true) →
      (updateSymbol to_chars env config st symbol).1.g_dataCache =
          st.g_dataCache.updateData symbol
            (env.createJSONParser (env.FetchMarketData symbol)).getData ∧
        (updateSymbol to_chars env config st symbol).1.g_dataCache.getData symbol =
          (env.createJSONParser (env.FetchMarketData symbol)).getData ∧
        (updateSymbol to_chars env config st symbol).2 = true ∧
        ∀ csv : CppString → ParserOutcome,
          updateSymbol to_chars { env with createCSVParser := csv } config st symbol =
            updateSymbol to_chars env config st symbol) ∧
    (¬ (env.FetchMarketData symbol ≠ [] ∧
        (env.createJSONParser (env.FetchMarketData symbol)).parseData = true) →
      ∀ path, UMap.find config.symbolCSVPaths symbol = some path →
        (env.createCSVParser path).parseData = true →
        (updateSymbol to_chars env config st symbol).1.g_dataCache =
            st.g_dataCache.updateData symbol (env.createCSVParser path).getData ∧
          (updateSymbol to_chars env config st symbol).1.g_dataCache.getData symbol =
            (env.createCSVParser path).getData ∧
          (updateSymbol to_chars env config st symbol).2 = true) ∧
    (¬ (env.FetchMarketData symbol ≠ [] ∧
        (env.createJSONParser (env.FetchMarketData symbol)).parseData = true) →
      (UMap.find config.symbolCSVPaths symbol = none ∨
        ∃ path, UMap.find config.symbolCSVPaths symbol = some path ∧
          (env.createCSVParser path).parseData = false) →
      (updateSymbol to_chars env config st symbol).1.g_dataCache = st.g_dataCache ∧
        (updateSymbol to_chars env config st symbol).2 = false) := by
  have hget : ∀ (c : MarketDataServer.DataCache) (B : List MarketDataEntry),
      (c.updateData symbol B).getData symbol = B := by
    intro c B
    simp [MarketDataServer.DataCache.getData, MarketDataServer.DataCache.updateData,
      UMap.find_assign_self]
  obtain ⟨hc, hu⟩ := updateSymbol_fst_cache to_chars env config st symbol
  refine ⟨fun hapi => ?_, fun hapi path hpath hcsv => ?_, fun hapi hno => ?_⟩
  · have hr : refreshCache env config st.g_dataCache symbol =
        (st.g_dataCache.updateData symbol
          (env.createJSONParser (env.FetchMarketData symbol)).getData, true) := by
      unfold refreshCache
      simp only [hapi, ne_eq, not_false_eq_true, and_self, if_true]
    refine ⟨by rw [hc, hr], by rw [hc, hr]; exact hget _ _, by rw [hu, hr], fun csv => ?_⟩
    have hr' : refreshCache { env with createCSVParser := csv } config st.g_dataCache symbol =
        (st.g_dataCache.updateData symbol
          (env.createJSONParser (env.FetchMarketData symbol)).getData, true) := by
      unfold refreshCache
      simp only [hapi, ne_eq, not_false_eq_true, and_self, if_true]
    unfold updateSymbol
    simp only [hr, hr']
  · have hr : refreshCache env config st.g_dataCache symbol =
        (st.g_dataCache.updateData symbol (env.createCSVParser path).getData, true) := by
      unfold refreshCache
      simp only [hapi, if_false, hpath, hcsv, if_true]
    exact ⟨by rw [hc, hr], by rw [hc, hr]; exact hget _ _, by rw [hu, hr]⟩
  · have hr : refreshCache env config st.g_dataCache symbol = (st.g_dataCache, false) := by
      unfold refreshCache
      rcases hno with hnone | ⟨path, hpath, hcsv⟩
      · simp only [hapi, if_false, hnone]
      · simp only [hapi, if_false, hpath, hcsv, Bool.false_eq_true]
    exact ⟨by rw [hc, hr], by rw [hu, hr]⟩

theorem fetch_then_fallback_witness :
    (updateSymbol (fun _ => [])
        ⟨fun _ => lit "\x7b\"Note\": \"rate limit\"\x7d", fun _ => ⟨false, []⟩,
          fun _ => ⟨true, [⟨lit "2024-01-02", 1, 2, 3, 4, 5⟩]⟩, fun _ => true⟩
        ⟨8080, [], [lit "TSLA"], [(lit "TSLA", lit "tsla.csv")], 60, [], [], [], []⟩
        ⟨⟨[(lit "TSLA", [])]⟩, ⟨[]⟩, fun _ => ⟨[], none⟩⟩ (lit "TSLA")).1.g_dataCache =
      ⟨[(lit "TSLA", [⟨lit "2024-01-02", 1, 2, 3, 4, 5⟩])]⟩ :=
  ((fetch_then_fallback (fun _ => [])
      ⟨fun _ => lit "\x7b\"Note\": \"rate limit\"\x7d", fun _ => ⟨false, []⟩,
        fun _ => ⟨true, [⟨lit "2024-01-02", 1, 2, 3, 4, 5⟩]⟩, fun _ => true⟩
      ⟨8080, [], [lit "TSLA"], [(lit "TSLA", lit "tsla.csv")], 60, [], [], [], []⟩
      ⟨⟨[(lit "TSLA", [])]⟩, ⟨[]⟩, fun _ => ⟨[], none⟩⟩ (lit "TSLA")).2.1
    (by decide) (lit "tsla.csv") (by decide) rfl).1

/-- C20: in a refresh pass a symbol that was not updated causes no push; for a symbol
that was updated, every handle `getSubscribers(symbol)` returns gets exactly one
`SendMarketData` of the new cache on its own socket and no other socket is touched,
whatever state the other sockets are in. Over the whole pass, the cache does not
depend on any socket, and what a handle's socket receives depends on that socket
alone: a push that fails for one subscriber changes nothing for the others or for the
symbols that follow. -/
theorem fan_out (to_chars : Double → CppString) (env : Environment)
    (config : MarketDataServer.ServerConfig) (st : ServerState) (symbol : CppString)
    (hwf : st.subManager.WF) :
    ((updateSymbol to_chars env config st symbol).2 = false →
      (updateSymbol to_chars env config st symbol).1.sockets = st.sockets) ∧
    ((updateSymbol to_chars env config st symbol).2 = true →
      ∀ h, (updateSymbol to_chars env config st symbol).1.sockets h =
        if h ∈ (st.subManager.getSubscribers env.alive symbol).1 then
          SendMarketData to_chars (updateSymbol to_chars env config st symbol).1.g_dataCache
            (st.sockets h) symbol
        else st.sockets h) ∧
    (∀ st2 : ServerState, st2.g_dataCache = st.g_dataCache →
      st2.subManager = st.subManager →
      (DataUpdateTask_pass to_chars env config st2).g_dataCache =
          (DataUpdateTask_pass to_chars env config st).g_dataCache ∧
        ∀ h, st2.sockets h = st.sockets h →
          (DataUpdateTask_pass to_chars env config st2).sockets h =
            (DataUpdateTask_pass to_chars env config st).sockets h) := by
  obtain ⟨hc, hu⟩ := updateSymbol_fst_cache to_chars env config st symbol
  refine ⟨fun hno => ?_, fun hyes h => ?_, fun st2 h1 h2 => ?_⟩
  · rw [hu] at hno
    unfold updateSymbol
    simp only [hno, Bool.false_eq_true, if_false]
  · rw [hc]
    rw [hu] at hyes
    have hnd : (st.subManager.getSubscribers env.alive symbol).1.Nodup := by
      rw [MarketDataServer.SubscriptionManager.getSubscribers_fst]
      exact ((MarketDataServer.SubscriptionManager.stored_pairwise _ hwf symbol).imp
        (fun hab => Nat.ne_of_lt hab)).filter _
    have hs : (updateSymbol to_chars env config st symbol).1.sockets =
        pushAll to_chars (refreshCache env config st.g_dataCache symbol).1 symbol
          (st.subManager.getSubscribers env.alive symbol).1 st.sockets := by
      unfold updateSymbol
      simp only [hyes, if_true]
    rw [hs]
    by_cases hm : h ∈ (st.subManager.getSubscribers env.alive symbol).1
    · rw [if_pos hm, pushAll_of_mem to_chars _ symbol h _ hnd hm]
    · rw [if_neg hm, pushAll_of_not_mem to_chars _ symbol h _ hm]
  · exact pass_congr to_chars env config config.symbols st2 st h1 h2

theorem fan_out_witness :
    (⟨[(lit "TSLA", [1, 2])]⟩ : MarketDataServer.SubscriptionManager).WF ∧
      ((updateSymbol (fun _ => lit "1.5")
          ⟨fun _ => [], fun _ => ⟨false, []⟩,
            fun _ => ⟨true, [⟨lit "2024-01-02", 1, 2, 3, 4, 5⟩]⟩, fun _ => true⟩
          ⟨8080, [], [lit "TSLA"], [(lit "TSLA", lit "tsla.csv")], 60, [], [], [], []⟩
          ⟨⟨[]⟩, ⟨[(lit "TSLA", [1, 2])]⟩,
            fun h => if h = 1 then ⟨[], some 0⟩ else ⟨[], none⟩⟩ (lit "TSLA")).1.sockets 2).sent =
        lit "DATA_SIZE:" ++ to_string 85 ++ lit "\n" ++
          lit ("[\x7b\"close\":1.5,\"high\":1.5,\"low\":1.5,\"open\":1.5," ++
            "\"timestamp\":\"2024-01-02\",\"volume\":1.5\x7d]") ∧
      ((updateSymbol (fun _ => lit "1.5")
          ⟨fun _ => [], fun _ => ⟨false, []⟩,
            fun _ => ⟨true, [⟨lit "2024-01-02", 1, 2, 3, 4, 5⟩]⟩, fun _ => true⟩
          ⟨8080, [], [lit "TSLA"], [(lit "TSLA", lit "tsla.csv")], 60, [], [], [], []⟩
          ⟨⟨[]⟩, ⟨[(lit "TSLA", [1, 2])]⟩,
            fun h => if h = 1 then ⟨[], some 0⟩ else ⟨[], none⟩⟩ (lit "TSLA")).1.sockets 1).sent =
        [] ∧
      ((updateSymbol (fun _ => lit "1.5")
          ⟨fun _ => [], fun _ => ⟨false, []⟩,
            fun _ => ⟨true, [⟨lit "2024-01-02", 1, 2, 3, 4, 5⟩]⟩, fun _ => true⟩
          ⟨8080, [], [lit "TSLA"], [(lit "TSLA", lit "tsla.csv")], 60, [], [], [], []⟩
          ⟨⟨[]⟩, ⟨[(lit "TSLA", [1, 2])]⟩,
            fun h => if h = 1 then ⟨[], some 0⟩ else ⟨[], none⟩⟩ (lit "TSLA")).1.sockets 3) =
        (fun h => if h = 1 then (⟨[], some 0⟩ : Socket) else ⟨[], none⟩) 3 :=
  ⟨by decide, by decide, by decide,
    ((fan_out (fun _ => lit "1.5")
      ⟨fun _ => [], fun _ => ⟨false, []⟩,
        fun _ => ⟨true, [⟨lit "2024-01-02", 1, 2, 3, 4, 5⟩]⟩, fun _ => true⟩
      ⟨8080, [], [lit "TSLA"], [(lit "TSLA", lit "tsla.csv")], 60, [], [], [], []⟩
      ⟨⟨[]⟩, ⟨[(lit "TSLA", [1, 2])]⟩,
        fun h => if h = 1 then ⟨[], some 0⟩ else ⟨[], none⟩⟩ (lit "TSLA") (by decide)).2.1
      rfl 3).trans (by decide)⟩

/-! ## Theorems: the wire round trip -/

/-- C11, as stated, fails: a snapshot of one bar whose five numbers are NaN (the bit
pattern `0x7FF8000000000000`). `dump()` writes `null` for each of them, so the frame
`SendMarketData` sends carries the payload below; the receiver parses it, `from_json`
throws on the `null` under `open`, and no bar is decoded, whatever the number
conversions. -/
theorem payload_with_nan_is_not_decoded :
    (∀ to_chars : Double → CppString,
      (SendMarketData to_chars
          ⟨[(lit "MSFT", [⟨lit "2024-01-02", 0x7FF8000000000000, 0x7FF8000000000000,
            0x7FF8000000000000, 0x7FF8000000000000, 0x7FF8000000000000⟩])]⟩
          ⟨[], none⟩ (lit "MSFT")).sent =
        lit "DATA_SIZE:90\n" ++
          lit ("[\x7b\"close\":null,\"high\":null,\"low\":null,\"open\":null," ++
            "\"timestamp\":\"2024-01-02\",\"volume\":null\x7d]")) ∧
    (∀ (strtod : CppString → Double) (ofInt : Int → Double),
      nlohmann.parse strtod
          (lit ("[\x7b\"close\":null,\"high\":null,\"low\":null,\"open\":null," ++
            "\"timestamp\":\"2024-01-02\",\"volume\":null\x7d]")) =
        some (.array [.object [(lit "close", .null), (lit "high", .null), (lit "low", .null),
          (lit "open", .null), (lit "timestamp", .string (lit "2024-01-02")),
          (lit "volume", .null)]]) ∧
      handleReadPayload strtod ofInt
          (lit ("[\x7b\"close\":null,\"high\":null,\"low\":null,\"open\":null," ++
            "\"timestamp\":\"2024-01-02\",\"volume\":null\x7d]")) = none) :=
  by
  refine ⟨fun to_chars => ?_, fun _ _ => ⟨rfl, rfl⟩⟩
  have hdata : (⟨[(lit "MSFT", [⟨lit "2024-01-02", 0x7FF8000000000000, 0x7FF8000000000000,
      0x7FF8000000000000, 0x7FF8000000000000, 0x7FF8000000000000⟩])]⟩ :
      MarketDataServer.DataCache).getData (lit "MSFT") =
      [⟨lit "2024-01-02", 0x7FF8000000000000, 0x7FF8000000000000,
        0x7FF8000000000000, 0x7FF8000000000000, 0x7FF8000000000000⟩] := by decide
  have hdump : nlohmann.dump to_chars (.array
      ([(⟨lit "2024-01-02", 0x7FF8000000000000, 0x7FF8000000000000, 0x7FF8000000000000,
        0x7FF8000000000000, 0x7FF8000000000000⟩ : MarketDataEntry)].map to_json)) =
      some (lit ("[\x7b\"close\":null,\"high\":null,\"low\":null,\"open\":null," ++
        "\"timestamp\":\"2024-01-02\",\"volume\":null\x7d]")) := rfl
  unfold SendMarketData
  simp only [hdata, hdump, List.isEmpty_cons, Bool.false_eq_true, if_false, Socket.write]
  decide

/-! ## Theorems: strings through `dump` and `parse` -/

namespace nlohmann

theorem foldl_decode_reject (s : CppString) : s.foldl decode .reject = .reject := by
  induction s with
  | nil => rfl
  | cons b s ih => exact ih

theorem foldl_decode_step (q q' : Utf8State) (lo hi : Nat) (hne : q ≠ .accept)
    (hq : ∀ b : UInt8, decode q b = if lo ≤ b.toNat ∧ b.toNat ≤ hi then q' else .reject)
    (s : CppString) (h : s.foldl decode q = .accept) :
    ∃ b s', s = b :: s' ∧ (lo ≤ b.toNat ∧ b.toNat ≤ hi) ∧ s'.foldl decode q' = .accept := by
  cases s with
  | nil => exact absurd h hne
  | cons b s' =>
    rw [List.foldl_cons, hq] at h
    by_cases hr : lo ≤ b.toNat ∧ b.toNat ≤ hi
    · rw [if_pos hr] at h
      exact ⟨b, s', rfl, hr, h⟩
    · rw [if_neg hr, foldl_decode_reject] at h
      exact absurd h (by decide)

theorem next_byte_in_range_append (ranges : List (Nat × Nat)) :
    ∀ (bytes T : CppString), InRanges ranges bytes →
      next_byte_in_range ranges (bytes ++ T) = some (bytes, T) := by
  induction ranges with
  | nil =>
    intro bytes T h
    cases bytes with
    | nil => rfl
    | cons b bs => exact absurd h (by simp [InRanges])
  | cons r ranges ih =>
    intro bytes T h
    obtain ⟨lo, hi⟩ := r
    cases bytes with
    | nil => exact absurd h (by simp [InRanges])
    | cons b bs =>
      obtain ⟨hb, hrest⟩ := h
      rw [List.cons_append, next_byte_in_range, if_pos hb, ih bs T hrest]

theorem escapeByte_of_high (b : UInt8) (hb : 0x80 ≤ b.toNat) : escapeByte b = [b] := by
  unfold escapeByte
  dsimp only
  repeat rw [if_neg (by omega)]

theorem escapeByte_of_plain (b : UInt8) (h1 : 0x20 ≤ b.toNat) (h2 : b.toNat ≠ 0x22)
    (h3 : b.toNat ≠ 0x5C) : escapeByte b = [b] := by
  unfold escapeByte
  dsimp only
  repeat rw [if_neg (by omega)]

theorem high_of_inRanges (ranges : List (Nat × Nat)) (hr : ∀ r ∈ ranges, 0x80 ≤ r.1) :
    ∀ bytes : CppString, InRanges ranges bytes → ∀ b ∈ bytes, 0x80 ≤ b.toNat := by
  induction ranges with
  | nil =>
    intro bytes h b hb
    cases bytes with
    | nil => exact absurd hb (List.not_mem_nil _)
    | cons x xs => exact absurd h (by simp [InRanges])
  | cons r ranges ih =>
    intro bytes h b hb
    obtain ⟨lo, hi⟩ := r
    cases bytes with
    | nil => exact absurd hb (List.not_mem_nil _)
    | cons x xs =>
      obtain ⟨hx, hrest⟩ := h
      rcases List.mem_cons.1 hb with hbx | hbx
      · subst hbx
        have := hr (lo, hi) (List.mem_cons_self _ _)
        exact Nat.le_trans this hx.1
      · exact ih (fun r hr' => hr r (List.mem_cons_of_mem _ hr')) xs hrest b hbx

theorem escapeAll_append_of_high (bytes s : CppString) (hb : ∀ b ∈ bytes, 0x80 ≤ b.toNat) :
    escapeAll (bytes ++ s) = bytes ++ escapeAll s := by
  induction bytes with
  | nil => rfl
  | cons b bs ih =>
    rw [List.cons_append, escapeAll, escapeByte_of_high b (hb b (List.mem_cons_self _ _)),
      ih (fun x hx => hb x (List.mem_cons_of_mem _ hx))]
    rfl

theorem ne_of_toNat_ne (b : UInt8) (n : Nat) (hn : n < 256) (h : b.toNat ≠ n) :
    b ≠ UInt8.ofNat n := by
  intro hb
  apply h
  rw [hb]
  exact toNat_ofNat_of_lt n hn

/-- One step of `scan_string` over a multi-byte code point. -/
theorem scan_string_multi (c : UInt8) (ranges : List (Nat × Nat)) (bytes T : CppString)
    (fuel : Nat) (hc : 0x80 ≤ c.toNat) (hf : followRanges c = some ranges)
    (hin : InRanges ranges bytes) :
    scan_string (fuel + 1) (c :: (bytes ++ T)) = prepend (c :: bytes) (scan_string fuel T) := by
  have h34 : ¬ c = 34 := ne_of_toNat_ne c 34 (by omega) (by omega)
  have h92 : ¬ c = 92 := ne_of_toNat_ne c 92 (by omega) (by omega)
  have h20 : ¬ c.toNat < 0x20 := by omega
  have h80 : ¬ c.toNat < 0x80 := by omega
  simp only [scan_string, h34, h92, h20, h80, if_false, hf,
    next_byte_in_range_append ranges bytes T hin]

theorem scan_string_control (T : CppString) (fuel : Nat) :
    ∀ n : Nat, n < 32 →
      scan_string (fuel + 1) (escapeByte (UInt8.ofNat n) ++ T) =
        prepend [UInt8.ofNat n] (scan_string fuel T) := by
  intro n hn
  interval_cases n <;> rfl

theorem scan_string_ascii (c : UInt8) (T : CppString) (fuel : Nat) (hc : c.toNat < 0x80) :
    scan_string (fuel + 1) (escapeByte c ++ T) = prepend [c] (scan_string fuel T) := by
  have hofNat : c = UInt8.ofNat c.toNat :=
    UInt8.ext (toNat_ofNat_of_lt _ (by omega)).symm
  by_cases h20 : c.toNat < 0x20
  · rw [hofNat]
    exact scan_string_control T fuel _ h20
  · by_cases h22 : c.toNat = 0x22
    · rw [hofNat, h22]
      rfl
    · by_cases h5c : c.toNat = 0x5C
      · rw [hofNat, h5c]
        rfl
      · have h34 : ¬ c = 34 := ne_of_toNat_ne c 34 (by omega) h22
        have h92 : ¬ c = 92 := ne_of_toNat_ne c 92 (by omega) h5c
        rw [escapeByte_of_plain c (by omega) h22 h5c]
        show scan_string (fuel + 1) (c :: T) = _
        simp only [scan_string, h34, h92, h20, hc, if_false, if_true]

theorem escapeByte_length_pos (c : UInt8) : 1 ≤ (escapeByte c).length := by
  unfold escapeByte
  dsimp only
  repeat' split
  all_goals simp [lit]

/-- A string that is valid UTF-8 starts with an ASCII byte or with a lead byte and the
following bytes its ranges ask for, and what follows is valid UTF-8 again. -/
theorem valid_cons_cases (c : UInt8) (s : CppString)
    (h : (c :: s).foldl decode .accept = .accept) :
    (c.toNat < 0x80 ∧ s.foldl decode .accept = .accept) ∨
    (0x80 ≤ c.toNat ∧ ∃ ranges bytes s', followRanges c = some ranges ∧ s = bytes ++ s' ∧
      InRanges ranges bytes ∧ (∀ r ∈ ranges, 0x80 ≤ r.1) ∧
      s'.foldl decode .accept = .accept) := by
  have t1 : ∀ b : UInt8, decode .tail1 b =
      if 0x80 ≤ b.toNat ∧ b.toNat ≤ 0xBF then .accept else .reject := fun _ => rfl
  have t2 : ∀ b : UInt8, decode .tail2 b =
      if 0x80 ≤ b.toNat ∧ b.toNat ≤ 0xBF then .tail1 else .reject := fun _ => rfl
  have t3 : ∀ b : UInt8, decode .tail3 b =
      if 0x80 ≤ b.toNat ∧ b.toNat ≤ 0xBF then .tail2 else .reject := fun _ => rfl
  have te0 : ∀ b : UInt8, decode .e0 b =
      if 0xA0 ≤ b.toNat ∧ b.toNat ≤ 0xBF then .tail1 else .reject := fun _ => rfl
  have ted : ∀ b : UInt8, decode .ed b =
      if 0x80 ≤ b.toNat ∧ b.toNat ≤ 0x9F then .tail1 else .reject := fun _ => rfl
  have tf0 : ∀ b : UInt8, decode .f0 b =
      if 0x90 ≤ b.toNat ∧ b.toNat ≤ 0xBF then .tail2 else .reject := fun _ => rfl
  have tf4 : ∀ b : UInt8, decode .f4 b =
      if 0x80 ≤ b.toNat ∧ b.toNat ≤ 0x8F then .tail2 else .reject := fun _ => rfl
  -- one, two and three following bytes
  have one : ∀ s : CppString, s.foldl decode .tail1 = .accept →
      ∃ bytes s', s = bytes ++ s' ∧ InRanges [(0x80, 0xBF)] bytes ∧
        s'.foldl decode .accept = .accept := by
    intro s hs
    obtain ⟨b, s', rfl, hb, hs'⟩ := foldl_decode_step .tail1 .accept _ _ (by decide) t1 s hs
    exact ⟨[b], s', rfl, ⟨hb, trivial⟩, hs'⟩
  have two : ∀ (q : Utf8State) (lo hi : Nat) (s : CppString), q ≠ .accept →
      (∀ b : UInt8, decode q b = if lo ≤ b.toNat ∧ b.toNat ≤ hi then .tail1 else .reject) →
      s.foldl decode q = .accept →
      ∃ bytes s', s = bytes ++ s' ∧ InRanges [(lo, hi), (0x80, 0xBF)] bytes ∧
        s'.foldl decode .accept = .accept := by
    intro q lo hi s hq hdec hs
    obtain ⟨b1, s1, rfl, hb1, hs1⟩ := foldl_decode_step q .tail1 lo hi hq hdec s hs
    obtain ⟨b2, s2, rfl, hb2, hs2⟩ := foldl_decode_step .tail1 .accept _ _ (by decide) t1 s1 hs1
    exact ⟨[b1, b2], s2, rfl, ⟨hb1, hb2, trivial⟩, hs2⟩
  have three : ∀ (q : Utf8State) (lo hi : Nat) (s : CppString), q ≠ .accept →
      (∀ b : UInt8, decode q b = if lo ≤ b.toNat ∧ b.toNat ≤ hi then .tail2 else .reject) →
      s.foldl decode q = .accept →
      ∃ bytes s', s = bytes ++ s' ∧ InRanges [(lo, hi), (0x80, 0xBF), (0x80, 0xBF)] bytes ∧
        s'.foldl decode .accept = .accept := by
    intro q lo hi s hq hdec hs
    obtain ⟨b1, s1, rfl, hb1, hs1⟩ := foldl_decode_step q .tail2 lo hi hq hdec s hs
    obtain ⟨bytes, s2, rfl, hin, hs2⟩ := two .tail2 _ _ s1 (by decide) t2 hs1
    exact ⟨b1 :: bytes, s2, rfl, ⟨hb1, hin⟩, hs2⟩
  rw [List.foldl_cons] at h
  by_cases h1 : c.toNat ≤ 0x7F
  · left
    have hd : decode .accept c = .accept := by
      unfold decode
      simp only [h1, if_true]
    rw [hd] at h
    exact ⟨by omega, h⟩
  · right
    refine ⟨by omega, ?_⟩
    by_cases h2 : 0xC2 ≤ c.toNat ∧ c.toNat ≤ 0xDF
    · have hd : decode .accept c = .tail1 := by
        unfold decode
        dsimp only
        rw [if_neg h1, if_pos h2]
      rw [hd] at h
      obtain ⟨bytes, s', hs, hin, hv⟩ := one s h
      refine ⟨[(0x80, 0xBF)], bytes, s', ?_, hs, hin, by simp, hv⟩
      unfold followRanges
      dsimp only
      rw [if_pos h2]
    by_cases h3 : c.toNat = 0xE0
    · have hd : decode .accept c = .e0 := by
        unfold decode
        dsimp only
        rw [if_neg h1, if_neg h2, if_pos h3]
      rw [hd] at h
      obtain ⟨bytes, s', hs, hin, hv⟩ := two .e0 _ _ s (by decide) te0 h
      refine ⟨_, bytes, s', ?_, hs, hin, by simp, hv⟩
      unfold followRanges
      dsimp only
      rw [if_neg h2, if_pos h3]
    by_cases h4 : c.toNat = 0xED
    · have hd : decode .accept c = .ed := by
        unfold decode
        dsimp only
        rw [if_neg h1, if_neg h2, if_neg h3, if_pos h4]
      rw [hd] at h
      obtain ⟨bytes, s', hs, hin, hv⟩ := two .ed _ _ s (by decide) ted h
      refine ⟨_, bytes, s', ?_, hs, hin, by simp, hv⟩
      unfold followRanges
      dsimp only
      rw [if_neg h2, if_neg h3, if_pos h4]
    by_cases h5 : 0xE1 ≤ c.toNat ∧ c.toNat ≤ 0xEF
    · have hd : decode .accept c = .tail2 := by
        unfold decode
        dsimp only
        rw [if_neg h1, if_neg h2, if_neg h3, if_neg h4, if_pos h5]
      rw [hd] at h
      obtain ⟨bytes, s', hs, hin, hv⟩ := two .tail2 _ _ s (by decide) t2 h
      refine ⟨_, bytes, s', ?_, hs, hin, by simp, hv⟩
      unfold followRanges
      dsimp only
      rw [if_neg h2, if_neg h3, if_neg h4, if_pos h5]
    by_cases h6 : c.toNat = 0xF0
    · have hd : decode .accept c = .f0 := by
        unfold decode
        dsimp only
        rw [if_neg h1, if_neg h2, if_neg h3, if_neg h4, if_neg h5, if_pos h6]
      rw [hd] at h
      obtain ⟨bytes, s', hs, hin, hv⟩ := three .f0 _ _ s (by decide) tf0 h
      refine ⟨_, bytes, s', ?_, hs, hin, by simp, hv⟩
      unfold followRanges
      dsimp only
      rw [if_neg h2, if_neg h3, if_neg h4, if_neg h5, if_pos h6]
    by_cases h7 : 0xF1 ≤ c.toNat ∧ c.toNat ≤ 0xF3
    · have hd : decode .accept c = .tail3 := by
        unfold decode
        dsimp only
        rw [if_neg h1, if_neg h2, if_neg h3, if_neg h4, if_neg h5, if_neg h6, if_pos h7]
      rw [hd] at h
      obtain ⟨bytes, s', hs, hin, hv⟩ := three .tail3 _ _ s (by decide) t3 h
      refine ⟨_, bytes, s', ?_, hs, hin, by simp, hv⟩
      unfold followRanges
      dsimp only
      rw [if_neg h2, if_neg h3, if_neg h4, if_neg h5, if_neg h6, if_pos h7]
    by_cases h8 : c.toNat = 0xF4
    · have hd : decode .accept c = .f4 := by
        unfold decode
        dsimp only
        rw [if_neg h1, if_neg h2, if_neg h3, if_neg h4, if_neg h5, if_neg h6, if_neg h7,
          if_pos h8]
      rw [hd] at h
      obtain ⟨bytes, s', hs, hin, hv⟩ := three .f4 _ _ s (by decide) tf4 h
      refine ⟨_, bytes, s', ?_, hs, hin, by simp, hv⟩
      unfold followRanges
      dsimp only
      rw [if_neg h2, if_neg h3, if_neg h4, if_neg h5, if_neg h6, if_neg h7, if_pos h8]
    · have hd : decode .accept c = .reject := by
        unfold decode
        dsimp only
        rw [if_neg h1, if_neg h2, if_neg h3, if_neg h4, if_neg h5, if_neg h6, if_neg h7,
          if_neg h8]
      rw [hd, foldl_decode_reject] at h
      exact absurd h (by decide)

/-- The lexer reads the escaped text of a valid UTF-8 string, up to the closing quote,
back as the string. -/
theorem scan_string_escapeAll :
    ∀ (n : Nat) (s : CppString), s.length ≤ n → s.foldl decode .accept = .accept →
      ∀ (rest : CppString) (fuel : Nat), (escapeAll s).length + 1 ≤ fuel →
        scan_string fuel (escapeAll s ++ 34 :: rest) = some (s, rest) := by
  intro n
  induction n with
  | zero =>
    intro s hlen _ rest fuel hfuel
    have hs : s = [] := List.length_eq_zero.1 (Nat.le_zero.1 hlen)
    subst hs
    obtain ⟨f, rfl⟩ : ∃ f, fuel = f + 1 := ⟨fuel - 1, by omega⟩
    simp [escapeAll, scan_string]
  | succ n ih =>
    intro s hlen hvalid rest fuel hfuel
    cases s with
    | nil =>
      obtain ⟨f, rfl⟩ : ∃ f, fuel = f + 1 := ⟨fuel - 1, by omega⟩
      simp [escapeAll, scan_string]
    | cons c s' =>
      obtain ⟨f, rfl⟩ : ∃ f, fuel = f + 1 := ⟨fuel - 1, by omega⟩
      rcases valid_cons_cases c s' hvalid with ⟨hc, hv⟩ | ⟨hc, ranges, bytes, s'', hf, hs, hin, hr, hv⟩
      · have hlen' : s'.length ≤ n := by
          simp only [List.length_cons] at hlen
          omega
        have hfuel' : (escapeAll s').length + 1 ≤ f := by
          have := escapeByte_length_pos c
          simp only [escapeAll, List.length_append] at hfuel
          omega
        rw [escapeAll, List.append_assoc, scan_string_ascii c _ f hc,
          ih s' hlen' hv rest f hfuel']
        rfl
      · subst hs
        have hhigh := high_of_inRanges ranges hr bytes hin
        have hlen' : s''.length ≤ n := by
          simp only [List.length_cons, List.length_append] at hlen
          omega
        have hesc : escapeAll (c :: (bytes ++ s'')) = c :: (bytes ++ escapeAll s'') := by
          rw [escapeAll, escapeByte_of_high c hc, escapeAll_append_of_high bytes s'' hhigh]
          rfl
        have hfuel' : (escapeAll s'').length + 1 ≤ f := by
          rw [hesc] at hfuel
          simp only [List.length_cons, List.length_append] at hfuel
          omega
        rw [hesc, List.cons_append, List.append_assoc,
          scan_string_multi c ranges bytes _ f hc hf hin, ih s'' hlen' hv rest f hfuel']
        simp [prepend]

theorem scan_string_of_valid (s rest : CppString) (fuel : Nat)
    (hvalid : validUtf8 s = true) (hfuel : (escapeAll s).length + 1 ≤ fuel) :
    scan_string fuel (escapeAll s ++ 34 :: rest) = some (s, rest) := by
  have hv : s.foldl decode .accept = .accept := by
    unfold validUtf8 at hvalid
    exact of_decide_eq_true hvalid
  exact scan_string_escapeAll s.length s (Nat.le_refl _) hv rest fuel hfuel

theorem skip_whitespace_cons (c : UInt8) (T : CppString) (hc : isWhitespace c = false) :
    skip_whitespace (c :: T) = c :: T := by
  simp [skip_whitespace, List.dropWhile, hc]

theorem parseValue_string (strtod : CppString → Double) (s rest : CppString) (fuel : Nat)
    (hvalid : validUtf8 s = true) :
    parseValue strtod (fuel + 1) (34 :: (escapeAll s ++ 34 :: rest)) =
      some (.string s, rest) := by
  have hws : skip_whitespace (34 :: (escapeAll s ++ 34 :: rest)) =
      34 :: (escapeAll s ++ 34 :: rest) := skip_whitespace_cons _ _ (by decide)
  have hscan := scan_string_of_valid s rest ((escapeAll s ++ 34 :: rest).length + 1) hvalid
    (by simp only [List.length_append]; omega)
  rw [parseValue]
  simp only [hws, hscan]
  simp

theorem parseValue_number (to_chars : Double → CppString) (strtod : CppString → Double)
    (x : Double) (rest : CppString) (fuel : Nat) (hfin : isfinite x = true)
    (hread : ReadsBack to_chars strtod x)
    (hrest : rest.head? = some 44 ∨ rest.head? = some 125) :
    parseValue strtod (fuel + 1) (dump_float to_chars x ++ rest) =
      some (.number_float x, rest) := by
  obtain ⟨⟨c, t, hct, hc⟩, hscan⟩ := hread
  have hs := hscan rest hrest
  have hd : dump_float to_chars x = to_chars x := by
    unfold dump_float
    rw [if_pos hfin]
  rw [hd]
  rw [hct] at hs ⊢
  have hrange : c.toNat = 45 ∨ (48 ≤ c.toNat ∧ c.toNat ≤ 57) := by
    rcases hc with h | h
    · left
      rw [h]
      rfl
    · right
      simpa [isDigit] using h
  have hws : skip_whitespace (c :: t ++ rest) = c :: (t ++ rest) := by
    apply skip_whitespace_cons
    have h1 : ¬ c = 32 := ne_of_toNat_ne c 32 (by omega) (by omega)
    have h2 : ¬ c = 9 := ne_of_toNat_ne c 9 (by omega) (by omega)
    have h3 : ¬ c = 10 := ne_of_toNat_ne c 10 (by omega) (by omega)
    have h4 : ¬ c = 13 := ne_of_toNat_ne c 13 (by omega) (by omega)
    simp [isWhitespace, h1, h2, h3, h4]
  have n1 : ¬ c = 91 := ne_of_toNat_ne c 91 (by omega) (by omega)
  have n2 : ¬ c = 123 := ne_of_toNat_ne c 123 (by omega) (by omega)
  have n3 : ¬ c = 34 := ne_of_toNat_ne c 34 (by omega) (by omega)
  have n4 : ¬ c = 116 := ne_of_toNat_ne c 116 (by omega) (by omega)
  have n5 : ¬ c = 102 := ne_of_toNat_ne c 102 (by omega) (by omega)
  have n6 : ¬ c = 110 := ne_of_toNat_ne c 110 (by omega) (by omega)
  rw [parseValue]
  simp only [hws, n1, n2, n3, n4, n5, n6, if_false, hc, if_true]
  exact hs

theorem parseMembers_comma (strtod : CppString → Double) (key V R after : CppString)
    (v : Json) (kvs : List (CppString × Json)) (fuel : Nat) (hk : validUtf8 key = true)
    (hv : parseValue strtod fuel V = some (v, 44 :: R))
    (hrest : parseMembers strtod fuel R = some (kvs, after)) :
    parseMembers strtod (fuel + 1) (34 :: (escapeAll key ++ 34 :: 58 :: V)) =
      some ((key, v) :: kvs, after) := by
  have hws : skip_whitespace (34 :: (escapeAll key ++ 34 :: 58 :: V)) =
      34 :: (escapeAll key ++ 34 :: 58 :: V) := skip_whitespace_cons _ _ (by decide)
  have hscan := scan_string_of_valid key (58 :: V)
    ((escapeAll key ++ 34 :: 58 :: V).length + 1) hk
    (by simp only [List.length_append]; omega)
  have hws2 : skip_whitespace (58 :: V) = 58 :: V := skip_whitespace_cons _ _ (by decide)
  have hws3 : skip_whitespace (44 :: R) = 44 :: R := skip_whitespace_cons _ _ (by decide)
  rw [parseMembers]
  simp only [hws, hscan, hws2, hv, hws3, hrest]
  simp

theorem parseMembers_last (strtod : CppString → Double) (key V R : CppString)
    (v : Json) (fuel : Nat) (hk : validUtf8 key = true)
    (hv : parseValue strtod fuel V = some (v, 125 :: R)) :
    parseMembers strtod (fuel + 1) (34 :: (escapeAll key ++ 34 :: 58 :: V)) =
      some ([(key, v)], R) := by
  have hws : skip_whitespace (34 :: (escapeAll key ++ 34 :: 58 :: V)) =
      34 :: (escapeAll key ++ 34 :: 58 :: V) := skip_whitespace_cons _ _ (by decide)
  have hscan := scan_string_of_valid key (58 :: V)
    ((escapeAll key ++ 34 :: 58 :: V).length + 1) hk
    (by simp only [List.length_append]; omega)
  have hws2 : skip_whitespace (58 :: V) = 58 :: V := skip_whitespace_cons _ _ (by decide)
  have hws3 : skip_whitespace (125 :: R) = 125 :: R := skip_whitespace_cons _ _ (by decide)
  rw [parseMembers]
  simp only [hws, hscan, hws2, hv, hws3]
  simp

theorem parseValue_object (strtod : CppString → Double) (T after : CppString)
    (members : List (CppString × Json)) (fuel : Nat)
    (hm : parseMembers strtod fuel (34 :: T) = some (members, after)) :
    parseValue strtod (fuel + 1) (123 :: 34 :: T) =
      some (.object (members.foldl (fun m kv => assignMember kv.1 kv.2 m) []), after) := by
  have hws : skip_whitespace (123 :: 34 :: T) = 123 :: 34 :: T :=
    skip_whitespace_cons _ _ (by decide)
  have hws2 : skip_whitespace (34 :: T) = 34 :: T := skip_whitespace_cons _ _ (by decide)
  rw [parseValue]
  simp only [hws, hws2, hm]
  simp

end nlohmann

theorem barText_cons (to_chars : Double → CppString) (b : MarketDataEntry)
    (rest : CppString) :
    barText to_chars b ++ rest =
      123 :: 34 :: (nlohmann.escapeAll (lit "close") ++ 34 :: 58 ::
        (nlohmann.dump_float to_chars b.m_close ++ 44 ::
      34 :: (nlohmann.escapeAll (lit "high") ++ 34 :: 58 ::
        (nlohmann.dump_float to_chars b.m_high ++ 44 ::
      34 :: (nlohmann.escapeAll (lit "low") ++ 34 :: 58 ::
        (nlohmann.dump_float to_chars b.m_low ++ 44 ::
      34 :: (nlohmann.escapeAll (lit "open") ++ 34 :: 58 ::
        (nlohmann.dump_float to_chars b.m_open ++ 44 ::
      34 :: (nlohmann.escapeAll (lit "timestamp") ++ 34 :: 58 ::
        (34 :: (nlohmann.escapeAll b.m_timestamp ++ 34 :: 44 ::
      34 :: (nlohmann.escapeAll (lit "volume") ++ 34 :: 58 ::
        (nlohmann.dump_float to_chars b.m_volume ++ 125 :: rest))))))))))))) := by
  have e1 : lit "\x7b\"close\":" =
      123 :: 34 :: (nlohmann.escapeAll (lit "close") ++ [34, 58]) := by decide
  have e2 : lit ",\"high\":" =
      44 :: 34 :: (nlohmann.escapeAll (lit "high") ++ [34, 58]) := by decide
  have e3 : lit ",\"low\":" =
      44 :: 34 :: (nlohmann.escapeAll (lit "low") ++ [34, 58]) := by decide
  have e4 : lit ",\"open\":" =
      44 :: 34 :: (nlohmann.escapeAll (lit "open") ++ [34, 58]) := by decide
  have e5 : lit ",\"timestamp\":\"" =
      44 :: 34 :: (nlohmann.escapeAll (lit "timestamp") ++ [34, 58, 34]) := by decide
  have e6 : lit "\",\"volume\":" =
      34 :: 44 :: 34 :: (nlohmann.escapeAll (lit "volume") ++ [34, 58]) := by decide
  have e7 : lit "\x7d" = [125] := by decide
  unfold barText
  rw [e1, e2, e3, e4, e5, e6, e7]
  simp only [List.append_assoc, List.cons_append, List.nil_append]

theorem parseValue_barText (to_chars : Double → CppString) (strtod : CppString → Double)
    (b : MarketDataEntry) (rest : CppString) (g : Nat) (hb : Carried to_chars strtod b) :
    nlohmann.parseValue strtod (g + 8) (barText to_chars b ++ rest) =
      some (to_json b, rest) := by
  obtain ⟨hts, ho, hh, hl, hc, hv⟩ := hb
  rw [barText_cons]
  have m6 := nlohmann.parseMembers_last strtod (lit "volume")
    (nlohmann.dump_float to_chars b.m_volume ++ 125 :: rest) rest
    (.number_float b.m_volume) (g + 1) (by decide)
    (nlohmann.parseValue_number to_chars strtod _ _ g hv.1 hv.2 (Or.inr rfl))
  have m5 := nlohmann.parseMembers_comma strtod (lit "timestamp") _ _ _
    (.string b.m_timestamp) _ (g + 2) (by decide)
    (nlohmann.parseValue_string strtod b.m_timestamp _ (g + 1) hts) m6
  have m4 := nlohmann.parseMembers_comma strtod (lit "open") _ _ _
    (.number_float b.m_open) _ (g + 3) (by decide)
    (nlohmann.parseValue_number to_chars strtod _ _ (g + 2) ho.1 ho.2 (Or.inl rfl)) m5
  have m3 := nlohmann.parseMembers_comma strtod (lit "low") _ _ _
    (.number_float b.m_low) _ (g + 4) (by decide)
    (nlohmann.parseValue_number to_chars strtod _ _ (g + 3) hl.1 hl.2 (Or.inl rfl)) m4
  have m2 := nlohmann.parseMembers_comma strtod (lit "high") _ _ _
    (.number_float b.m_high) _ (g + 5) (by decide)
    (nlohmann.parseValue_number to_chars strtod _ _ (g + 4) hh.1 hh.2 (Or.inl rfl)) m3
  have m1 := nlohmann.parseMembers_comma strtod (lit "close") _ _ _
    (.number_float b.m_close) _ (g + 6) (by decide)
    (nlohmann.parseValue_number to_chars strtod _ _ (g + 5) hc.1 hc.2 (Or.inl rfl)) m2
  rw [nlohmann.parseValue_object strtod _ _ _ (g + 7) m1, to_json_eq]
  rfl

theorem barText_length (to_chars : Double → CppString) (b : MarketDataEntry) :
    8 ≤ (barText to_chars b).length := by
  have h := congrArg List.length (barText_cons to_chars b [])
  rw [List.append_nil] at h
  rw [h]
  simp only [List.length_cons, List.length_append]
  omega

theorem joinComma_cons_cons (t u : CppString) (rest : List CppString) :
    joinComma (t :: u :: rest) = t ++ 44 :: joinComma (u :: rest) := by
  rw [joinComma]
  have : lit "," = [44] := by decide
  rw [this, List.append_assoc]
  rfl

theorem joinComma_length (to_chars : Double → CppString) (data : List MarketDataEntry) :
    8 * data.length ≤ (joinComma (data.map (barText to_chars))).length := by
  induction data with
  | nil => simp
  | cons b rest ih =>
    cases rest with
    | nil =>
      have := barText_length to_chars b
      simp only [List.map_cons, List.map_nil, joinComma, List.length_cons, List.length_nil]
      omega
    | cons c more =>
      have := barText_length to_chars b
      rw [List.map_cons, List.map_cons, joinComma_cons_cons]
      rw [List.map_cons] at ih
      simp only [List.length_append, List.length_cons] at ih ⊢
      omega

theorem parseElems_bars (to_chars : Double → CppString) (strtod : CppString → Double)
    (rest : CppString) :
    ∀ (data : List MarketDataEntry), data ≠ [] →
      (∀ b ∈ data, Carried to_chars strtod b) →
      ∀ fuel : Nat, data.length + 8 ≤ fuel →
        nlohmann.parseElems strtod fuel (joinComma (data.map (barText to_chars)) ++ 93 :: rest) =
          some (data.map to_json, rest) := by
  intro data
  induction data with
  | nil => intro h; exact absurd rfl h
  | cons b more ih =>
    intro _ hall fuel hfuel
    have hb := hall b (List.mem_cons_self _ _)
    obtain ⟨g, rfl⟩ : ∃ g, fuel = g + 9 := ⟨fuel - 9, by simp only [List.length_cons] at hfuel; omega⟩
    cases more with
    | nil =>
      have hv := parseValue_barText to_chars strtod b (93 :: rest) g hb
      have hws : nlohmann.skip_whitespace (93 :: rest) = 93 :: rest :=
        nlohmann.skip_whitespace_cons _ _ (by decide)
      show nlohmann.parseElems strtod (g + 8 + 1) (barText to_chars b ++ 93 :: rest) = _
      rw [nlohmann.parseElems]
      simp only [hv, hws]
      simp
    | cons c more' =>
      have hrest := ih (by simp) (fun x hx => hall x (List.mem_cons_of_mem _ hx)) (g + 8)
        (by simp only [List.length_cons] at hfuel ⊢; omega)
      have hv := parseValue_barText to_chars strtod b
        (44 :: (joinComma ((c :: more').map (barText to_chars)) ++ 93 :: rest)) g hb
      have hws : ∀ T : CppString, nlohmann.skip_whitespace (44 :: T) = 44 :: T :=
        fun T => nlohmann.skip_whitespace_cons _ _ (by decide)
      rw [List.map_cons, List.map_cons, joinComma_cons_cons, List.append_assoc,
        List.cons_append]
      rw [List.map_cons] at hrest hv
      show nlohmann.parseElems strtod (g + 8 + 1) _ = _
      rw [nlohmann.parseElems]
      simp only [hv, hws, hrest]
      simp

theorem from_json_to_json (ofInt : Int → Double) (b : MarketDataEntry) :
    from_json ofInt (to_json b) = some b := by
  rw [to_json_eq]
  cases b
  rfl

theorem from_json_all_map (ofInt : Int → Double) (data : List MarketDataEntry) :
    from_json_all ofInt (data.map to_json) = some data := by
  induction data with
  | nil => rfl
  | cons b rest ih =>
    rw [List.map_cons, from_json_all, from_json_to_json, ih]

theorem parse_arrayText (to_chars : Double → CppString) (strtod : CppString → Double)
    (data : List MarketDataEntry) (hne : data ≠ [])
    (hall : ∀ b ∈ data, Carried to_chars strtod b) :
    nlohmann.parse strtod (arrayText to_chars data) = some (.array (data.map to_json)) := by
  have hform : arrayText to_chars data =
      91 :: (joinComma (data.map (barText to_chars)) ++ [93]) := by
    unfold arrayText
    have h1 : lit "[" = [91] := by decide
    have h2 : lit "]" = [93] := by decide
    rw [h1, h2, List.append_assoc]
    rfl
  obtain ⟨b, more, rfl⟩ : ∃ b more, data = b :: more := by
    cases data with
    | nil => exact absurd rfl hne
    | cons b more => exact ⟨b, more, rfl⟩
  have hlen := joinComma_length to_chars (b :: more)
  have helems := parseElems_bars to_chars strtod [] (b :: more) hne hall
    ((joinComma ((b :: more).map (barText to_chars)) ++ [93]).length + 1)
    (by simp only [List.length_append, List.length_cons, List.length_nil] at hlen ⊢; omega)
  -- the first byte of the joined text is the opening brace of the first bar
  obtain ⟨J, hJ⟩ : ∃ J, joinComma ((b :: more).map (barText to_chars)) ++ [93] = 123 :: J := by
    cases more with
    | nil => exact ⟨_, barText_cons to_chars b [93]⟩
    | cons c more' =>
      rw [List.map_cons, List.map_cons, joinComma_cons_cons, List.append_assoc]
      exact ⟨_, barText_cons to_chars b _⟩
  have hws : nlohmann.skip_whitespace (91 :: 123 :: J) = 91 :: 123 :: J :=
    nlohmann.skip_whitespace_cons _ _ (by decide)
  have hws2 : nlohmann.skip_whitespace (123 :: J) = 123 :: J :=
    nlohmann.skip_whitespace_cons _ _ (by decide)
  rw [hJ] at helems
  have hpv : nlohmann.parseValue strtod ((123 :: J).length + 1 + 1) (91 :: 123 :: J) =
      some (.array ((b :: more).map to_json), []) := by
    rw [nlohmann.parseValue]
    simp only [hws, hws2, helems]
    simp
  unfold nlohmann.parse
  rw [hform, hJ]
  have hhead : (91 :: 123 :: J : CppString).head? ≠ some 0xEF := by
    simp only [List.head?_cons, ne_eq, Option.some.injEq]
    decide
  rw [if_neg hhead]
  have hl : (91 :: 123 :: J : CppString).length + 1 = (123 :: J).length + 1 + 1 := rfl
  simp only [hl, hpv]
  simp [nlohmann.skip_whitespace]

theorem take_length_sub (a b : CppString) :
    (a ++ b).take ((a ++ b).length - b.length) = a := by
  rw [List.length_append, Nat.add_sub_cancel]
  exact List.take_left' rfl

/-- An instance of `ReadsBack`: the number text `1.5` and a `strtod` that converts it to
the `double` 1.5 (bit pattern `0x3FF8000000000000`). -/
theorem readsBack_example :
    ReadsBack (fun _ => lit "1.5")
      (fun t => if t = lit "1.5" then 0x3FF8000000000000 else 0) 0x3FF8000000000000 := by
  refine ⟨⟨49, lit ".5", by decide, Or.inr (by decide)⟩, ?_⟩
  intro rest hrest
  cases rest with
  | nil => simp at hrest
  | cons c r =>
    have hc : c = 44 ∨ c = 125 := by simpa using hrest
    have ht := take_length_sub (lit "1.5") (c :: r)
    have e : (lit "1.5" ++ c :: r) = 49 :: 46 :: 53 :: c :: r := rfl
    show nlohmann.scan_number _ (lit "1.5" ++ c :: r) = _
    unfold nlohmann.scan_number
    simp only [e] at ht ⊢
    rcases hc with h | h
    · subst h
      simp [List.takeWhile, nlohmann.isDigit, ht, isfinite, UInt8.size]
      decide
    · subst h
      simp [List.takeWhile, nlohmann.isDigit, ht, isfinite, UInt8.size]
      decide

/-- C11 (as amended): for every non-empty sequence of bars whose timestamps are valid
UTF-8 and whose numbers are finite and have a number text that the lexer reads back as
the same number, the payload `SendMarketData` produces (`to_json`, then `dump`) is the
array text of the bars, and the receiver's decoding of it (`json::parse`, then
`from_json` into a vector) gives back the same bars, in the same order with the same
timestamp, open, high, low, close and volume. -/
theorem wire_round_trip (to_chars : Double → CppString) (strtod : CppString → Double)
    (ofInt : Int → Double) (data : List MarketDataEntry) (hne : data ≠ [])
    (hall : ∀ b ∈ data, Carried to_chars strtod b) :
    nlohmann.dump to_chars (.array (data.map to_json)) = some (arrayText to_chars data) ∧
      handleReadPayload strtod ofInt (arrayText to_chars data) = some data := by
  refine ⟨dump_snapshot to_chars data (fun b hb => (hall b hb).1), ?_⟩
  unfold handleReadPayload
  rw [parse_arrayText to_chars strtod data hne hall]
  exact from_json_all_map ofInt data

theorem wire_round_trip_witness :
    ([⟨lit "2024-01-02", 0x3FF8000000000000, 0x3FF8000000000000, 0x3FF8000000000000,
        0x3FF8000000000000, 0x3FF8000000000000⟩,
      ⟨lit "a\"b\n" ++ [0xC3, 0xA9], 0x3FF8000000000000, 0x3FF8000000000000,
        0x3FF8000000000000, 0x3FF8000000000000, 0x3FF8000000000000⟩] :
        List MarketDataEntry) ≠ [] ∧
    handleReadPayload (fun t => if t = lit "1.5" then 0x3FF8000000000000 else 0) (fun _ => 0)
        (arrayText (fun _ => lit "1.5")
          [⟨lit "2024-01-02", 0x3FF8000000000000, 0x3FF8000000000000, 0x3FF8000000000000,
            0x3FF8000000000000, 0x3FF8000000000000⟩,
          ⟨lit "a\"b\n" ++ [0xC3, 0xA9], 0x3FF8000000000000, 0x3FF8000000000000,
            0x3FF8000000000000, 0x3FF8000000000000, 0x3FF8000000000000⟩]) =
      some [⟨lit "2024-01-02", 0x3FF8000000000000, 0x3FF8000000000000, 0x3FF8000000000000,
          0x3FF8000000000000, 0x3FF8000000000000⟩,
        ⟨lit "a\"b\n" ++ [0xC3, 0xA9], 0x3FF8000000000000, 0x3FF8000000000000,
          0x3FF8000000000000, 0x3FF8000000000000, 0x3FF8000000000000⟩] :=
  ⟨by decide,
    (wire_round_trip (fun _ => lit "1.5")
      (fun t => if t = lit "1.5" then 0x3FF8000000000000 else 0) (fun _ => 0) _ (by decide)
      (by
        intro b hb
        have hfin : isfinite 0x3FF8000000000000 = true := by decide
        simp only [List.mem_cons, List.mem_singleton, List.not_mem_nil, or_false] at hb
        rcases hb with h | h <;> subst h <;>
          exact ⟨by decide, ⟨hfin, readsBack_example⟩, ⟨hfin, readsBack_example⟩,
            ⟨hfin, readsBack_example⟩, ⟨hfin, readsBack_example⟩,
            ⟨hfin, readsBack_example⟩⟩)).2⟩

/-! ## Theorems: the order of timestamps and `std::sort` -/

theorem strLt_nil_right (a : CppString) : strLt a [] = false := by
  cases a <;> rfl

theorem strLt_le_total : ∀ a b : CppString, strLt b a = false ∨ strLt a b = false
  | [], b => Or.inl (strLt_nil_right b)
  | _ :: _, [] => Or.inr rfl
  | x :: as, y :: bs => by
    simp only [strLt]
    rcases strLt_le_total as bs with h | h
    · by_cases h1 : y.toNat < x.toNat
      · right
        rw [if_neg (by omega), if_pos h1]
      · left
        rw [if_neg h1]
        by_cases h2 : x.toNat < y.toNat
        · rw [if_pos h2]
        · rw [if_neg h2]; exact h
    · by_cases h1 : x.toNat < y.toNat
      · left
        rw [if_neg (by omega), if_pos h1]
      · right
        rw [if_neg h1]
        by_cases h2 : y.toNat < x.toNat
        · rw [if_pos h2]
        · rw [if_neg h2]; exact h

theorem strLt_le_trans : ∀ a b c : CppString,
    strLt b a = false → strLt c b = false → strLt c a = false
  | [], _, c => fun _ _ => strLt_nil_right c
  | _ :: _, [], _ => fun h _ => by simp [strLt] at h
  | _ :: _, _ :: _, [] => fun _ h => by simp [strLt] at h
  | x :: as, y :: bs, z :: cs => by
    intro h1 h2
    simp only [strLt] at h1 h2 ⊢
    by_cases hyx : y.toNat < x.toNat
    · rw [if_pos hyx] at h1; exact absurd h1 (by decide)
    rw [if_neg hyx] at h1
    by_cases hzy : z.toNat < y.toNat
    · rw [if_pos hzy] at h2; exact absurd h2 (by decide)
    rw [if_neg hzy] at h2
    rw [if_neg (by omega)]
    by_cases hxz : x.toNat < z.toNat
    · rw [if_pos hxz]
    rw [if_neg hxz]
    rw [if_neg (by omega)] at h1
    rw [if_neg (by omega)] at h2
    exact strLt_le_trans as bs cs h1 h2

theorem sort_perm {α : Type} (comp : α → α → Bool) (data : List α) :
    (sort comp data).Perm data :=
  List.perm_insertionSort _ data

theorem sort_ascending (data : List MarketDataEntry) :
    Ascending (sort compareMarketDataEntryTimestamps data) := by
  haveI : IsTotal MarketDataEntry (fun a b => compareMarketDataEntryTimestamps b a = false) :=
    ⟨fun a b => strLt_le_total a.m_timestamp b.m_timestamp⟩
  haveI : IsTrans MarketDataEntry (fun a b => compareMarketDataEntryTimestamps b a = false) :=
    ⟨fun a b c h1 h2 => strLt_le_trans a.m_timestamp b.m_timestamp c.m_timestamp h1 h2⟩
  exact List.sorted_insertionSort _ data

theorem finishParse_getData (m_data : List MarketDataEntry) :
    (finishParse m_data).getData = sort compareMarketDataEntryTimestamps m_data := by
  cases m_data with
  | nil => rfl
  | cons a l => rfl

theorem finishParse_perm (m_data : List MarketDataEntry) :
    (finishParse m_data).getData.Perm m_data := by
  rw [finishParse_getData]
  exact sort_perm _ _

theorem finishParse_ascending (m_data : List MarketDataEntry) :
    Ascending (finishParse m_data).getData := by
  rw [finishParse_getData]
  exact sort_ascending _

theorem finishParse_parseData (m_data : List MarketDataEntry) :
    (finishParse m_data).parseData = !(finishParse m_data).getData.isEmpty := rfl

theorem finishParse_true_iff (m_data : List MarketDataEntry) :
    (finishParse m_data).parseData = true ↔ m_data ≠ [] := by
  have hp := (finishParse_perm m_data).length_eq
  rw [finishParse_parseData]
  cases hg : (finishParse m_data).getData with
  | nil =>
    rw [hg] at hp
    have : m_data = [] := List.length_eq_zero.1 hp.symm
    simp [this]
  | cons a l =>
    rw [hg] at hp
    have : m_data ≠ [] := by
      intro h
      rw [h] at hp
      simp at hp
    simp [this]

theorem finishParse_true_iff_getData (m_data : List MarketDataEntry) :
    (finishParse m_data).parseData = true ↔ (finishParse m_data).getData ≠ [] := by
  rw [finishParse_parseData]
  cases (finishParse m_data).getData <;> simp

/-- A loop that appends what each item yields collects the items that yield something,
in order. -/
theorem foldl_collect {α β : Type} (f : α → Option β) (g : List β → α → List β)
    (hg : ∀ m_data item, g m_data item = m_data ++ (f item).toList) (items : List α) :
    ∀ acc : List β, items.foldl g acc = acc ++ items.filterMap f := by
  induction items with
  | nil => intro acc; simp
  | cons item rest ih =>
    intro acc
    rw [List.foldl_cons, ih, hg]
    cases hf : f item with
    | none => simp [List.filterMap_cons, hf]
    | some entry => simp [List.filterMap_cons, hf]

theorem takeWhile_ne_append (delim : UInt8) (ts rest : CppString) (h : delim ∉ ts) :
    (ts ++ delim :: rest).takeWhile (fun c => c != delim) = ts := by
  induction ts with
  | nil => simp [List.takeWhile]
  | cons c ts ih =>
    have hc : c ≠ delim := fun hx => h (hx ▸ List.mem_cons_self _ _)
    simp only [List.cons_append, List.takeWhile_cons]
    simp only [bne_iff_ne, ne_eq, hc, not_false_eq_true, if_true]
    rw [ih (fun hx => h (List.mem_cons_of_mem _ hx))]

theorem dropWhile_ne_append (delim : UInt8) (ts rest : CppString) (h : delim ∉ ts) :
    (ts ++ delim :: rest).dropWhile (fun c => c != delim) = delim :: rest := by
  induction ts with
  | nil => simp [List.dropWhile]
  | cons c ts ih =>
    have hc : c ≠ delim := fun hx => h (hx ▸ List.mem_cons_self _ _)
    simp only [List.cons_append, List.dropWhile_cons]
    simp only [bne_iff_ne, ne_eq, hc, not_false_eq_true, if_true]
    exact ih (fun hx => h (List.mem_cons_of_mem _ hx))

/-! ## Theorems: the CSV parser -/

theorem getlines_line (line rest : CppString) (h : (10 : UInt8) ∉ line) :
    getlines (line ++ 10 :: rest) = line :: getlines rest := by
  induction line with
  | nil => simp [getlines]
  | cons c line ih =>
    have hc : c ≠ 10 := fun hx => h (hx ▸ List.mem_cons_self _ _)
    have ih' := ih (fun hx => h (List.mem_cons_of_mem _ hx))
    rw [List.cons_append, getlines, if_neg hc, ih']

theorem getlines_single (line : CppString) (h : (10 : UInt8) ∉ line) (hne : line ≠ []) :
    getlines line = [line] := by
  induction line with
  | nil => exact absurd rfl hne
  | cons c line ih =>
    have hc : c ≠ 10 := fun hx => h (hx ▸ List.mem_cons_self _ _)
    cases line with
    | nil => simp [getlines, hc]
    | cons d line =>
      have ih' := ih (fun hx => h (List.mem_cons_of_mem _ hx)) (List.cons_ne_nil _ _)
      simp only [getlines, hc, if_false] at ih' ⊢
      rw [ih']

theorem getlines_unlines (lines : List CppString) (h : ∀ l ∈ lines, (10 : UInt8) ∉ l)
    (rest : CppString) : getlines (unlines lines ++ rest) = lines ++ getlines rest := by
  induction lines with
  | nil => rfl
  | cons line lines ih =>
    have h1 := h line (List.mem_cons_self _ _)
    have h2 := ih (fun l hl => h l (List.mem_cons_of_mem _ hl))
    simp only [unlines, List.append_assoc, List.cons_append]
    rw [getlines_line line _ h1, h2]

namespace IStream

theorem getline_delim (ts rest : CppString) (h : (44 : UInt8) ∉ ts) :
    getline ⟨ts ++ 44 :: rest, false⟩ 44 = some (ts, ⟨rest, false⟩) := by
  have ht := takeWhile_ne_append 44 ts rest h
  have hd := dropWhile_ne_append 44 ts rest h
  unfold getline
  simp only [Bool.false_eq_true, if_false, hd, ht]
  cases ts <;> simp

theorem getline_no_delim (ts : CppString) (h : (44 : UInt8) ∉ ts) (hne : ts ≠ []) :
    getline ⟨ts, false⟩ 44 = some (ts, ⟨[], true⟩) := by
  have hd : ts.dropWhile (fun c => c != 44) = [] := by
    induction ts with
    | nil => rfl
    | cons c ts ih =>
      have hc : c ≠ 44 := fun hx => h (hx ▸ List.mem_cons_self _ _)
      simp only [List.dropWhile_cons]
      simp only [bne_iff_ne, ne_eq, hc, not_false_eq_true, if_true]
      cases ts with
      | nil => rfl
      | cons d ts => exact ih (fun hx => h (List.mem_cons_of_mem _ hx)) (List.cons_ne_nil _ _)
  unfold getline
  simp only [Bool.false_eq_true, if_false, hd]
  cases ts with
  | nil => exact absurd rfl hne
  | cons c ts => simp

theorem extract_of_eof (num_get : CppString → Option (Double × CppString))
    (content : CppString) : extract num_get ⟨content, true⟩ = none := rfl

theorem ignore_of_eof (content : CppString) : ignore ⟨content, true⟩ = none := rfl

theorem ignore_cons (c : UInt8) (rest : CppString) :
    ignore ⟨c :: rest, false⟩ = some ⟨rest, false⟩ := rfl

end IStream

theorem extract_readsAs (num_get : CppString → Option (Double × CppString))
    (text : CppString) (x : Double) (h : ReadsAs num_get text x) (rest : CppString)
    (hrest : rest = [] ∨ rest.head? = some 44) :
    IStream.extract num_get ⟨text ++ rest, false⟩ = some (x, ⟨rest, rest.isEmpty⟩) := by
  obtain ⟨⟨c, t, ht, hc⟩, hread⟩ := h
  have hr := hread rest hrest
  subst ht
  unfold IStream.extract
  simp only [Bool.false_eq_true, if_false, List.cons_append, List.dropWhile_cons, hc]
  rw [List.cons_append] at hr
  simp only [hr]

theorem extract_readsAs_comma (num_get : CppString → Option (Double × CppString))
    (text : CppString) (x : Double) (h : ReadsAs num_get text x) (rest : CppString) :
    IStream.extract num_get ⟨text ++ 44 :: rest, false⟩ = some (x, ⟨44 :: rest, false⟩) :=
  extract_readsAs num_get text x h (44 :: rest) (Or.inr rfl)

theorem extract_readsAs_end (num_get : CppString → Option (Double × CppString))
    (text : CppString) (x : Double) (h : ReadsAs num_get text x) :
    IStream.extract num_get ⟨text, false⟩ = some (x, ⟨[], true⟩) := by
  have := extract_readsAs num_get text x h [] (Or.inl rfl)
  simpa using this

theorem extract_notANumber (num_get : CppString → Option (Double × CppString))
    (text : CppString) (h : NotANumber num_get text) (rest : CppString) :
    IStream.extract num_get ⟨text ++ rest, false⟩ = none := by
  obtain ⟨⟨c, t, ht, hc⟩, hread⟩ := h
  have hr := hread rest
  subst ht
  unfold IStream.extract
  simp only [Bool.false_eq_true, if_false, List.cons_append, List.dropWhile_cons, hc]
  rw [List.cons_append] at hr
  simp only [hr]

namespace DataParserCSVAlphaAPI

theorem parseLines_eq (num_get : CppString → Option (Double × CppString))
    (lines : List CppString) : parseLines num_get lines = lines.filterMap (parseLine num_get) := by
  unfold parseLines
  rw [foldl_collect (parseLine num_get) _ (fun m_data line => ?_) lines []]
  · rfl
  · cases parseLine num_get line <;> simp

theorem parseData_line (num_get : CppString → Option (Double × CppString))
    (header body : CppString) (hh : (10 : UInt8) ∉ header) :
    parseData num_get (some (header ++ 10 :: body)) =
      finishParse ((getlines body).filterMap (parseLine num_get)) := by
  unfold parseData
  simp only [getlines_line header body hh, parseLines_eq]

end DataParserCSVAlphaAPI

theorem commaFields_head (texts : List CppString) :
    commaFields texts = [] ∨ (commaFields texts).head? = some 44 := by
  cases texts with
  | nil => exact Or.inl rfl
  | cons t ts => exact Or.inr rfl

namespace DataParserCSVAlphaAPI

/-- A line made of a timestamp and number texts, each after a comma, gives a bar exactly
when there are at least five numbers: the bar of the timestamp and the first five. -/
theorem parseLine_fields (num_get : CppString → Option (Double × CppString))
    (ts : CppString) (hts : (44 : UInt8) ∉ ts) (fields : List (CppString × Double))
    (hf : ∀ f ∈ fields, ReadsAs num_get f.1 f.2) :
    parseLine num_get (ts ++ commaFields (fields.map Prod.fst)) =
      match fields with
      | a :: b :: c :: d :: e :: _ => some ⟨ts, a.2, b.2, c.2, d.2, e.2⟩
      | _ => none := by
  rcases fields with _ | ⟨a, _ | ⟨b, _ | ⟨c, _ | ⟨d, _ | ⟨e, rest⟩⟩⟩⟩⟩
  · simp only [List.map_nil, commaFields, List.append_nil]
    by_cases hne : ts = []
    · subst hne; rfl
    · unfold parseLine
      simp only [IStream.getline_no_delim ts hts hne, Option.bind_eq_bind, Option.some_bind,
        IStream.extract_of_eof, Option.none_bind]
  · have ha := hf a (by simp)
    simp only [List.map_cons, List.map_nil, commaFields, List.append_nil, List.cons_append]
    unfold parseLine
    simp only [IStream.getline_delim _ _ hts, Option.bind_eq_bind, Option.some_bind,
      extract_readsAs_end num_get _ _ ha, IStream.ignore_of_eof, Option.none_bind]
  · have ha := hf a (by simp)
    have hb := hf b (by simp)
    simp only [List.map_cons, List.map_nil, commaFields, List.append_nil, List.cons_append]
    unfold parseLine
    simp only [IStream.getline_delim _ _ hts, Option.bind_eq_bind, Option.some_bind,
      extract_readsAs_comma num_get _ _ ha, IStream.ignore_cons,
      extract_readsAs_end num_get _ _ hb, IStream.ignore_of_eof, Option.none_bind]
  · have ha := hf a (by simp)
    have hb := hf b (by simp)
    have hc := hf c (by simp)
    simp only [List.map_cons, List.map_nil, commaFields, List.append_nil, List.cons_append]
    unfold parseLine
    simp only [IStream.getline_delim _ _ hts, Option.bind_eq_bind, Option.some_bind,
      extract_readsAs_comma num_get _ _ ha, extract_readsAs_comma num_get _ _ hb,
      IStream.ignore_cons, extract_readsAs_end num_get _ _ hc, IStream.ignore_of_eof,
      Option.none_bind]
  · have ha := hf a (by simp)
    have hb := hf b (by simp)
    have hc := hf c (by simp)
    have hd := hf d (by simp)
    simp only [List.map_cons, List.map_nil, commaFields, List.append_nil, List.cons_append]
    unfold parseLine
    simp only [IStream.getline_delim _ _ hts, Option.bind_eq_bind, Option.some_bind,
      extract_readsAs_comma num_get _ _ ha, extract_readsAs_comma num_get _ _ hb,
      extract_readsAs_comma num_get _ _ hc, IStream.ignore_cons,
      extract_readsAs_end num_get _ _ hd, IStream.ignore_of_eof, Option.none_bind]
  · have ha := hf a (by simp)
    have hb := hf b (by simp)
    have hc := hf c (by simp)
    have hd := hf d (by simp)
    have he := hf e (by simp)
    have hlast := extract_readsAs num_get _ _ he _ (commaFields_head (rest.map Prod.fst))
    simp only [List.map_cons, commaFields, List.cons_append]
    unfold parseLine
    simp only [IStream.getline_delim _ _ hts, Option.bind_eq_bind, Option.some_bind,
      extract_readsAs_comma num_get _ _ ha, extract_readsAs_comma num_get _ _ hb,
      extract_readsAs_comma num_get _ _ hc, extract_readsAs_comma num_get _ _ hd,
      IStream.ignore_cons, hlast]

/-- A line in which a text that is not a number stands where one of the five numbers is
expected gives no bar. -/
theorem parseLine_notANumber (num_get : CppString → Option (Double × CppString))
    (ts : CppString) (hts : (44 : UInt8) ∉ ts) (fields : List (CppString × Double))
    (hf : ∀ f ∈ fields, ReadsAs num_get f.1 f.2) (hlen : fields.length < 5)
    (bad : CppString) (hbad : NotANumber num_get bad) (tail : CppString) :
    parseLine num_get (ts ++ (commaFields (fields.map Prod.fst) ++ 44 :: (bad ++ tail))) =
      none := by
  have hx := extract_notANumber num_get bad hbad tail
  rcases fields with _ | ⟨a, _ | ⟨b, _ | ⟨c, _ | ⟨d, _ | ⟨e, rest⟩⟩⟩⟩⟩
  · simp only [List.map_nil, commaFields, List.nil_append]
    unfold parseLine
    simp only [IStream.getline_delim _ _ hts, Option.bind_eq_bind, Option.some_bind, hx,
      Option.none_bind]
  · have ha := hf a (by simp)
    simp only [List.map_cons, List.map_nil, commaFields, List.append_nil, List.cons_append,
      List.append_assoc]
    unfold parseLine
    simp only [IStream.getline_delim _ _ hts, Option.bind_eq_bind, Option.some_bind,
      extract_readsAs_comma num_get _ _ ha, IStream.ignore_cons, hx, Option.none_bind]
  · have ha := hf a (by simp)
    have hb := hf b (by simp)
    simp only [List.map_cons, List.map_nil, commaFields, List.append_nil, List.cons_append,
      List.append_assoc]
    unfold parseLine
    simp only [IStream.getline_delim _ _ hts, Option.bind_eq_bind, Option.some_bind,
      extract_readsAs_comma num_get _ _ ha, extract_readsAs_comma num_get _ _ hb,
      IStream.ignore_cons, hx, Option.none_bind]
  · have ha := hf a (by simp)
    have hb := hf b (by simp)
    have hc := hf c (by simp)
    simp only [List.map_cons, List.map_nil, commaFields, List.append_nil, List.cons_append,
      List.append_assoc]
    unfold parseLine
    simp only [IStream.getline_delim _ _ hts, Option.bind_eq_bind, Option.some_bind,
      extract_readsAs_comma num_get _ _ ha, extract_readsAs_comma num_get _ _ hb,
      extract_readsAs_comma num_get _ _ hc, IStream.ignore_cons, hx, Option.none_bind]
  · have ha := hf a (by simp)
    have hb := hf b (by simp)
    have hc := hf c (by simp)
    have hd := hf d (by simp)
    simp only [List.map_cons, List.map_nil, commaFields, List.append_nil, List.cons_append,
      List.append_assoc]
    unfold parseLine
    simp only [IStream.getline_delim _ _ hts, Option.bind_eq_bind, Option.some_bind,
      extract_readsAs_comma num_get _ _ ha, extract_readsAs_comma num_get _ _ hb,
      extract_readsAs_comma num_get _ _ hc, extract_readsAs_comma num_get _ _ hd,
      IStream.ignore_cons, hx, Option.none_bind]
  · simp only [List.length_cons] at hlen
    omega

end DataParserCSVAlphaAPI

/-- C23: for a CSV file that can be read, with a first line `header` and the text `body`
after it. The bars `getData()` returns are, up to the order the sort puts them in, what
the lines of `body` give, one bar at most per line and none from `header`, whatever
`header` looks like; a file of a first line only gives no bar and `false`. `parseData`
returns `true` exactly when `getData()` is not empty, which is exactly when a line of
`body` gives a bar. A line `timestamp,open,high,low,close,volume` whose five number
texts are read in full gives the bar of that timestamp and those five values. -/
theorem csv_parseData (num_get : CppString → Option (Double × CppString))
    (header body : CppString) (hh : (10 : UInt8) ∉ header) :
    (DataParserCSVAlphaAPI.parseData num_get (some (header ++ 10 :: body))).getData.Perm
        ((getlines body).filterMap (DataParserCSVAlphaAPI.parseLine num_get)) ∧
      ((DataParserCSVAlphaAPI.parseData num_get (some (header ++ 10 :: body))).parseData = true ↔
        (DataParserCSVAlphaAPI.parseData num_get (some (header ++ 10 :: body))).getData ≠ []) ∧
      ((DataParserCSVAlphaAPI.parseData num_get (some (header ++ 10 :: body))).parseData = true ↔
        (getlines body).filterMap (DataParserCSVAlphaAPI.parseLine num_get) ≠ []) ∧
      DataParserCSVAlphaAPI.parseData num_get (some header) = ⟨false, []⟩ ∧
      ∀ (ts o h l c v : CppString) (xo xh xl xc xv : Double), (44 : UInt8) ∉ ts →
        ReadsAs num_get o xo → ReadsAs num_get h xh → ReadsAs num_get l xl →
        ReadsAs num_get c xc → ReadsAs num_get v xv →
        DataParserCSVAlphaAPI.parseLine num_get (ts ++ commaFields [o, h, l, c, v]) =
          some ⟨ts, xo, xh, xl, xc, xv⟩ := by
  rw [DataParserCSVAlphaAPI.parseData_line num_get header body hh]
  refine ⟨finishParse_perm _, finishParse_true_iff_getData _, finishParse_true_iff _, ?_, ?_⟩
  · unfold DataParserCSVAlphaAPI.parseData
    by_cases hne : header = []
    · subst hne; rfl
    · simp only [getlines_single header hh hne]
      rfl
  · intro ts o h l c v xo xh xl xc xv hts ho hh' hl hc hv
    have := DataParserCSVAlphaAPI.parseLine_fields num_get ts hts
      [(o, xo), (h, xh), (l, xl), (c, xc), (v, xv)]
      (by
        intro f hf
        simp only [List.mem_cons, List.mem_singleton, List.not_mem_nil, or_false] at hf
        rcases hf with e | e | e | e | e <;> subst e <;> assumption)
    exact this

/-- An instance of `ReadsAs`: a `num_get` that reads the digit `1` as the `double` 1.0
(bit pattern `0x3FF0000000000000`) and leaves what follows it. -/
theorem readsAs_example :
    ReadsAs (fun s => if s.head? = some 49 then some (0x3FF0000000000000, s.drop 1) else none)
      (lit "1") 0x3FF0000000000000 :=
  ⟨⟨49, [], rfl, by decide⟩, fun _ _ => rfl⟩

theorem csv_parseData_witness :
    (10 : UInt8) ∉ lit "timestamp,open,high,low,close,volume" ∧
      (DataParserCSVAlphaAPI.parseData
          (fun s => if s.head? = some 49 then some (0x3FF0000000000000, s.drop 1) else none)
          (some (lit "timestamp,open,high,low,close,volume" ++
            10 :: lit "2024-01-02,1,1,1,1,1\nnot a bar\n"))).getData.Perm
        [⟨lit "2024-01-02", 0x3FF0000000000000, 0x3FF0000000000000, 0x3FF0000000000000,
          0x3FF0000000000000, 0x3FF0000000000000⟩] ∧
      DataParserCSVAlphaAPI.parseLine
          (fun s => if s.head? = some 49 then some (0x3FF0000000000000, s.drop 1) else none)
          (lit "2024-01-02" ++ commaFields [lit "1", lit "1", lit "1", lit "1", lit "1"]) =
        some ⟨lit "2024-01-02", 0x3FF0000000000000, 0x3FF0000000000000, 0x3FF0000000000000,
          0x3FF0000000000000, 0x3FF0000000000000⟩ :=
  ⟨by decide,
    (csv_parseData
      (fun s => if s.head? = some 49 then some (0x3FF0000000000000, s.drop 1) else none)
      (lit "timestamp,open,high,low,close,volume") (lit "2024-01-02,1,1,1,1,1\nnot a bar\n")
      (by decide)).1.trans (List.Perm.of_eq (by decide)),
    (csv_parseData
      (fun s => if s.head? = some 49 then some (0x3FF0000000000000, s.drop 1) else none)
      (lit "timestamp,open,high,low,close,volume") (lit "2024-01-02,1,1,1,1,1\nnot a bar\n")
      (by decide)).2.2.2.2 _ _ _ _ _ _ _ _ _ _ _ (by decide) readsAs_example readsAs_example
      readsAs_example readsAs_example readsAs_example⟩

theorem dropWhile_ne_eq_cons (delim : UInt8) (line : CppString) (c : UInt8) (rest : CppString)
    (h : line.dropWhile (fun c => c != delim) = c :: rest) :
    line = line.takeWhile (fun c => c != delim) ++ delim :: rest ∧
      delim ∉ line.takeWhile (fun c => c != delim) := by
  induction line with
  | nil => simp at h
  | cons d line ih =>
    by_cases hd : d = delim
    · subst hd
      simp only [List.dropWhile_cons, bne_self_eq_false, Bool.false_eq_true, if_false,
        List.cons.injEq] at h
      simp only [List.takeWhile_cons, bne_self_eq_false, Bool.false_eq_true, if_false,
        List.nil_append, List.not_mem_nil, not_false_eq_true, and_true, h.2]
    · have hb : (d != delim) = true := by simpa using hd
      simp only [List.dropWhile_cons, hb, if_true] at h
      obtain ⟨h1, h2⟩ := ih h
      simp only [List.takeWhile_cons, hb, if_true, List.cons_append, List.mem_cons, not_or]
      exact ⟨by rw [← h1], fun e => hd e.symm, h2⟩

namespace IStream

/-- What `std::getline(ss, timestamp, ',')` leaves when it succeeds on a fresh stream:
either it met a comma, which it dropped, or it read to the end and set `eofbit`. -/
theorem getline_eq_some (line ts : CppString) (ss : IStream)
    (h : getline ⟨line, false⟩ 44 = some (ts, ss)) :
    ss.eofbit = true ∨
      ∃ rest, line = ts ++ 44 :: rest ∧ (44 : UInt8) ∉ ts ∧ ss = ⟨rest, false⟩ := by
  unfold getline at h
  simp only [Bool.false_eq_true, if_false] at h
  split at h
  · simp at h
  · split at h
    · simp only [Option.some.injEq, Prod.mk.injEq] at h
      exact Or.inl (by rw [← h.2])
    · rename_i c rest hd
      simp only [Option.some.injEq, Prod.mk.injEq] at h
      obtain ⟨h1, h2⟩ := dropWhile_ne_eq_cons 44 line c rest hd
      rw [h.1] at h1 h2
      exact Or.inr ⟨rest, h1, h2, h.2.symm⟩

/-- What `ss >> x` followed by `ss.ignore(1)` leaves when both succeed: the extraction ran
on a stream without `eofbit` and stopped before a character, which `ignore` dropped. -/
theorem extract_ignore_eq_some (num_get : CppString → Option (Double × CppString))
    (ss ss1 ss2 : IStream) (x : Double) (h1 : extract num_get ss = some (x, ss1))
    (h2 : ignore ss1 = some ss2) :
    ∃ c rest, extract num_get ⟨ss.content, false⟩ = some (x, ⟨c :: rest, false⟩) ∧
      ss.eofbit = false ∧ ss2 = ⟨rest, false⟩ := by
  obtain ⟨content, eofbit⟩ := ss
  cases eofbit with
  | true => simp [extract] at h1
  | false =>
    have h1c := h1
    unfold extract at h1
    simp only [Bool.false_eq_true, if_false] at h1
    split at h1
    · simp at h1
    · split at h1
      · simp at h1
      · rename_i x1 left hn
        simp only [Option.some.injEq, Prod.mk.injEq] at h1
        obtain ⟨hx, hs⟩ := h1
        subst hs
        cases left with
        | nil => simp [ignore] at h2
        | cons c rest =>
          simp only [ignore, List.isEmpty_cons, Bool.false_eq_true, if_false,
            Option.some.injEq] at h2
          exact ⟨c, rest, h1c, rfl, h2.symm⟩

end IStream

namespace DataParserCSVAlphaAPI

/-- A line gives a bar exactly when a comma ends its timestamp and five numbers can be
read after it one by one, a character standing after each of the first four, which is
skipped whatever it is; what the fifth extraction leaves is not looked at. -/
theorem parseLine_eq_some_iff (num_get : CppString → Option (Double × CppString))
    (line : CppString) (bar : MarketDataEntry) :
    parseLine num_get line = some bar ↔
      ∃ (ts s0 s1 s2 s3 s4 : CppString) (c1 c2 c3 c4 : UInt8) (o h l c v : Double)
          (last : IStream),
        line = ts ++ 44 :: s0 ∧ (44 : UInt8) ∉ ts ∧
          IStream.extract num_get ⟨s0, false⟩ = some (o, ⟨c1 :: s1, false⟩) ∧
          IStream.extract num_get ⟨s1, false⟩ = some (h, ⟨c2 :: s2, false⟩) ∧
          IStream.extract num_get ⟨s2, false⟩ = some (l, ⟨c3 :: s3, false⟩) ∧
          IStream.extract num_get ⟨s3, false⟩ = some (c, ⟨c4 :: s4, false⟩) ∧
          IStream.extract num_get ⟨s4, false⟩ = some (v, last) ∧
          bar = ⟨ts, o, h, l, c, v⟩ := by
  constructor
  · intro hbar
    unfold parseLine at hbar
    simp only [Option.bind_eq_bind, Option.bind_eq_some, Prod.exists] at hbar
    obtain ⟨ts, ss1, hg, o, ss2, ho, ss3, hi1, h, ss4, hh, ss5, hi2, l, ss6, hl, ss7, hi3,
      c, ss8, hc, ss9, hi4, v, last, hv, hb⟩ := hbar
    obtain ⟨c1, s1, ho', e1, rfl⟩ := IStream.extract_ignore_eq_some num_get _ _ _ _ ho hi1
    obtain ⟨c2, s2, hh', -, rfl⟩ := IStream.extract_ignore_eq_some num_get _ _ _ _ hh hi2
    obtain ⟨c3, s3, hl', -, rfl⟩ := IStream.extract_ignore_eq_some num_get _ _ _ _ hl hi3
    obtain ⟨c4, s4, hc', -, rfl⟩ := IStream.extract_ignore_eq_some num_get _ _ _ _ hc hi4
    rcases IStream.getline_eq_some line ts ss1 hg with he | ⟨s0, hline, hts, rfl⟩
    · rw [e1] at he
      exact absurd he (by decide)
    · exact ⟨ts, s0, s1, s2, s3, s4, c1, c2, c3, c4, o, h, l, c, v, last, hline, hts, ho',
        hh', hl', hc', hv, (Option.some.inj hb).symm⟩
  · rintro ⟨ts, s0, s1, s2, s3, s4, c1, c2, c3, c4, o, h, l, c, v, last, rfl, hts, ho, hh,
      hl, hc, hv, rfl⟩
    unfold parseLine
    simp only [IStream.getline_delim _ _ hts, Option.bind_eq_bind, Option.some_bind, ho, hh,
      hl, hc, hv, IStream.ignore_cons]

end DataParserCSVAlphaAPI

/-- C24, as stated, fails: lines that are not of the form
`timestamp,open,high,low,close,volume` give a bar. In the first the numbers are separated
by semicolons: `ss.ignore(1)` skips the character after each of the first four numbers
without looking at it. In the second the value `1x1` stands for the opening price:
`ss >> open` reads its leading `1`, the `x` is skipped as if it were the comma, and every
later value moves up by one place. In the third `1abc` stands for the volume:
`ss >> volume` reads its leading `1` and nothing looks at what follows. The file made of
a header and these three lines gives three bars. The `num_get` here reads the digit `1`
as the `double` 1.0 and stops after it. -/
theorem csv_unchecked_lines_give_a_bar :
    DataParserCSVAlphaAPI.parseLine
          (fun s => if s.head? = some 49 then some (0x3FF0000000000000, s.drop 1) else none)
          (lit "2024-01-02,1;1;1;1;1") =
        some ⟨lit "2024-01-02", 0x3FF0000000000000, 0x3FF0000000000000, 0x3FF0000000000000,
          0x3FF0000000000000, 0x3FF0000000000000⟩ ∧
      DataParserCSVAlphaAPI.parseLine
          (fun s => if s.head? = some 49 then some (0x3FF0000000000000, s.drop 1) else none)
          (lit "2024-01-03,1x1,1,1,1,1") =
        some ⟨lit "2024-01-03", 0x3FF0000000000000, 0x3FF0000000000000, 0x3FF0000000000000,
          0x3FF0000000000000, 0x3FF0000000000000⟩ ∧
      DataParserCSVAlphaAPI.parseLine
          (fun s => if s.head? = some 49 then some (0x3FF0000000000000, s.drop 1) else none)
          (lit "2024-01-04,1,1,1,1,1abc") =
        some ⟨lit "2024-01-04", 0x3FF0000000000000, 0x3FF0000000000000, 0x3FF0000000000000,
          0x3FF0000000000000, 0x3FF0000000000000⟩ ∧
      DataParserCSVAlphaAPI.parseData
          (fun s => if s.head? = some 49 then some (0x3FF0000000000000, s.drop 1) else none)
          (some (lit ("timestamp,open,high,low,close,volume\n2024-01-02,1;1;1;1;1\n" ++
            "2024-01-03,1x1,1,1,1,1\n2024-01-04,1,1,1,1,1abc\n"))) =
        ⟨true, [⟨lit "2024-01-02", 0x3FF0000000000000, 0x3FF0000000000000,
            0x3FF0000000000000, 0x3FF0000000000000, 0x3FF0000000000000⟩,
          ⟨lit "2024-01-03", 0x3FF0000000000000, 0x3FF0000000000000,
            0x3FF0000000000000, 0x3FF0000000000000, 0x3FF0000000000000⟩,
          ⟨lit "2024-01-04", 0x3FF0000000000000, 0x3FF0000000000000,
            0x3FF0000000000000, 0x3FF0000000000000, 0x3FF0000000000000⟩]⟩ := by
  refine ⟨by decide, by decide, by decide, by decide⟩

/-- C24 (as amended): malformed lines are skipped one by one, a line being well-formed for
the parser exactly when it can read from it a timestamp ended by a comma and then five
numbers, one character being skipped after each of the first four, whatever it is, and
nothing being read after the fifth. First part: a line gives a bar exactly in that case,
and the bar is made of that timestamp and those five numbers; every other line gives
none. Second part: a timestamp followed by fewer than five comma-separated numbers, each
read in full, gives no bar (an empty line and a line without a comma among them). Third
part: a line in which, where one of the five numbers is expected, a text stands that
begins with a character other than white space and from which no number is read,
whatever follows it, gives no bar. Fourth part: a line that gives no bar changes nothing
for the lines before and after it: the bars of the file are those of the other lines. -/
theorem csv_bad_lines_skipped (num_get : CppString → Option (Double × CppString)) :
    (∀ (line : CppString) (bar : MarketDataEntry),
      DataParserCSVAlphaAPI.parseLine num_get line = some bar ↔
        ∃ (ts s0 s1 s2 s3 s4 : CppString) (c1 c2 c3 c4 : UInt8) (o h l c v : Double)
            (last : IStream),
          line = ts ++ 44 :: s0 ∧ (44 : UInt8) ∉ ts ∧
            IStream.extract num_get ⟨s0, false⟩ = some (o, ⟨c1 :: s1, false⟩) ∧
            IStream.extract num_get ⟨s1, false⟩ = some (h, ⟨c2 :: s2, false⟩) ∧
            IStream.extract num_get ⟨s2, false⟩ = some (l, ⟨c3 :: s3, false⟩) ∧
            IStream.extract num_get ⟨s3, false⟩ = some (c, ⟨c4 :: s4, false⟩) ∧
            IStream.extract num_get ⟨s4, false⟩ = some (v, last) ∧
            bar = ⟨ts, o, h, l, c, v⟩) ∧
    (∀ (ts : CppString) (fields : List (CppString × Double)), (44 : UInt8) ∉ ts →
      (∀ f ∈ fields, ReadsAs num_get f.1 f.2) → fields.length < 5 →
      DataParserCSVAlphaAPI.parseLine num_get (ts ++ commaFields (fields.map Prod.fst)) =
        none) ∧
    (∀ (ts : CppString) (fields : List (CppString × Double)) (bad tail : CppString),
      (44 : UInt8) ∉ ts → (∀ f ∈ fields, ReadsAs num_get f.1 f.2) → fields.length < 5 →
      NotANumber num_get bad →
      DataParserCSVAlphaAPI.parseLine num_get
          (ts ++ (commaFields (fields.map Prod.fst) ++ 44 :: (bad ++ tail))) = none) ∧
    (∀ (header : CppString) (before : List CppString) (bad rest : CppString),
      (10 : UInt8) ∉ header → (∀ l ∈ before, (10 : UInt8) ∉ l) → (10 : UInt8) ∉ bad →
      DataParserCSVAlphaAPI.parseLine num_get bad = none →
      (DataParserCSVAlphaAPI.parseData num_get
          (some (header ++ 10 :: (unlines before ++ (bad ++ 10 :: rest))))).getData.Perm
        (before.filterMap (DataParserCSVAlphaAPI.parseLine num_get) ++
          (getlines rest).filterMap (DataParserCSVAlphaAPI.parseLine num_get))) := by
  refine ⟨DataParserCSVAlphaAPI.parseLine_eq_some_iff num_get,
    fun ts fields hts hf hlen => ?_, fun ts fields bad tail hts hf hlen hbad =>
    DataParserCSVAlphaAPI.parseLine_notANumber num_get ts hts fields hf hlen bad hbad tail,
    fun header before bad rest hh hb hbad hnone => ?_⟩
  · rw [DataParserCSVAlphaAPI.parseLine_fields num_get ts hts fields hf]
    rcases fields with _ | ⟨a, _ | ⟨b, _ | ⟨c, _ | ⟨d, _ | ⟨e, r⟩⟩⟩⟩⟩ <;> first | rfl | skip
    simp only [List.length_cons] at hlen
    omega
  · rw [DataParserCSVAlphaAPI.parseData_line num_get header _ hh,
      getlines_unlines before hb, getlines_line bad rest hbad, List.filterMap_append,
      List.filterMap_cons, hnone]
    exact finishParse_perm _

theorem csv_bad_lines_skipped_witness :
    (DataParserCSVAlphaAPI.parseData
        (fun s => if s.head? = some 49 then some (0x3FF0000000000000, s.drop 1) else none)
        (some (lit "timestamp,open,high,low,close,volume" ++
          10 :: (unlines [lit "2024-01-02,1,1,1,1,1"] ++
            (lit "2024-01-03,1,1,x,1,1" ++ 10 :: lit "2024-01-04,1,1,1,1,1\n"))))).getData.Perm
      [⟨lit "2024-01-02", 0x3FF0000000000000, 0x3FF0000000000000, 0x3FF0000000000000,
          0x3FF0000000000000, 0x3FF0000000000000⟩,
        ⟨lit "2024-01-04", 0x3FF0000000000000, 0x3FF0000000000000, 0x3FF0000000000000,
          0x3FF0000000000000, 0x3FF0000000000000⟩] :=
  ((csv_bad_lines_skipped
      (fun s => if s.head? = some 49 then some (0x3FF0000000000000, s.drop 1) else none)).2.2.2
    (lit "timestamp,open,high,low,close,volume") [lit "2024-01-02,1,1,1,1,1"]
    (lit "2024-01-03,1,1,x,1,1") (lit "2024-01-04,1,1,1,1,1\n") (by decide) (by decide)
    (by decide) (by decide)).trans (List.Perm.of_eq (by decide))

/-! ## Theorems: the JSON parser of remote responses -/

namespace DataParserJsonAlphaAPI

theorem timeSeriesLoop_eq (stod : CppString → Option Double)
    (members : List (CppString × nlohmann.Json)) :
    timeSeriesLoop stod members =
      members.filterMap (fun member => timeSeriesPoint stod member.1 member.2) := by
  unfold timeSeriesLoop
  rw [foldl_collect (fun member => timeSeriesPoint stod member.1 member.2) _
    (fun m_data member => ?_) members []]
  · rfl
  · show (match timeSeriesPoint stod member.1 member.2 with
      | some entry => m_data ++ [entry]
      | none => m_data) = m_data ++ (timeSeriesPoint stod member.1 member.2).toList
    cases h : timeSeriesPoint stod member.1 member.2 <;> simp

theorem arrayLoop_eq (ofInt : Int → Double) (elems : List nlohmann.Json) :
    arrayLoop ofInt elems = elems.filterMap (arrayPoint ofInt) := by
  unfold arrayLoop
  rw [foldl_collect (arrayPoint ofInt) _ (fun m_data entry => ?_) elems []]
  · rfl
  · cases arrayPoint ofInt entry <;> simp

/-- Whatever the response, `parseData` returns `true` exactly when it leaves bars. -/
theorem parseData_eq_not_isEmpty (strtod : CppString → Double)
    (stod : CppString → Option Double) (ofInt : Int → Double) (body : CppString) :
    (parseData strtod stod ofInt body).parseData =
      !(parseData strtod stod ofInt body).getData.isEmpty := by
  unfold parseData
  split
  · rfl
  · split
    · rfl
    · split
      · split
        · exact finishParse_parseData _
        · rfl
      · split
        · exact finishParse_parseData _
        · rfl

theorem parseData_of_message (strtod : CppString → Double)
    (stod : CppString → Option Double) (ofInt : Int → Double) (body : CppString)
    (j : nlohmann.Json) (hparse : nlohmann.parse strtod body = some j)
    (hmsg : j.contains (lit "Information") = true ∨ j.contains (lit "Error") = true ∨
      j.contains (lit "Note") = true) :
    parseData strtod stod ofInt body = ⟨false, []⟩ := by
  unfold parseData
  simp only [hparse]
  have : (j.contains (lit "Information") || j.contains (lit "Error") ||
      j.contains (lit "Note")) = true := by
    rcases hmsg with h | h | h <;> simp [h]
  rw [if_pos this]

theorem parseData_timeSeries (strtod : CppString → Double)
    (stod : CppString → Option Double) (ofInt : Int → Double) (body : CppString)
    (j : nlohmann.Json) (hparse : nlohmann.parse strtod body = some j)
    (hinfo : j.contains (lit "Information") = false) (herr : j.contains (lit "Error") = false)
    (hnote : j.contains (lit "Note") = false) (key : CppString)
    (hkey : possibleKeys.find? (fun k => j.contains k) = some key)
    (members : List (CppString × nlohmann.Json))
    (hts : j.atKey key = some (.object members)) :
    parseData strtod stod ofInt body =
      finishParse (members.filterMap (fun member => timeSeriesPoint stod member.1 member.2)) := by
  unfold parseData
  simp only [hparse, hinfo, herr, hnote, Bool.or_self, Bool.false_eq_true, if_false, hkey, hts,
    timeSeriesLoop_eq]

theorem contains_array (elems : List nlohmann.Json) (key : CppString) :
    (nlohmann.Json.array elems).contains key = false := rfl

theorem parseData_array (strtod : CppString → Double)
    (stod : CppString → Option Double) (ofInt : Int → Double) (body : CppString)
    (elems : List nlohmann.Json) (hparse : nlohmann.parse strtod body = some (.array elems)) :
    parseData strtod stod ofInt body = finishParse (elems.filterMap (arrayPoint ofInt)) := by
  have hfind : possibleKeys.find? (fun _ => false) = none := rfl
  unfold parseData
  simp only [hparse, contains_array, Bool.or_self, Bool.false_eq_true, if_false, hfind,
    arrayLoop_eq]

end DataParserJsonAlphaAPI

/-- C25: `parseData` returns `true` exactly when the response is well-formed JSON
without a top-level `Information`, `Error` or `Note` member that has one of the six
time-series keys or is an array, and at least one bar results. Whenever it returns
`false` it leaves no bars; it returns `false` for text that is not JSON, for JSON with
one of the three message members (whatever else it holds), for an object without a
time-series key, and for a value that is neither an object nor an array. -/
theorem json_parseData_classifies (strtod : CppString → Double)
    (stod : CppString → Option Double) (ofInt : Int → Double) (body : CppString) :
    ((DataParserJsonAlphaAPI.parseData strtod stod ofInt body).parseData = true ↔
      ∃ j, nlohmann.parse strtod body = some j ∧
        j.contains (lit "Information") = false ∧ j.contains (lit "Error") = false ∧
        j.contains (lit "Note") = false ∧
        ((∃ key ∈ DataParserJsonAlphaAPI.possibleKeys, j.contains key = true) ∨
          ∃ elems, j = .array elems) ∧
        (DataParserJsonAlphaAPI.parseData strtod stod ofInt body).getData ≠ []) ∧
    ((DataParserJsonAlphaAPI.parseData strtod stod ofInt body).parseData = false →
      (DataParserJsonAlphaAPI.parseData strtod stod ofInt body).getData = []) ∧
    (nlohmann.parse strtod body = none →
      (DataParserJsonAlphaAPI.parseData strtod stod ofInt body).parseData = false) ∧
    (∀ j, nlohmann.parse strtod body = some j →
      (j.contains (lit "Information") = true ∨ j.contains (lit "Error") = true ∨
        j.contains (lit "Note") = true) →
      (DataParserJsonAlphaAPI.parseData strtod stod ofInt body).parseData = false) ∧
    (∀ members, nlohmann.parse strtod body = some (.object members) →
      (∀ key ∈ DataParserJsonAlphaAPI.possibleKeys,
        (nlohmann.Json.object members).contains key = false) →
      (DataParserJsonAlphaAPI.parseData strtod stod ofInt body).parseData = false) ∧
    (∀ j, nlohmann.parse strtod body = some j → (∀ members, j ≠ .object members) →
      (∀ elems, j ≠ .array elems) →
      (DataParserJsonAlphaAPI.parseData strtod stod ofInt body).parseData = false) := by
  have hne := DataParserJsonAlphaAPI.parseData_eq_not_isEmpty strtod stod ofInt body
  refine ⟨⟨fun htrue => ?_, fun ⟨j, _, _, _, _, _, hdata⟩ => ?_⟩, fun hfalse => ?_,
    fun hnone => ?_, fun j hparse hmsg => ?_, fun members hparse hkeys => ?_,
    fun j hparse hobj harr => ?_⟩
  · cases hparse : nlohmann.parse strtod body with
    | none =>
      unfold DataParserJsonAlphaAPI.parseData at htrue
      simp [hparse] at htrue
    | some j =>
      have hdata : (DataParserJsonAlphaAPI.parseData strtod stod ofInt body).getData ≠ [] := by
        intro h
        rw [hne, h] at htrue
        simp at htrue
      by_cases hmsg : j.contains (lit "Information") = true ∨ j.contains (lit "Error") = true ∨
          j.contains (lit "Note") = true
      · rw [DataParserJsonAlphaAPI.parseData_of_message strtod stod ofInt body j hparse hmsg]
          at htrue
        exact absurd htrue (by decide)
      · have h1 : j.contains (lit "Information") = false := by
          cases h : j.contains (lit "Information")
          · rfl
          · exact absurd (Or.inl h) hmsg
        have h2 : j.contains (lit "Error") = false := by
          cases h : j.contains (lit "Error")
          · rfl
          · exact absurd (Or.inr (Or.inl h)) hmsg
        have h3 : j.contains (lit "Note") = false := by
          cases h : j.contains (lit "Note")
          · rfl
          · exact absurd (Or.inr (Or.inr h)) hmsg
        refine ⟨j, rfl, h1, h2, h3, ?_, hdata⟩
        cases hfind : DataParserJsonAlphaAPI.possibleKeys.find? (fun k => j.contains k) with
        | some key =>
          exact Or.inl ⟨key, List.mem_of_find?_eq_some hfind, List.find?_some hfind⟩
        | none =>
          right
          unfold DataParserJsonAlphaAPI.parseData at htrue
          simp only [hparse, h1, h2, h3, Bool.or_self, Bool.false_eq_true, if_false, hfind]
            at htrue
          cases j with
          | array elems => exact ⟨elems, rfl⟩
          | _ => simp at htrue
  · rw [hne]
    cases hg : (DataParserJsonAlphaAPI.parseData strtod stod ofInt body).getData with
    | nil => exact absurd hg hdata
    | cons a l => rfl
  · rw [hne] at hfalse
    cases hg : (DataParserJsonAlphaAPI.parseData strtod stod ofInt body).getData with
    | nil => rfl
    | cons a l => rw [hg] at hfalse; simp at hfalse
  · unfold DataParserJsonAlphaAPI.parseData
    simp only [hnone]
  · rw [DataParserJsonAlphaAPI.parseData_of_message strtod stod ofInt body j hparse hmsg]
  · have hfind : DataParserJsonAlphaAPI.possibleKeys.find?
        (fun k => (nlohmann.Json.object members).contains k) = none := by
      rw [List.find?_eq_none]
      intro key hk
      simp [hkeys key hk]
    unfold DataParserJsonAlphaAPI.parseData
    simp only [hparse, hfind]
    split <;> rfl
  · have hc : ∀ key, j.contains key = false := by
      intro key
      cases j with
      | object members => exact absurd rfl (hobj members)
      | _ => rfl
    have hfind : DataParserJsonAlphaAPI.possibleKeys.find? (fun k => j.contains k) = none := by
      rw [List.find?_eq_none]
      intro key _
      simp [hc key]
    unfold DataParserJsonAlphaAPI.parseData
    simp only [hparse, hc, Bool.or_self, Bool.false_eq_true, if_false, hfind]
    cases j with
    | array elems => exact absurd rfl (harr elems)
    | _ => rfl

set_option maxRecDepth 4000 in
theorem json_parseData_classifies_witness :
    ∃ j, nlohmann.parse (fun _ => 0)
          (lit ("\x7b\"Time Series (5min)\": \x7b\"2024-01-02\": " ++
            "\x7b\"1. open\": \"1.5\", \"2. high\": \"1.5\", \"3. low\": \"1.5\", " ++
            "\"4. close\": \"1.5\", \"5. volume\": \"1.5\"\x7d\x7d\x7d")) = some j ∧
      j.contains (lit "Information") = false ∧ j.contains (lit "Error") = false ∧
      j.contains (lit "Note") = false ∧
      ((∃ key ∈ DataParserJsonAlphaAPI.possibleKeys, j.contains key = true) ∨
        ∃ elems, j = .array elems) ∧
      (DataParserJsonAlphaAPI.parseData (fun _ => 0)
        (fun s => if s = lit "1.5" then some 0x3FF8000000000000 else none) (fun _ => 0)
        (lit ("\x7b\"Time Series (5min)\": \x7b\"2024-01-02\": " ++
          "\x7b\"1. open\": \"1.5\", \"2. high\": \"1.5\", \"3. low\": \"1.5\", " ++
          "\"4. close\": \"1.5\", \"5. volume\": \"1.5\"\x7d\x7d\x7d"))).getData ≠ [] :=
  (json_parseData_classifies (fun _ => 0)
    (fun s => if s = lit "1.5" then some 0x3FF8000000000000 else none) (fun _ => 0)
    (lit ("\x7b\"Time Series (5min)\": \x7b\"2024-01-02\": " ++
      "\x7b\"1. open\": \"1.5\", \"2. high\": \"1.5\", \"3. low\": \"1.5\", " ++
      "\"4. close\": \"1.5\", \"5. volume\": \"1.5\"\x7d\x7d\x7d"))).1.1 rfl

/-- C27, as stated, fails: a bare array whose one element has the five price and volume
members, each a number, and no `timestamp`. The element neither lacks one of the five
nor holds a value that cannot be read, yet the test `entry.contains("timestamp")` passes
over it: no bar results and `parseData` returns `false`. -/
theorem array_entry_without_timestamp_gives_no_bar :
    (∀ strtod : CppString → Double,
      nlohmann.parse strtod
          (lit "[\x7b\"open\":1,\"high\":2,\"low\":3,\"close\":4,\"volume\":5\x7d]") =
        some (.array [.object [(lit "close", .number_unsigned 4), (lit "high", .number_unsigned 2),
          (lit "low", .number_unsigned 3), (lit "open", .number_unsigned 1),
          (lit "volume", .number_unsigned 5)]])) ∧
    (∀ (strtod : CppString → Double) (stod : CppString → Option Double) (ofInt : Int → Double),
      DataParserJsonAlphaAPI.parseData strtod stod ofInt
          (lit "[\x7b\"open\":1,\"high\":2,\"low\":3,\"close\":4,\"volume\":5\x7d]") =
        ⟨false, []⟩) :=
  ⟨fun _ => rfl, fun _ _ _ => rfl⟩

namespace DataParserJsonAlphaAPI

theorem stodAt_eq_some (stod : CppString → Option Double) (dataPoint : nlohmann.Json)
    (key : CppString) (x : Double) :
    stodAt stod dataPoint key = some x ↔
      ∃ text, dataPoint.atKey key = some (.string text) ∧ stod text = some x := by
  unfold stodAt
  cases hk : dataPoint.atKey key with
  | none => simp
  | some v =>
    cases v <;> simp [nlohmann.Json.get_string]

theorem timeSeriesPoint_eq_some (stod : CppString → Option Double) (timestamp : CppString)
    (dataPoint : nlohmann.Json) (bar : MarketDataEntry) :
    timeSeriesPoint stod timestamp dataPoint = some bar ↔
      ∃ o h l c v, stodAt stod dataPoint (lit "1. open") = some o ∧
        stodAt stod dataPoint (lit "2. high") = some h ∧
        stodAt stod dataPoint (lit "3. low") = some l ∧
        stodAt stod dataPoint (lit "4. close") = some c ∧
        stodAt stod dataPoint (lit "5. volume") = some v ∧
        bar = ⟨timestamp, o, h, l, c, v⟩ := by
  unfold timeSeriesPoint
  cases h1 : stodAt stod dataPoint (lit "1. open") <;>
  cases h2 : stodAt stod dataPoint (lit "2. high") <;>
  cases h3 : stodAt stod dataPoint (lit "3. low") <;>
  cases h4 : stodAt stod dataPoint (lit "4. close") <;>
  cases h5 : stodAt stod dataPoint (lit "5. volume") <;>
  simp only [Option.bind_eq_bind, Option.some_bind, Option.none_bind, false_and, and_false,
    exists_false, exists_const, reduceCtorEq]
  constructor
  · intro h
    exact ⟨_, _, _, _, _, rfl, rfl, rfl, rfl, rfl, (Option.some.inj h).symm⟩
  · rintro ⟨o, h, l, c, v, ho, hh, hl, hc, hv, hb⟩
    rw [hb, Option.some.inj ho, Option.some.inj hh, Option.some.inj hl, Option.some.inj hc,
      Option.some.inj hv]

theorem contains_of_atKey (entry : nlohmann.Json) (key : CppString) (v : nlohmann.Json)
    (h : entry.atKey key = some v) : entry.contains key = true := by
  cases entry with
  | object members =>
    simp only [nlohmann.Json.atKey] at h
    simp [nlohmann.Json.contains, h]
  | _ => simp [nlohmann.Json.atKey] at h

theorem arrayPoint_eq_some (ofInt : Int → Double) (entry : nlohmann.Json)
    (bar : MarketDataEntry) :
    arrayPoint ofInt entry = some bar ↔
      ∃ ts o h l c v, entry.atKey (lit "timestamp") = some (.string ts) ∧
        (entry.atKey (lit "open")).bind (nlohmann.Json.get_double ofInt) = some o ∧
        (entry.atKey (lit "high")).bind (nlohmann.Json.get_double ofInt) = some h ∧
        (entry.atKey (lit "low")).bind (nlohmann.Json.get_double ofInt) = some l ∧
        (entry.atKey (lit "close")).bind (nlohmann.Json.get_double ofInt) = some c ∧
        (entry.atKey (lit "volume")).bind (nlohmann.Json.get_double ofInt) = some v ∧
        bar = ⟨ts, o, h, l, c, v⟩ := by
  constructor
  · intro hsome
    unfold arrayPoint at hsome
    split at hsome
    · cases h0 : entry.atKey (lit "timestamp") with
      | none => simp [h0] at hsome
      | some tsv =>
        cases tsv with
        | string ts =>
          cases h1 : (entry.atKey (lit "open")).bind (nlohmann.Json.get_double ofInt) <;>
          cases h2 : (entry.atKey (lit "high")).bind (nlohmann.Json.get_double ofInt) <;>
          cases h3 : (entry.atKey (lit "low")).bind (nlohmann.Json.get_double ofInt) <;>
          cases h4 : (entry.atKey (lit "close")).bind (nlohmann.Json.get_double ofInt) <;>
          cases h5 : (entry.atKey (lit "volume")).bind (nlohmann.Json.get_double ofInt) <;>
          simp only [h0, h1, h2, h3, h4, h5, nlohmann.Json.get_string, Option.bind_eq_bind,
            Option.some_bind, Option.none_bind, Option.some.injEq, reduceCtorEq] at hsome
          exact ⟨ts, _, _, _, _, _, rfl, rfl, rfl, rfl, rfl, rfl, hsome.symm⟩
        | _ => simp [h0, nlohmann.Json.get_string] at hsome
    · exact absurd hsome (by simp)
  · rintro ⟨ts, o, h, l, c, v, h0, h1, h2, h3, h4, h5, hbar⟩
    have hc1 := contains_of_atKey entry _ _ h0
    have hc2 : entry.contains (lit "volume") = true := by
      cases hv : entry.atKey (lit "volume") with
      | none => simp [hv] at h5
      | some x => exact contains_of_atKey entry _ _ hv
    unfold arrayPoint
    simp only [hc1, hc2, Bool.and_self, if_true, h0, h1, h2, h3, h4, h5,
      nlohmann.Json.get_string, Option.bind_eq_bind, Option.some_bind, hbar]

end DataParserJsonAlphaAPI

/-- C27 (as amended): for a response that is JSON without a message member. When it has
a time-series key whose value is an object (the first of the six keys it has is the one
used), the bars of `getData()` are, up to the order the sort puts them in, what the
members of that object give, one bar at most per member; when it is an array, what its
elements give, one bar at most per element; and `parseData` returns `true` exactly when
at least one of them gives a bar. A member of the time series gives a bar exactly when
each of `1. open`, `2. high`, `3. low`, `4. close`, `5. volume` is there as a string
`std::stod` converts: the bar of the member's key and the five values. An element of an
array gives a bar exactly when it has `timestamp` as a string and `open`, `high`, `low`,
`close`, `volume` as numbers: the bar of these six. -/
theorem json_data_points (strtod : CppString → Double) (stod : CppString → Option Double)
    (ofInt : Int → Double) (body : CppString) (j : nlohmann.Json)
    (hparse : nlohmann.parse strtod body = some j)
    (hinfo : j.contains (lit "Information") = false) (herr : j.contains (lit "Error") = false)
    (hnote : j.contains (lit "Note") = false) :
    (∀ key members,
      DataParserJsonAlphaAPI.possibleKeys.find? (fun k => j.contains k) = some key →
      j.atKey key = some (.object members) →
      (DataParserJsonAlphaAPI.parseData strtod stod ofInt body).getData.Perm
          (members.filterMap
            (fun member => DataParserJsonAlphaAPI.timeSeriesPoint stod member.1 member.2)) ∧
        ((DataParserJsonAlphaAPI.parseData strtod stod ofInt body).parseData = true ↔
          members.filterMap
            (fun member => DataParserJsonAlphaAPI.timeSeriesPoint stod member.1 member.2) ≠
              [])) ∧
    (∀ elems, j = .array elems →
      (DataParserJsonAlphaAPI.parseData strtod stod ofInt body).getData.Perm
          (elems.filterMap (DataParserJsonAlphaAPI.arrayPoint ofInt)) ∧
        ((DataParserJsonAlphaAPI.parseData strtod stod ofInt body).parseData = true ↔
          elems.filterMap (DataParserJsonAlphaAPI.arrayPoint ofInt) ≠ [])) ∧
    (∀ timestamp dataPoint bar,
      DataParserJsonAlphaAPI.timeSeriesPoint stod timestamp dataPoint = some bar ↔
        ∃ o h l c v,
          DataParserJsonAlphaAPI.stodAt stod dataPoint (lit "1. open") = some o ∧
          DataParserJsonAlphaAPI.stodAt stod dataPoint (lit "2. high") = some h ∧
          DataParserJsonAlphaAPI.stodAt stod dataPoint (lit "3. low") = some l ∧
          DataParserJsonAlphaAPI.stodAt stod dataPoint (lit "4. close") = some c ∧
          DataParserJsonAlphaAPI.stodAt stod dataPoint (lit "5. volume") = some v ∧
          bar = ⟨timestamp, o, h, l, c, v⟩) ∧
    (∀ dataPoint key x,
      DataParserJsonAlphaAPI.stodAt stod dataPoint key = some x ↔
        ∃ text, dataPoint.atKey key = some (.string text) ∧ stod text = some x) ∧
    (∀ entry bar,
      DataParserJsonAlphaAPI.arrayPoint ofInt entry = some bar ↔
        ∃ ts o h l c v, entry.atKey (lit "timestamp") = some (.string ts) ∧
          (entry.atKey (lit "open")).bind (nlohmann.Json.get_double ofInt) = some o ∧
          (entry.atKey (lit "high")).bind (nlohmann.Json.get_double ofInt) = some h ∧
          (entry.atKey (lit "low")).bind (nlohmann.Json.get_double ofInt) = some l ∧
          (entry.atKey (lit "close")).bind (nlohmann.Json.get_double ofInt) = some c ∧
          (entry.atKey (lit "volume")).bind (nlohmann.Json.get_double ofInt) = some v ∧
          bar = ⟨ts, o, h, l, c, v⟩) := by
  refine ⟨fun key members hkey hts => ?_, fun elems hj => ?_,
    DataParserJsonAlphaAPI.timeSeriesPoint_eq_some stod,
    DataParserJsonAlphaAPI.stodAt_eq_some stod,
    DataParserJsonAlphaAPI.arrayPoint_eq_some ofInt⟩
  · rw [DataParserJsonAlphaAPI.parseData_timeSeries strtod stod ofInt body j hparse hinfo herr
      hnote key hkey members hts]
    exact ⟨finishParse_perm _, finishParse_true_iff _⟩
  · subst hj
    rw [DataParserJsonAlphaAPI.parseData_array strtod stod ofInt body elems hparse]
    exact ⟨finishParse_perm _, finishParse_true_iff _⟩

set_option maxRecDepth 4000 in
theorem json_data_points_witness :
    (DataParserJsonAlphaAPI.parseData (fun _ => 0) (fun _ => none) (fun _ => 0x3FF0000000000000)
        (lit ("[\x7b\"timestamp\":\"b\",\"open\":1,\"high\":1,\"low\":1,\"close\":1,\"volume\":1\x7d," ++
          "\x7b\"timestamp\":\"a\",\"high\":1,\"low\":1,\"close\":1,\"volume\":1\x7d]"))).getData.Perm
      [⟨lit "b", 0x3FF0000000000000, 0x3FF0000000000000, 0x3FF0000000000000,
        0x3FF0000000000000, 0x3FF0000000000000⟩] :=
  ((json_data_points (fun _ => 0) (fun _ => none) (fun _ => 0x3FF0000000000000)
      (lit ("[\x7b\"timestamp\":\"b\",\"open\":1,\"high\":1,\"low\":1,\"close\":1,\"volume\":1\x7d," ++
        "\x7b\"timestamp\":\"a\",\"high\":1,\"low\":1,\"close\":1,\"volume\":1\x7d]"))
      _ rfl rfl rfl rfl).2.1 _ rfl).1.trans (List.Perm.of_eq rfl)

/-! ## Theorems: the refresh task with the parsers of `DataParser.cpp` -/

namespace DataParserCSVAlphaAPI

theorem parseData_some (num_get : CppString → Option (Double × CppString))
    (fileContent : CppString) :
    parseData num_get (some fileContent) =
      finishParse (((getlines fileContent).drop 1).filterMap (parseLine num_get)) := by
  unfold parseData
  cases hl : getlines fileContent with
  | nil => simp only [hl]; rfl
  | cons header lines => simp only [hl, parseLines_eq, List.drop_succ_cons, List.drop_zero]

theorem parseData_csv_ascending (num_get : CppString → Option (Double × CppString))
    (file : Option CppString) (h : (parseData num_get file).parseData = true) :
    (parseData num_get file).getData ≠ [] ∧ Ascending (parseData num_get file).getData := by
  cases file with
  | none => simp [parseData] at h
  | some fileContent =>
    rw [parseData_some] at h ⊢
    exact ⟨(finishParse_true_iff_getData _).1 h, finishParse_ascending _⟩

end DataParserCSVAlphaAPI

namespace DataParserJsonAlphaAPI

theorem parseData_json_ascending (strtod : CppString → Double) (stod : CppString → Option Double)
    (ofInt : Int → Double) (body : CppString)
    (h : (parseData strtod stod ofInt body).parseData = true) :
    (parseData strtod stod ofInt body).getData ≠ [] ∧
      Ascending (parseData strtod stod ofInt body).getData := by
  refine ⟨?_, ?_⟩
  · intro hnil
    rw [parseData_eq_not_isEmpty, hnil] at h
    exact absurd h (by decide)
  · unfold parseData
    split
    · exact List.Pairwise.nil
    · split
      · exact List.Pairwise.nil
      · split
        · split
          · exact finishParse_ascending _
          · exact List.Pairwise.nil
        · split
          · exact finishParse_ascending _
          · exact List.Pairwise.nil

end DataParserJsonAlphaAPI

/-- Every snapshot in the cache is non-empty and in ascending order once it is so before
a symbol is refreshed, when both parsers return `true` only with such bars. -/
theorem refreshCache_ascending (env : Environment) (config : MarketDataServer.ServerConfig)
    (hjson : ∀ body, (env.createJSONParser body).parseData = true →
      (env.createJSONParser body).getData ≠ [] ∧ Ascending (env.createJSONParser body).getData)
    (hcsv : ∀ path, (env.createCSVParser path).parseData = true →
      (env.createCSVParser path).getData ≠ [] ∧ Ascending (env.createCSVParser path).getData)
    (g_dataCache : MarketDataServer.DataCache) (symbol : CppString)
    (hinv : ∀ S data, UMap.find g_dataCache.m_cache S = some data → data ≠ [] ∧ Ascending data) :
    ∀ S data, UMap.find (refreshCache env config g_dataCache symbol).1.m_cache S = some data →
      data ≠ [] ∧ Ascending data := by
  have hupd : ∀ B : List MarketDataEntry, (B ≠ [] ∧ Ascending B) →
      ∀ S data, UMap.find (g_dataCache.updateData symbol B).m_cache S = some data →
        data ≠ [] ∧ Ascending data := by
    intro B hB S data hfind
    unfold MarketDataServer.DataCache.updateData at hfind
    by_cases hS : symbol = S
    · subst hS
      rw [UMap.find_assign_self] at hfind
      rw [← Option.some.inj hfind]
      exact hB
    · rw [UMap.find_assign_of_ne _ _ hS] at hfind
      exact hinv S data hfind
  unfold refreshCache
  by_cases hapi : env.FetchMarketData symbol ≠ [] ∧
      (env.createJSONParser (env.FetchMarketData symbol)).parseData = true
  · simp only [hapi, ne_eq, not_false_eq_true, and_self, if_true]
    exact hupd _ (hjson _ hapi.2)
  · simp only [hapi, if_false]
    cases hpath : UMap.find config.symbolCSVPaths symbol with
    | none => exact hinv
    | some path =>
      by_cases hc : (env.createCSVParser path).parseData = true
      · simp only [hc, if_true]
        exact hupd _ (hcsv _ hc)
      · simp only [hc, Bool.false_eq_true, if_false]
        exact hinv

theorem pass_ascending (to_chars : Double → CppString) (env : Environment)
    (config : MarketDataServer.ServerConfig)
    (hjson : ∀ body, (env.createJSONParser body).parseData = true →
      (env.createJSONParser body).getData ≠ [] ∧ Ascending (env.createJSONParser body).getData)
    (hcsv : ∀ path, (env.createCSVParser path).parseData = true →
      (env.createCSVParser path).getData ≠ [] ∧ Ascending (env.createCSVParser path).getData)
    (symbols : List CppString) :
    ∀ st : ServerState,
      (∀ S data, UMap.find st.g_dataCache.m_cache S = some data → data ≠ [] ∧ Ascending data) →
      ∀ S data,
        UMap.find (symbols.foldl (fun s symbol => (updateSymbol to_chars env config s symbol).1)
          st).g_dataCache.m_cache S = some data → data ≠ [] ∧ Ascending data := by
  induction symbols with
  | nil => intro st hinv; exact hinv
  | cons symbol rest ih =>
    intro st hinv
    rw [List.foldl_cons]
    apply ih
    rw [(updateSymbol_fst_cache to_chars env config st symbol).1]
    exact refreshCache_ascending env config hjson hcsv st.g_dataCache symbol hinv

theorem DataUpdateTask_ascending (to_chars : Double → CppString) (strtod : CppString → Double)
    (stod : CppString → Option Double) (ofInt : Int → Double)
    (num_get : CppString → Option (Double × CppString))
    (config : MarketDataServer.ServerConfig) (worlds : List World) :
    ∀ st : ServerState,
      (∀ S data, UMap.find st.g_dataCache.m_cache S = some data → data ≠ [] ∧ Ascending data) →
      ∀ S data,
        UMap.find (DataUpdateTask to_chars strtod stod ofInt num_get config worlds
          st).g_dataCache.m_cache S = some data → data ≠ [] ∧ Ascending data := by
  induction worlds with
  | nil => intro st hinv; exact hinv
  | cons w rest ih =>
    intro st hinv
    unfold DataUpdateTask
    rw [List.foldl_cons]
    apply ih
    unfold DataUpdateTask_pass
    exact pass_ascending to_chars (w.env strtod stod ofInt num_get) config
      (fun body h => DataParserJsonAlphaAPI.parseData_json_ascending strtod stod ofInt body h)
      (fun path h => DataParserCSVAlphaAPI.parseData_csv_ascending num_get (w.readFile path) h)
      config.symbols st hinv

/-- C29: what `parseData` leaves and what the scheduler and the clients get of it.
Whenever the CSV parser returns `true`, `getData()` is not empty, is in non-decreasing
order of timestamp, and is a permutation of the bars the lines after the first give.
Whenever the JSON parser returns `true`, `getData()` is not empty, is in non-decreasing
order of timestamp, and is a permutation of the bars the members of the time series, or
the elements of the array, give. The refresh task keeps every snapshot in the cache
non-empty and in non-decreasing order of timestamp, pass after pass, in whatever world
each pass runs. So, from the empty cache the server starts with, what `SendMarketData`
reads from the cache is in that order; when it is empty an error line is written and no
DATA frame; when it is not empty the frame is the header and the serialized snapshot. -/
theorem snapshots_ascending (to_chars : Double → CppString) (strtod : CppString → Double)
    (stod : CppString → Option Double) (ofInt : Int → Double)
    (num_get : CppString → Option (Double × CppString)) :
    (∀ file, (DataParserCSVAlphaAPI.parseData num_get file).parseData = true →
      (DataParserCSVAlphaAPI.parseData num_get file).getData ≠ [] ∧
        Ascending (DataParserCSVAlphaAPI.parseData num_get file).getData ∧
        ∃ fileContent, file = some fileContent ∧
          (DataParserCSVAlphaAPI.parseData num_get file).getData.Perm
            (((getlines fileContent).drop 1).filterMap
              (DataParserCSVAlphaAPI.parseLine num_get))) ∧
    (∀ body, (DataParserJsonAlphaAPI.parseData strtod stod ofInt body).parseData = true →
      (DataParserJsonAlphaAPI.parseData strtod stod ofInt body).getData ≠ [] ∧
        Ascending (DataParserJsonAlphaAPI.parseData strtod stod ofInt body).getData ∧
        ∃ j, nlohmann.parse strtod body = some j ∧
          ((∃ key members,
              DataParserJsonAlphaAPI.possibleKeys.find? (fun k => j.contains k) = some key ∧
              j.atKey key = some (.object members) ∧
              (DataParserJsonAlphaAPI.parseData strtod stod ofInt body).getData.Perm
                (members.filterMap (fun member =>
                  DataParserJsonAlphaAPI.timeSeriesPoint stod member.1 member.2))) ∨
            ∃ elems, j = .array elems ∧
              (DataParserJsonAlphaAPI.parseData strtod stod ofInt body).getData.Perm
                (elems.filterMap (DataParserJsonAlphaAPI.arrayPoint ofInt)))) ∧
    (∀ (config : MarketDataServer.ServerConfig) (worlds : List World) (st : ServerState),
      (∀ S data, UMap.find st.g_dataCache.m_cache S = some data → data ≠ [] ∧ Ascending data) →
      ∀ S data,
        UMap.find (DataUpdateTask to_chars strtod stod ofInt num_get config worlds
          st).g_dataCache.m_cache S = some data → data ≠ [] ∧ Ascending data) ∧
    (∀ (config : MarketDataServer.ServerConfig) (worlds : List World) (st : ServerState)
      (symbol : CppString) (socket : Socket),
      st.g_dataCache = MarketDataServer.DataCache.empty →
      Ascending ((DataUpdateTask to_chars strtod stod ofInt num_get config worlds
          st).g_dataCache.getData symbol) ∧
        ((DataUpdateTask to_chars strtod stod ofInt num_get config worlds
            st).g_dataCache.getData symbol = [] →
          SendMarketData to_chars
              (DataUpdateTask to_chars strtod stod ofInt num_get config worlds st).g_dataCache
              socket symbol =
            (socket.write
              (lit "ERROR: No data available for symbol: " ++ symbol ++ lit "\n")).2) ∧
        ∀ dataStr,
          (DataUpdateTask to_chars strtod stod ofInt num_get config worlds
            st).g_dataCache.getData symbol ≠ [] →
          nlohmann.dump to_chars (.array
            (((DataUpdateTask to_chars strtod stod ofInt num_get config worlds
              st).g_dataCache.getData symbol).map to_json)) = some dataStr →
          socket.room = none →
          (SendMarketData to_chars
              (DataUpdateTask to_chars strtod stod ofInt num_get config worlds st).g_dataCache
              socket symbol).sent =
            socket.sent ++
              (lit "DATA_SIZE:" ++ to_string dataStr.length ++ lit "\n" ++ dataStr)) := by
  refine ⟨fun file htrue => ?_, fun body htrue => ?_,
    fun config worlds st hinv =>
      DataUpdateTask_ascending to_chars strtod stod ofInt num_get config worlds st hinv,
    fun config worlds st symbol socket hempty => ?_⟩
  · have h := DataParserCSVAlphaAPI.parseData_csv_ascending num_get file htrue
    refine ⟨h.1, h.2, ?_⟩
    cases file with
    | none => simp [DataParserCSVAlphaAPI.parseData] at htrue
    | some fileContent =>
      refine ⟨fileContent, rfl, ?_⟩
      rw [DataParserCSVAlphaAPI.parseData_some]
      exact finishParse_perm _
  · have h := DataParserJsonAlphaAPI.parseData_json_ascending strtod stod ofInt body htrue
    refine ⟨h.1, h.2, ?_⟩
    cases hparse : nlohmann.parse strtod body with
    | none =>
      unfold DataParserJsonAlphaAPI.parseData at htrue
      simp [hparse] at htrue
    | some j =>
      refine ⟨j, rfl, ?_⟩
      by_cases hmsg : j.contains (lit "Information") = true ∨ j.contains (lit "Error") = true ∨
          j.contains (lit "Note") = true
      · rw [DataParserJsonAlphaAPI.parseData_of_message strtod stod ofInt body j hparse hmsg]
          at htrue
        exact absurd htrue (by decide)
      · have h1 : j.contains (lit "Information") = false := by
          cases hc : j.contains (lit "Information")
          · rfl
          · exact absurd (Or.inl hc) hmsg
        have h2 : j.contains (lit "Error") = false := by
          cases hc : j.contains (lit "Error")
          · rfl
          · exact absurd (Or.inr (Or.inl hc)) hmsg
        have h3 : j.contains (lit "Note") = false := by
          cases hc : j.contains (lit "Note")
          · rfl
          · exact absurd (Or.inr (Or.inr hc)) hmsg
        cases hfind : DataParserJsonAlphaAPI.possibleKeys.find? (fun k => j.contains k) with
        | some key =>
          cases hts : j.atKey key with
          | none =>
            unfold DataParserJsonAlphaAPI.parseData at htrue
            simp [hparse, h1, h2, h3, hfind, hts] at htrue
          | some v =>
            cases v with
            | object members =>
              refine Or.inl ⟨key, members, rfl, hts, ?_⟩
              rw [DataParserJsonAlphaAPI.parseData_timeSeries strtod stod ofInt body j hparse
                h1 h2 h3 key hfind members hts]
              exact finishParse_perm _
            | _ =>
              unfold DataParserJsonAlphaAPI.parseData at htrue
              simp [hparse, h1, h2, h3, hfind, hts] at htrue
        | none =>
          cases j with
          | array elems =>
            refine Or.inr ⟨elems, rfl, ?_⟩
            rw [DataParserJsonAlphaAPI.parseData_array strtod stod ofInt body elems hparse]
            exact finishParse_perm _
          | _ =>
            unfold DataParserJsonAlphaAPI.parseData at htrue
            simp [hparse, h1, h2, h3, hfind] at htrue
  · have hinv := DataUpdateTask_ascending to_chars strtod stod ofInt num_get config worlds st
      (by
        intro S data hfind
        rw [hempty] at hfind
        simp [MarketDataServer.DataCache.empty, UMap.find] at hfind)
    refine ⟨?_, fun hnil => ?_, fun dataStr hne hdump hup => ?_⟩
    · unfold MarketDataServer.DataCache.getData
      cases hfind : UMap.find (DataUpdateTask to_chars strtod stod ofInt num_get config worlds
          st).g_dataCache.m_cache symbol with
      | none => exact List.Pairwise.nil
      | some data => exact (hinv symbol data hfind).2
    · unfold SendMarketData
      simp only [hnil, List.isEmpty_nil, if_true]
    · have hemp : ((DataUpdateTask to_chars strtod stod ofInt num_get config worlds
          st).g_dataCache.getData symbol).isEmpty = false := by
        cases hd : (DataUpdateTask to_chars strtod stod ofInt num_get config worlds
            st).g_dataCache.getData symbol with
        | nil => exact absurd hd hne
        | cons b rest => rfl
      unfold SendMarketData
      simp only [hemp, Bool.false_eq_true, if_false, hdump, Socket.write, hup,
        List.append_assoc]

theorem snapshots_ascending_witness :
    Ascending
      (DataParserCSVAlphaAPI.parseData
        (fun s => if s.head? = some 49 then some (0x3FF0000000000000, s.drop 1) else none)
        (some (lit ("timestamp,open,high,low,close,volume\n2024-01-03,1,1,1,1,1\n" ++
          "2024-01-02,1,1,1,1,1\n")))).getData :=
  ((snapshots_ascending (fun _ => []) (fun _ => 0) (fun _ => none) (fun _ => 0)
      (fun s => if s.head? = some 49 then some (0x3FF0000000000000, s.drop 1) else none)).1
    _ (by decide)).2.1

theorem updateSymbol_sockets (to_chars : Double → CppString) (env : Environment)
    (config : MarketDataServer.ServerConfig) (st : ServerState) (symbol : CppString)
    (hwf : st.subManager.WF) (hyes : (refreshCache env config st.g_dataCache symbol).2 = true)
    (h : Handle) (hm : h ∈ (st.subManager.getSubscribers env.alive symbol).1) :
    (updateSymbol to_chars env config st symbol).1.sockets h =
      SendMarketData to_chars (refreshCache env config st.g_dataCache symbol).1
        (st.sockets h) symbol := by
  have hnd : (st.subManager.getSubscribers env.alive symbol).1.Nodup := by
    rw [MarketDataServer.SubscriptionManager.getSubscribers_fst]
    exact ((MarketDataServer.SubscriptionManager.stored_pairwise _ hwf symbol).imp
      (fun hab => Nat.ne_of_lt hab)).filter _
  have hs : (updateSymbol to_chars env config st symbol).1.sockets =
      pushAll to_chars (refreshCache env config st.g_dataCache symbol).1 symbol
        (st.subManager.getSubscribers env.alive symbol).1 st.sockets := by
    unfold updateSymbol
    simp only [hyes, if_true]
  rw [hs, pushAll_of_mem to_chars _ symbol h _ hnd hm]

theorem refreshCache_of_message (strtod : CppString → Double)
    (stod : CppString → Option Double) (ofInt : Int → Double)
    (num_get : CppString → Option (Double × CppString)) (w : World)
    (config : MarketDataServer.ServerConfig) (g_dataCache : MarketDataServer.DataCache)
    (X : CppString)
    (hjson : DataParserJsonAlphaAPI.parseData strtod stod ofInt (w.FetchMarketData X) =
      ⟨false, []⟩)
    (path : CppString) (hpath : UMap.find config.symbolCSVPaths X = some path) :
    refreshCache (w.env strtod stod ofInt num_get) config g_dataCache X =
      if (DataParserCSVAlphaAPI.parseData num_get (w.readFile path)).parseData = true then
        (g_dataCache.updateData X
          (DataParserCSVAlphaAPI.parseData num_get (w.readFile path)).getData, true)
      else (g_dataCache, false) := by
  unfold refreshCache World.env
  simp only [hjson, Bool.false_eq_true, and_false, if_false, hpath]

/-- C21: a remote response for symbol `X` that is JSON with a top-level `Note` member is
not used: the JSON parser returns `false` on it and leaves no bars, so the pass turns to
the CSV path configured for `X`. When the file there can be read and at least one of
its lines after the first gives a bar, the symbol is marked updated, the snapshot of `X`
in the cache becomes the bars of the CSV parser (the bars of those lines, sorted), and
every handle `getSubscribers(X)` returns gets one `SendMarketData` of the new cache on
its socket. When the file cannot be read or gives no bar, the cache and the sockets stay
as they were. -/
theorem note_response_falls_back_to_csv (to_chars : Double → CppString)
    (strtod : CppString → Double) (stod : CppString → Option Double) (ofInt : Int → Double)
    (num_get : CppString → Option (Double × CppString)) (w : World)
    (config : MarketDataServer.ServerConfig) (st : ServerState) (X : CppString)
    (hwf : st.subManager.WF) (j : nlohmann.Json)
    (hparse : nlohmann.parse strtod (w.FetchMarketData X) = some j)
    (hnote : j.contains (lit "Note") = true) (path : CppString)
    (hpath : UMap.find config.symbolCSVPaths X = some path) :
    DataParserJsonAlphaAPI.parseData strtod stod ofInt (w.FetchMarketData X) = ⟨false, []⟩ ∧
    (∀ fileContent, w.readFile path = some fileContent →
      ((getlines fileContent).drop 1).filterMap (DataParserCSVAlphaAPI.parseLine num_get) ≠ [] →
      (updateSymbol to_chars (w.env strtod stod ofInt num_get) config st X).2 = true ∧
        (updateSymbol to_chars (w.env strtod stod ofInt num_get) config st
            X).1.g_dataCache.getData X =
          (DataParserCSVAlphaAPI.parseData num_get (some fileContent)).getData ∧
        ((updateSymbol to_chars (w.env strtod stod ofInt num_get) config st
            X).1.g_dataCache.getData X).Perm
          (((getlines fileContent).drop 1).filterMap
            (DataParserCSVAlphaAPI.parseLine num_get)) ∧
        Ascending ((updateSymbol to_chars (w.env strtod stod ofInt num_get) config st
            X).1.g_dataCache.getData X) ∧
        ∀ h ∈ (st.subManager.getSubscribers w.alive X).1,
          (updateSymbol to_chars (w.env strtod stod ofInt num_get) config st X).1.sockets h =
            SendMarketData to_chars
              (updateSymbol to_chars (w.env strtod stod ofInt num_get) config st
                X).1.g_dataCache
              (st.sockets h) X) ∧
    ((w.readFile path = none ∨
        ∃ fileContent, w.readFile path = some fileContent ∧
          ((getlines fileContent).drop 1).filterMap
            (DataParserCSVAlphaAPI.parseLine num_get) = []) →
      (updateSymbol to_chars (w.env strtod stod ofInt num_get) config st X).2 = false ∧
        (updateSymbol to_chars (w.env strtod stod ofInt num_get) config st X).1.g_dataCache =
          st.g_dataCache ∧
        (updateSymbol to_chars (w.env strtod stod ofInt num_get) config st X).1.sockets =
          st.sockets) := by
  have hjson := DataParserJsonAlphaAPI.parseData_of_message strtod stod ofInt
    (w.FetchMarketData X) j hparse (Or.inr (Or.inr hnote))
  have hrc := refreshCache_of_message strtod stod ofInt num_get w config st.g_dataCache X hjson
    path hpath
  obtain ⟨hc, hu⟩ := updateSymbol_fst_cache to_chars (w.env strtod stod ofInt num_get) config
    st X
  have hget : ∀ (c : MarketDataServer.DataCache) (B : List MarketDataEntry),
      (c.updateData X B).getData X = B := by
    intro c B
    simp [MarketDataServer.DataCache.getData, MarketDataServer.DataCache.updateData,
      UMap.find_assign_self]
  refine ⟨hjson, fun fileContent hfile hrows => ?_, fun hno => ?_⟩
  · have htrue : (DataParserCSVAlphaAPI.parseData num_get (w.readFile path)).parseData =
        true := by
      rw [hfile, DataParserCSVAlphaAPI.parseData_some]
      exact (finishParse_true_iff _).2 hrows
    rw [if_pos htrue, hfile] at hrc
    have hdata : (updateSymbol to_chars (w.env strtod stod ofInt num_get) config st
        X).1.g_dataCache.getData X =
        (DataParserCSVAlphaAPI.parseData num_get (some fileContent)).getData := by
      rw [hc, hrc]
      exact hget _ _
    refine ⟨by rw [hu, hrc], hdata, ?_, ?_, fun h hm => ?_⟩
    · rw [hdata, DataParserCSVAlphaAPI.parseData_some]
      exact finishParse_perm _
    · rw [hdata, DataParserCSVAlphaAPI.parseData_some]
      exact finishParse_ascending _
    · rw [hc]
      exact updateSymbol_sockets to_chars (w.env strtod stod ofInt num_get) config st X hwf
        (by rw [hrc]) h hm
  · have hfalse : ¬ (DataParserCSVAlphaAPI.parseData num_get (w.readFile path)).parseData =
        true := by
      rcases hno with hnone | ⟨fileContent, hfile, hrows⟩
      · rw [hnone]
        simp [DataParserCSVAlphaAPI.parseData]
      · rw [hfile, DataParserCSVAlphaAPI.parseData_some, finishParse_true_iff]
        exact fun hx => hx hrows
    rw [if_neg hfalse] at hrc
    refine ⟨by rw [hu, hrc], by rw [hc, hrc], ?_⟩
    unfold updateSymbol
    simp only [hrc, Bool.false_eq_true, if_false]

set_option maxRecDepth 4000 in
theorem note_response_falls_back_to_csv_witness :
    (⟨[(lit "TSLA", [1, 2])]⟩ : MarketDataServer.SubscriptionManager).WF ∧
      (updateSymbol (fun _ => lit "1")
          ((⟨fun _ => lit "\x7b\"Note\": \"rate limit\"\x7d",
            fun _ => some (lit "timestamp,open,high,low,close,volume\n2024-01-02,1,1,1,1,1\n"),
            fun _ => true⟩ : World).env (fun _ => 0) (fun _ => none) (fun _ => 0)
            (fun s => if s.head? = some 49 then some (0x3FF0000000000000, s.drop 1) else none))
          ⟨8080, [], [lit "TSLA"], [(lit "TSLA", lit "tsla.csv")], 60, [], [], [], []⟩
          ⟨⟨[]⟩, ⟨[(lit "TSLA", [1, 2])]⟩, fun _ => ⟨[], none⟩⟩
          (lit "TSLA")).1.g_dataCache.getData (lit "TSLA") =
        [⟨lit "2024-01-02", 0x3FF0000000000000, 0x3FF0000000000000, 0x3FF0000000000000,
          0x3FF0000000000000, 0x3FF0000000000000⟩] :=
  ⟨by decide,
    ((note_response_falls_back_to_csv (fun _ => lit "1") (fun _ => 0) (fun _ => none)
        (fun _ => 0)
        (fun s => if s.head? = some 49 then some (0x3FF0000000000000, s.drop 1) else none)
        ⟨fun _ => lit "\x7b\"Note\": \"rate limit\"\x7d",
          fun _ => some (lit "timestamp,open,high,low,close,volume\n2024-01-02,1,1,1,1,1\n"),
          fun _ => true⟩
        ⟨8080, [], [lit "TSLA"], [(lit "TSLA", lit "tsla.csv")], 60, [], [], [], []⟩
        ⟨⟨[]⟩, ⟨[(lit "TSLA", [1, 2])]⟩, fun _ => ⟨[], none⟩⟩ (lit "TSLA") (by decide)
        _ rfl rfl (lit "tsla.csv") (by decide)).2.1 _ rfl (by decide)).2.1.trans (by decide)⟩

/-! ## Theorems: loading the configuration -/

/-- C22: `loadConfig` returns a configuration where the claim says it throws. A file
that is not JSON (`port = 9000`): the `json::parse_error` is caught by the first `catch`,
`configJson` stays `null`, the `type_error` of `value` on it is caught by the second
`catch`, and the default configuration is returned. A file whose server section lacks
`api_key`: the `out_of_range` of `at("api_key")` is caught by the second `catch`, and the
configuration is returned with the port read so far, an empty API key and no symbols. In
both cases `main` does not exit: it goes on to start the scheduler and the server. A
file that does not exist makes `loadConfig` throw, as the claim says. -/
theorem loadConfig_returns_after_json_exception :
    (∀ (strtod : CppString → Double) (truncate : Double → Int),
      ConfigLoader.loadConfig ⟨fun _ => true, fun _ => some (lit "port = 9000"), fun _ p => p⟩
          strtod truncate (lit "config.json") = .ok AppConfig.default ∧
        main_startup ⟨fun _ => true, fun _ => some (lit "port = 9000"), fun _ p => p⟩
          strtod truncate (lit "config.json") = none) ∧
    (∀ (strtod : CppString → Double) (truncate : Double → Int),
      ConfigLoader.loadConfig
          ⟨fun _ => true,
            fun _ => some (lit "\x7b\"server\": \x7b\"port\": 9000, \"symbols\": [\"AAPL\"]\x7d\x7d"),
            fun _ p => p⟩
          strtod truncate (lit "config.json") =
        .ok ⟨lit "market_data_log.txt",
          ⟨9000, [], [], [], 60, lit "www.alphavantage.co", lit "/query",
            lit "TIME_SERIES_INTRADAY", lit "1min"⟩,
          lit "127.0.0.1"⟩ ∧
        main_startup
          ⟨fun _ => true,
            fun _ => some (lit "\x7b\"server\": \x7b\"port\": 9000, \"symbols\": [\"AAPL\"]\x7d\x7d"),
            fun _ p => p⟩
          strtod truncate (lit "config.json") = none) ∧
    (∀ (strtod : CppString → Double) (truncate : Double → Int),
      main_startup ⟨fun _ => false, fun _ => none, fun _ p => p⟩
        strtod truncate (lit "config.json") = some 1) :=
  ⟨fun _ _ => ⟨rfl, rfl⟩, fun _ _ => ⟨rfl, rfl⟩, fun _ _ => rfl⟩

/-- C30: `loadConfig` returns a configuration whose `apiRefreshSeconds` is not positive.
The file sets `api_refresh_seconds` to `0` and `api_host` to a number: the `0` is
assigned, the `type_error` of `value("api_host", ...)` is caught by the second `catch`,
and the test `apiRefreshSeconds <= 0` further down is never reached. Without the bad
`api_host` the same file gets the default 60. -/
theorem loadConfig_keeps_nonpositive_refresh :
    (∀ (strtod : CppString → Double) (truncate : Double → Int),
      ConfigLoader.loadConfig
          ⟨fun _ => true,
            fun _ => some (lit ("\x7b\"server\": \x7b\"api_key\": \"K\", \"symbols\": [\"AAPL\"], " ++
              "\"api_refresh_seconds\": 0, \"api_host\": 5\x7d\x7d")),
            fun _ p => p⟩
          strtod truncate (lit "config.json") =
        .ok ⟨lit "market_data_log.txt",
          ⟨8080, lit "K", [lit "AAPL"], [], 0, lit "www.alphavantage.co", lit "/query",
            lit "TIME_SERIES_INTRADAY", lit "1min"⟩,
          lit "127.0.0.1"⟩) ∧
    (∀ (strtod : CppString → Double) (truncate : Double → Int),
      ConfigLoader.loadConfig
          ⟨fun _ => true,
            fun _ => some (lit ("\x7b\"server\": \x7b\"api_key\": \"K\", \"symbols\": [\"AAPL\"], " ++
              "\"api_refresh_seconds\": 0\x7d\x7d")),
            fun _ p => p⟩
          strtod truncate (lit "config.json") =
        .ok ⟨lit "market_data_log.txt",
          ⟨8080, lit "K", [lit "AAPL"], [], 60, lit "www.alphavantage.co", lit "/query",
            lit "TIME_SERIES_INTRADAY", lit "1min"⟩,
          lit "127.0.0.1"⟩) :=
  ⟨fun _ _ => rfl, fun _ _ => rfl⟩

/-! ## Theorems: the client's read loop -/

set_option maxRecDepth 8000 in
/-- C28: the worker discards bytes of a later frame. Two DATA frames of 85 payload bytes
each that arrive in one read: the header read takes all of it into `m_responseBuffer`,
the first payload is cut from it, and the `doReadHeader` that follows empties the buffer
with the second frame in it, so only the first payload is decoded. The same bytes
arriving header by header and payload by payload give both payloads. An error line and a
DATA frame that arrive in one read: the frame is lost. When the first read ends inside
the second header, the rest of that header is taken for an unknown message and the
second payload is lost. -/
theorem worker_discards_bytes_after_frame :
    MarketDataWorker.run
        [lit "DATA_SIZE:85\n" ++
          lit ("[\x7b\"close\":1.5,\"high\":1.5,\"low\":1.5,\"open\":1.5," ++
            "\"timestamp\":\"2024-01-02\",\"volume\":1.5\x7d]") ++
          lit "DATA_SIZE:85\n" ++
          lit ("[\x7b\"close\":1.5,\"high\":1.5,\"low\":1.5,\"open\":1.5," ++
            "\"timestamp\":\"2024-01-03\",\"volume\":1.5\x7d]")] =
      [.newDataArrived
        (lit ("[\x7b\"close\":1.5,\"high\":1.5,\"low\":1.5,\"open\":1.5," ++
          "\"timestamp\":\"2024-01-02\",\"volume\":1.5\x7d]"))] ∧
    MarketDataWorker.run
        [lit "DATA_SIZE:85\n",
          lit ("[\x7b\"close\":1.5,\"high\":1.5,\"low\":1.5,\"open\":1.5," ++
            "\"timestamp\":\"2024-01-02\",\"volume\":1.5\x7d]"),
          lit "DATA_SIZE:85\n",
          lit ("[\x7b\"close\":1.5,\"high\":1.5,\"low\":1.5,\"open\":1.5," ++
            "\"timestamp\":\"2024-01-03\",\"volume\":1.5\x7d]")] =
      [.newDataArrived
          (lit ("[\x7b\"close\":1.5,\"high\":1.5,\"low\":1.5,\"open\":1.5," ++
            "\"timestamp\":\"2024-01-02\",\"volume\":1.5\x7d]")),
        .newDataArrived
          (lit ("[\x7b\"close\":1.5,\"high\":1.5,\"low\":1.5,\"open\":1.5," ++
            "\"timestamp\":\"2024-01-03\",\"volume\":1.5\x7d]"))] ∧
    MarketDataWorker.run
        [lit "ERROR: No data available for symbol: AAPL\n" ++ lit "DATA_SIZE:85\n" ++
          lit ("[\x7b\"close\":1.5,\"high\":1.5,\"low\":1.5,\"open\":1.5," ++
            "\"timestamp\":\"2024-01-02\",\"volume\":1.5\x7d]")] =
      [.serverError (lit " No data available for symbol: AAPL")] ∧
    MarketDataWorker.run
        [lit "DATA_SIZE:85\n" ++
          lit ("[\x7b\"close\":1.5,\"high\":1.5,\"low\":1.5,\"open\":1.5," ++
            "\"timestamp\":\"2024-01-02\",\"volume\":1.5\x7d]") ++ lit "DATA_",
          lit "SIZE:85\n" ++
          lit ("[\x7b\"close\":1.5,\"high\":1.5,\"low\":1.5,\"open\":1.5," ++
            "\"timestamp\":\"2024-01-03\",\"volume\":1.5\x7d]")] =
      [.newDataArrived
          (lit ("[\x7b\"close\":1.5,\"high\":1.5,\"low\":1.5,\"open\":1.5," ++
            "\"timestamp\":\"2024-01-02\",\"volume\":1.5\x7d]")),
        .unknownHeader (lit "SIZE:85")] := by
  refine ⟨by decide, by decide, by decide, by decide⟩

end FlashFeed


